import Mathlib

/-!
# Verovio layout-adjustment callbacks: a shallow embedding

The functor callbacks of `controlelement.cpp`, `harm.cpp`, `ligature.cpp` and `mrpt.cpp`
are embedded as pure functions that take the visited object and the parameter bundle and
return the functor code together with the updated bundle. The child tests of
`ligature.cpp`, `harm.cpp`, `labelabbr.cpp` and `facsimile.cpp`, `Rend::AddChild`, the
pitch functions of `harm.cpp` and the reference lists of `plistinterface.cpp` are embedded
as functions of the values they read.

Conventions of the embedding:

* a C++ pointer to an object is the address (`Nat`) of that object, or the record
  itself when the callee only reads it; a nullable pointer is an `Option`;
* a failed `assert` or a dereference of a null pointer makes the callback return
  `none`; every normal return is `some _`;
* C++ `int` coordinates are `Int`; the coordinates of a page are far away from the
  bounds of a machine integer, and signed overflow is undefined in C++ anyway;
* `LogDebug` has no effect on the state and is left out.
-/

namespace vrv

/-! ## Data model -/

/-- Functor return codes (`vrvdef.h`): continue into the children, skip the children and
go on with the siblings, or stop the traversal. -/
inductive FunctorCode where
  | FUNCTOR_CONTINUE
  | FUNCTOR_SIBLINGS
  | FUNCTOR_STOP
deriving DecidableEq, Repr

/-- Class identifiers of the element kinds that the embedded functions look at. -/
inductive ClassId where
  | CONTROL_ELEMENT
  | DIR
  | DYNAM
  | HARM
  | TEMPO
  | TRILL
  | MORDENT
  | TURN
  | REND
  | TEXT
  | LB
  | FB
  | NOTE
  | DOT
  | LIGATURE
  | SURFACE
  | EDITORIAL_ELEMENT
  | OTHER
deriving DecidableEq, Repr

/-- Values of the attribute `@halign` (`data_HORIZONTALALIGNMENT`). -/
inductive data_HORIZONTALALIGNMENT where
  | HORIZONTALALIGNMENT_NONE
  | HORIZONTALALIGNMENT_left
  | HORIZONTALALIGNMENT_right
  | HORIZONTALALIGNMENT_center
  | HORIZONTALALIGNMENT_justify
deriving DecidableEq, Repr

/-- A node of the element tree: its address, its class id, its `@halign` value (only read
on `REND` nodes, `HORIZONTALALIGNMENT_NONE` when the attribute is not set) and its owned
children in document order. -/
inductive Object where
  | mk (addr : Nat) (classId : ClassId) (halign : data_HORIZONTALALIGNMENT)
      (children : List Object)

namespace Object

/-- Address of the node (the value of `this`). -/
def addr : Object → Nat
  | mk a _ _ _ => a

/-- Class id of the node. -/
def classId : Object → ClassId
  | mk _ c _ _ => c

/-- Value of `GetHalign()`. -/
def GetHalign : Object → data_HORIZONTALALIGNMENT
  | mk _ _ h _ => h

/-- Owned children, in document order. -/
def children : Object → List Object
  | mk _ _ _ cs => cs

/-- `Object::Is(classIds)`: the class id of the node is one of the listed ones. -/
def Is (o : Object) (classIds : List ClassId) : Bool :=
  classIds.contains o.classId

/-- `AttHorizontalAlign::HasHalign()`. -/
def HasHalign (o : Object) : Bool :=
  decide (o.GetHalign ≠ data_HORIZONTALALIGNMENT.HORIZONTALALIGNMENT_NONE)

end Object

mutual
/-- First node of class `c` in the pre-order walk of the tree rooted at the node. -/
def findByTypeFrom (c : ClassId) : Object → Option Object
  | Object.mk a cls h cs =>
    if cls = c then some (Object.mk a cls h cs) else findByTypeIn c cs
/-- First node of class `c` in the pre-order walk of a forest, trees taken left to right. -/
def findByTypeIn (c : ClassId) : List Object → Option Object
  | [] => none
  | o :: os =>
    match findByTypeFrom c o with
    | some r => some r
    | none => findByTypeIn c os
end

/-- Modelled from the spec: `Object::FindDescendantByType` is not part of the excerpt. It
returns a single node, found by the depth-first, pre-order traversal of the dispatch
protocol with the children in document order; the starting node itself is not a
candidate. The result is the first descendant of the requested class, or null. -/
def Object.FindDescendantByType (o : Object) (c : ClassId) : Option Object :=
  findByTypeIn c o.children

/-- Embedding of `ControlElement::GetChildRendAlignment`. -/
def ControlElement.GetChildRendAlignment (this : Object) : data_HORIZONTALALIGNMENT :=
  match this.FindDescendantByType ClassId.REND with
  | none => data_HORIZONTALALIGNMENT.HORIZONTALALIGNMENT_NONE
  | some rend =>
    if !rend.HasHalign then data_HORIZONTALALIGNMENT.HORIZONTALALIGNMENT_NONE
    else rend.GetHalign

/-- A floating positioner: its own address, the address of the floating object it points
to (`GetObject()`), the values of `GetContentLeft()` and `GetContentRight()`, and
`HasContentBB()`. -/
structure FloatingPositioner where
  addr : Nat
  object : Nat
  contentLeft : Int
  contentRight : Int
  hasContentBB : Bool
deriving DecidableEq, Repr

namespace FloatingPositioner

/-- Value of `GetContentLeft()`. -/
def GetContentLeft (p : FloatingPositioner) : Int := p.contentLeft

/-- Value of `GetContentRight()`. -/
def GetContentRight (p : FloatingPositioner) : Int := p.contentRight

/-- Value of `HasContentBB()`. -/
def HasContentBB (p : FloatingPositioner) : Bool := p.hasContentBB

end FloatingPositioner

/-- The aligner of a system: the positioners registered in it, in insertion order. -/
structure SystemAligner where
  positioners : List FloatingPositioner
deriving DecidableEq, Repr

/-- Modelled from the spec: `SystemAligner::FindAllPositionerPointingTo` is not part of the
excerpt. It returns all the entries registered for the given element across the staves, in
insertion order; an empty result signals a measurement gap. -/
def SystemAligner.FindAllPositionerPointingTo (a : SystemAligner) (object : Nat) :
    List FloatingPositioner :=
  a.positioners.filter (fun p => p.object == object)

/-- A system, reduced to its aligner. -/
structure System where
  m_systemAligner : SystemAligner
deriving DecidableEq, Repr

/-! ## Overflow resolver -/

/-- Fields of `AdjustXOverflowParams` that `ControlElement::AdjustXOverflow` uses. -/
structure AdjustXOverflowParams where
  m_currentSystem : Option System
  m_currentWidest : Option FloatingPositioner
deriving DecidableEq, Repr

/-- One iteration of the loop of `AdjustXOverflow` over the fetched positioners. -/
def keepWidestStep (currentWidest : Option FloatingPositioner) (positoner : FloatingPositioner) :
    Option FloatingPositioner :=
  match currentWidest with
  | none => some positoner
  | some w => if w.GetContentRight < positoner.GetContentRight then some positoner else some w

/-- Embedding of `ControlElement::AdjustXOverflow`. -/
def ControlElement.AdjustXOverflow (this : Object) (params : AdjustXOverflowParams) :
    Option (FunctorCode × AdjustXOverflowParams) :=
  if !this.Is [ClassId.DIR, ClassId.DYNAM, ClassId.TEMPO] then
    some (FunctorCode.FUNCTOR_SIBLINGS, params)
  else if ControlElement.GetChildRendAlignment this
      = data_HORIZONTALALIGNMENT.HORIZONTALALIGNMENT_right then
    some (FunctorCode.FUNCTOR_SIBLINGS, params)
  else
    match params.m_currentSystem with
    | none => none
    | some currentSystem =>
      let positioners := currentSystem.m_systemAligner.FindAllPositionerPointingTo this.addr
      if positioners.isEmpty then
        some (FunctorCode.FUNCTOR_SIBLINGS, params)
      else
        some (FunctorCode.FUNCTOR_CONTINUE,
          { params with m_currentWidest := positioners.foldl keepWidestStep params.m_currentWidest })

/-- A pass: the callback is applied to the visited nodes in order, the bundle being
threaded through the visits. -/
def runAdjustXOverflow : List Object → AdjustXOverflowParams → Option AdjustXOverflowParams
  | [], params => some params
  | o :: os, params =>
    match ControlElement.AdjustXOverflow o params with
    | none => none
    | some (_, params') => runAdjustXOverflow os params'

/-! ## Harmony labels -/

/-- A layer element, reduced to its address and the alignment it is attached to
(`GetAlignment()`, the address of an `Alignment`). -/
structure LayerElement where
  addr : Nat
  alignment : Nat
deriving DecidableEq, Repr

/-- Value of `GetAlignment()`. -/
def LayerElement.GetAlignment (e : LayerElement) : Nat := e.alignment

/-- A measure as the spacing pass reads it: its address, `GetWidth()` and the alignment of
its right barline (`GetRightBarLine()->GetAlignment()`). -/
structure Measure where
  addr : Nat
  width : Int
  rightBarLineAlignment : Nat
deriving DecidableEq, Repr

/-- Value of `GetWidth()`. -/
def Measure.GetWidth (m : Measure) : Int := m.width

/-- A harmony label: `@n`, `@staff`, the drawing group id (0 when not grouped) and the
start element of its time interface (null when not resolved). -/
structure Harm where
  n : String
  staff : List Int
  m_drawingGrpId : Int
  start : Option LayerElement
deriving DecidableEq, Repr

namespace Harm

/-- Value of `GetN()`. -/
def GetN (h : Harm) : String := h.n

/-- `HasStaff()`: the list of `@staff` is not empty. -/
def HasStaff (h : Harm) : Prop := h.staff ≠ []

instance (h : Harm) : Decidable h.HasStaff := by unfold Harm.HasStaff; infer_instance

/-- Value of `GetDrawingGrpId()`. -/
def GetDrawingGrpId (h : Harm) : Int := h.m_drawingGrpId

/-- Value of `GetStart()`. -/
def GetStart (h : Harm) : Option LayerElement := h.start

end Harm

/-- Modelled from the spec: `StringFormat` is not part of the excerpt; with the format
`%d` it gives the decimal rendering of a signed integer, a minus sign in front of the
digits of a negative one. -/
def StringFormat_d : Int → String
  | Int.ofNat m => Nat.repr m
  | Int.negSucc m => "-" ++ Nat.repr (m + 1)

/-- The key computed at the head of `Harm::PrepareFloatingGrps`: `@n`, or when there is no
`@n` and there is a `@staff`, the first staff number times -1, rendered with `%d`. -/
def Harm.groupingKey (this : Harm) : String :=
  if h : this.GetN = "" ∧ this.HasStaff then StringFormat_d (this.staff.head h.2 * -1)
  else this.GetN

/-- The state that the grouping pass mutates besides its parameter bundle: the harmony
labels of the document by address, and the registry behind the generated group ids. -/
structure HarmStore where
  harms : Nat → Harm
  s_drawingObjectIds : List Nat

/-- `FloatingObject::SetDrawingGrpId` on the label at address `this`. -/
def HarmStore.SetDrawingGrpId (doc : HarmStore) (this : Nat) (drawingGrpId : Int) : HarmStore :=
  let harm : Harm := { doc.harms this with m_drawingGrpId := drawingGrpId }
  { doc with harms := Function.update doc.harms this harm }

/-- Modelled from the spec: `FloatingObject::SetDrawingGrpObject` is not part of the
excerpt; it assigns a group id that is unique per run to the label for which it is called.
Here the id is one more than the position of the representative in a registry of the
representatives seen so far, so that it is never 0. -/
def HarmStore.SetDrawingGrpObject (doc : HarmStore) (this : Nat) (drawingGrpObject : Nat) :
    HarmStore :=
  let ids := if drawingGrpObject ∈ doc.s_drawingObjectIds then doc.s_drawingObjectIds
    else doc.s_drawingObjectIds ++ [drawingGrpObject]
  let harm : Harm :=
    { doc.harms this with m_drawingGrpId := (ids.indexOf drawingGrpObject : Int) + 1 }
  { harms := Function.update doc.harms this harm, s_drawingObjectIds := ids }

/-- `PrepareFloatingGrpsParams`: the map `m_harms` from key to representative label, as
the list of its entries. Its keys are unique, so the order of the entries has no effect on
a search by key. -/
structure PrepareFloatingGrpsParams where
  m_harms : List (String × Nat)
deriving DecidableEq, Repr

/-- `std::map::insert`: nothing happens when the key is there, otherwise one entry is
added. -/
def mapInsert (m : List (String × Nat)) (key : String) (value : Nat) : List (String × Nat) :=
  if m.any (fun kv => kv.1 == key) then m else m ++ [(key, value)]

/-- Embedding of `Harm::PrepareFloatingGrps`, called on the label at address `this`. -/
def Harm.PrepareFloatingGrps (this : Nat) (doc : HarmStore) (params : PrepareFloatingGrpsParams) :
    FunctorCode × HarmStore × PrepareFloatingGrpsParams :=
  let n := (doc.harms this).groupingKey
  match params.m_harms.find? (fun kv => kv.1 == n) with
  | some kv =>
    (FunctorCode.FUNCTOR_CONTINUE,
      doc.SetDrawingGrpId this (doc.harms kv.2).GetDrawingGrpId, params)
  | none =>
    (FunctorCode.FUNCTOR_CONTINUE,
      doc.SetDrawingGrpObject this this, { m_harms := mapInsert params.m_harms n this })

/-- A grouping pass over the labels at the given addresses, in visit order. -/
def runPrepareFloatingGrps :
    List Nat → HarmStore → PrepareFloatingGrpsParams → HarmStore × PrepareFloatingGrpsParams
  | [], doc, params => (doc, params)
  | this :: rest, doc, params =>
    let r := Harm.PrepareFloatingGrps this doc params
    runPrepareFloatingGrps rest r.2.1 r.2.2

/-- The document as the spacing pass reads it: `GetDrawingUnit(staffSize)`, and the effect
on an integer of the statement `wordSpace *= lyricSize.GetValue() / lyricSize.GetDefault()`,
which multiplies in floating point and truncates. -/
structure Doc where
  GetDrawingUnit : Int → Int
  scaleByLyricSize : Int → Int

/-- An entry of `ArrayOfAdjustmentTuples`: start alignment, end alignment, extra width. -/
abbrev AdjustmentTuple := Nat × Nat × Int

/-- Fields of `AdjustHarmGrpsSpacingParams`. -/
structure AdjustHarmGrpsSpacingParams where
  m_grpIds : List Int
  m_currentGrp : Int
  m_previousHarmPositioner : Option FloatingPositioner
  m_previousHarmStart : Option LayerElement
  m_previousMeasure : Option Measure
  m_overlapingHarm : List AdjustmentTuple
  m_doc : Doc
  m_currentSystem : Option System

/-- Outcome of a visit of the spacing pass: the functor code, the bundle, and the calls of
`MeasureAligner::AdjustProportionally` made by the visit, each one as the address of the
measure and the list of tuples passed to its aligner. -/
structure HarmSpacingResult where
  code : FunctorCode
  params : AdjustHarmGrpsSpacingParams
  adjusted : List (Nat × List AdjustmentTuple)

/-- One iteration of the loop of `AdjustHarmGrpsSpacing` over the fetched positioners. -/
def keepLeftmostStep (harmPositioner : Option FloatingPositioner)
    (positioner : FloatingPositioner) : Option FloatingPositioner :=
  match harmPositioner with
  | none => some positioner
  | some h => if h.GetContentLeft > positioner.GetContentLeft then some positioner else some h

/-- Embedding of `Harm::AdjustHarmGrpsSpacing`, called on the label at address `this`. -/
def Harm.AdjustHarmGrpsSpacing (harms : Nat → Harm) (this : Nat)
    (params : AdjustHarmGrpsSpacingParams) : Option HarmSpacingResult :=
  let currentGrpId := (harms this).GetDrawingGrpId
  if currentGrpId = 0 then
    some ⟨FunctorCode.FUNCTOR_SIBLINGS, params, []⟩
  else if params.m_currentGrp = 0 then
    if currentGrpId ∈ params.m_grpIds then
      some ⟨FunctorCode.FUNCTOR_SIBLINGS, params, []⟩
    else
      some ⟨FunctorCode.FUNCTOR_SIBLINGS,
        { params with m_grpIds := params.m_grpIds ++ [currentGrpId] }, []⟩
  else if currentGrpId ≠ params.m_currentGrp then
    some ⟨FunctorCode.FUNCTOR_SIBLINGS, params, []⟩
  else
    match params.m_currentSystem with
    | none => none
    | some currentSystem =>
      let positioners := currentSystem.m_systemAligner.FindAllPositionerPointingTo this
      if positioners.isEmpty then
        some ⟨FunctorCode.FUNCTOR_SIBLINGS, params, []⟩
      else
        match positioners.foldl keepLeftmostStep none with
        | none => some ⟨FunctorCode.FUNCTOR_SIBLINGS, params, []⟩
        | some harmPositioner =>
          if !harmPositioner.HasContentBB then
            some ⟨FunctorCode.FUNCTOR_SIBLINGS, params, []⟩
          else
            match (harms this).GetStart with
            | none => none
            | some start =>
              match params.m_previousHarmPositioner with
              | none =>
                some ⟨FunctorCode.FUNCTOR_SIBLINGS,
                  { params with
                    m_previousHarmStart := some start
                    m_previousHarmPositioner := some harmPositioner
                    m_previousMeasure := none }, []⟩
              | some previousHarmPositioner =>
                let xShift : Int :=
                  match params.m_previousMeasure with
                  | some previousMeasure => previousMeasure.GetWidth
                  | none => 0
                let overlap := previousHarmPositioner.GetContentRight
                  - (harmPositioner.GetContentLeft + xShift)
                let wordSpace := 2 * params.m_doc.GetDrawingUnit 100
                let wordSpace := params.m_doc.scaleByLyricSize wordSpace
                let overlap := overlap + wordSpace
                if overlap > 0 then
                  match params.m_previousHarmStart with
                  | none => none
                  | some previousHarmStart =>
                    match params.m_previousMeasure with
                    | some previousMeasure =>
                      let tuples := params.m_overlapingHarm ++
                        [(previousHarmStart.GetAlignment,
                          previousMeasure.rightBarLineAlignment, overlap)]
                      some ⟨FunctorCode.FUNCTOR_SIBLINGS,
                        { params with
                          m_overlapingHarm := []
                          m_previousHarmStart := some start
                          m_previousHarmPositioner := some harmPositioner
                          m_previousMeasure := none },
                        [(previousMeasure.addr, tuples)]⟩
                    | none =>
                      some ⟨FunctorCode.FUNCTOR_SIBLINGS,
                        { params with
                          m_overlapingHarm := params.m_overlapingHarm ++
                            [(previousHarmStart.GetAlignment, start.GetAlignment, overlap)]
                          m_previousHarmStart := some start
                          m_previousHarmPositioner := some harmPositioner
                          m_previousMeasure := none }, []⟩
                else
                  some ⟨FunctorCode.FUNCTOR_SIBLINGS,
                    { params with
                      m_previousHarmStart := some start
                      m_previousHarmPositioner := some harmPositioner
                      m_previousMeasure := none }, []⟩

/-- A spacing pass over the labels at the given addresses, in visit order: the bundle is
threaded through the visits and the calls of `AdjustProportionally` are collected. -/
def runAdjustHarmGrpsSpacing (harms : Nat → Harm) :
    List Nat → AdjustHarmGrpsSpacingParams →
      Option (AdjustHarmGrpsSpacingParams × List (Nat × List AdjustmentTuple))
  | [], params => some (params, [])
  | this :: rest, params =>
    match Harm.AdjustHarmGrpsSpacing harms this params with
    | none => none
    | some r =>
      match runAdjustHarmGrpsSpacing harms rest r.params with
      | none => none
      | some (params', adjusted) => some (params', r.adjusted ++ adjusted)

/-! ## Ligatures -/

/-- Values of `@form` on a ligature and of `@lig` on a note (`data_LIGATUREFORM`). -/
inductive data_LIGATUREFORM where
  | LIGATUREFORM_NONE
  | LIGATUREFORM_recta
  | LIGATUREFORM_obliqua
deriving DecidableEq, Repr

/-- Values of the notation type of a staff (`data_NOTATIONTYPE`). -/
inductive data_NOTATIONTYPE where
  | NOTATIONTYPE_NONE
  | NOTATIONTYPE_cmn
  | NOTATIONTYPE_mensural
  | NOTATIONTYPE_mensural_black
  | NOTATIONTYPE_mensural_white
  | NOTATIONTYPE_neume
  | NOTATIONTYPE_tab
deriving DecidableEq, Repr

/-- Modelled from the spec: the duration codes are declared outside the excerpt; the
durations of a ligature are maxima, longa, brevis and semibrevis, four distinct codes of
type `int`. This is the code of the maxima. -/
def DUR_MX : Int := -1

/-- Modelled from the spec: the duration code of the longa. -/
def DUR_LG : Int := 0

/-- Modelled from the spec: the duration code of the brevis. -/
def DUR_BR : Int := 1

/-- Modelled from the spec: the duration code of the semibrevis. -/
def DUR_1 : Int := 2

/-- Modelled from the spec: the shape flags are declared outside the excerpt; they are bit
flags (default, stem-left-up, stem-left-down, stem-right-up, stem-right-down, oblique,
stacked), the default shape being the empty set of flags. -/
def LIGATURE_DEFAULT : Nat := 0

/-- Modelled from the spec: the flag stem-left-up, bit 0. -/
def LIGATURE_STEM_LEFT_UP : Nat := 1

/-- Modelled from the spec: the flag stem-left-down, bit 1. -/
def LIGATURE_STEM_LEFT_DOWN : Nat := 2

/-- Modelled from the spec: the flag stem-right-up, bit 2. -/
def LIGATURE_STEM_RIGHT_UP : Nat := 4

/-- Modelled from the spec: the flag stem-right-down, bit 3. -/
def LIGATURE_STEM_RIGHT_DOWN : Nat := 8

/-- Modelled from the spec: the flag oblique, bit 4. -/
def LIGATURE_OBLIQUE : Nat := 16

/-- Modelled from the spec: the flag stacked, bit 5. -/
def LIGATURE_STACKED : Nat := 32

/-- Modelled from the spec: `VRV_UNSET` is declared outside the excerpt; its opposite is the
largest value of an `int`, so that a stack threshold of `-VRV_UNSET` disables the stacking. -/
def VRV_UNSET : Int := -0x7FFFFFFF

/-- A note of a ligature as `CalcLigatureNotePos` reads and writes it: `GetActualDur()`,
`GetDiatonicPitch()`, `GetLig()`, `GetDrawingRadius(doc, true)` and the x-offset
`m_drawingXRel`. -/
structure Note where
  actualDur : Int
  diatonicPitch : Int
  lig : data_LIGATUREFORM
  drawingRadius : Int
  m_drawingXRel : Int
deriving DecidableEq, Repr

namespace Note

/-- Value of `GetActualDur()`. -/
def GetActualDur (n : Note) : Int := n.actualDur

/-- Value of `GetDiatonicPitch()`. -/
def GetDiatonicPitch (n : Note) : Int := n.diatonicPitch

/-- Value of `GetLig()`. -/
def GetLig (n : Note) : data_LIGATUREFORM := n.lig

/-- Value of `GetDrawingRadius(doc, true)`. -/
def GetDrawingRadius (n : Note) : Int := n.drawingRadius

/-- Value of `GetDrawingXRel()`. -/
def GetDrawingXRel (n : Note) : Int := n.m_drawingXRel

/-- The note after `SetDrawingXRel(drawingXRel)`. -/
def SetDrawingXRel (n : Note) (drawingXRel : Int) : Note :=
  { n with m_drawingXRel := drawingXRel }

end Note

/-- The staff of a ligature (`GetAncestorStaff()`, which asserts that there is one): its
notation type and its size. -/
structure Staff where
  m_drawingNotationType : data_NOTATIONTYPE
  m_drawingStaffSize : Int
deriving DecidableEq, Repr

/-- The document as `CalcLigatureNotePos` reads it: the value of the option
`ligatureAsBracket` and `GetDrawingStemWidth(staffSize)`. -/
structure LigatureDoc where
  m_ligatureAsBracket : Bool
  GetDrawingStemWidth : Int → Int

/-- `FunctorDocParams`: a bundle that holds the document. -/
structure FunctorDocParams where
  m_doc : LigatureDoc

/-- A ligature: `@form`, the list that `GetList(this)` returns, which is made of the notes
kept by `FilterList` in document order, and the shapes `m_drawingShapes`, a vector of
`int` that holds sets of shape flags. -/
structure Ligature where
  form : data_LIGATUREFORM
  notes : List Note
  m_drawingShapes : List Nat
deriving DecidableEq, Repr

namespace Ligature

/-- Value of `GetForm()`. -/
def GetForm (l : Ligature) : data_LIGATUREFORM := l.form

/-- Value of `GetList(this)`. -/
def GetList (l : Ligature) : List Note := l.notes

end Ligature

/-- The value of `s & ~flag` on sets of flags. -/
def andNot (s flag : Nat) : Nat := s ^^^ (s &&& flag)

/-- A read of `m_drawingShapes.at(i)`: out of range it throws, which is `none`. -/
def shapeAt (shapes : List Nat) (i : Nat) : Option Nat := shapes[i]?

/-- An update `m_drawingShapes.at(i) = f(m_drawingShapes.at(i))`, which covers the
statements `=`, `|=` and `&=`: out of range it throws, which is `none`. -/
def modifyAt (shapes : List Nat) (i : Nat) (f : Nat → Nat) : Option (List Nat) :=
  match shapes[i]? with
  | some s => some (shapes.set i (f s))
  | none => none

/-- The rule table of `CalcLigatureNotePos` (the chain of tests on the two durations) for
the pair of the notes at `n1` and `n2`; `noteLig` is `@lig` of the second note. -/
def ligatureTable (dur1 dur2 : Int) (up isMaxima isLastNote : Bool)
    (noteLig : data_LIGATUREFORM) (n1 n2 : Nat) (shapes : List Nat) : Option (List Nat) :=
  if dur1 = DUR_LG ∧ dur2 = DUR_LG then
    if up then do
      let shapes ← modifyAt shapes n1 (fun _ => LIGATURE_STEM_RIGHT_DOWN)
      modifyAt shapes n2 (fun _ => LIGATURE_STEM_RIGHT_DOWN)
    else some shapes
  else if dur1 = DUR_LG ∧ dur2 = DUR_BR then
    if up then modifyAt shapes n1 (fun _ => LIGATURE_STEM_RIGHT_DOWN)
    else if !isMaxima ∧ (n1 = 0 ∨ isLastNote) then do
      let shapes ← modifyAt shapes n1 (fun _ => LIGATURE_OBLIQUE)
      if n1 > 0 then modifyAt shapes (n1 - 1) (fun s => andNot s LIGATURE_OBLIQUE)
      else some shapes
    else some shapes
  else if dur1 = DUR_BR ∧ dur2 = DUR_BR then
    if up then some shapes
    else if n1 = 0 ∨ isLastNote then do
      let shapes ← modifyAt shapes n1 (fun _ => LIGATURE_OBLIQUE)
      if n1 > 0 then modifyAt shapes (n1 - 1) (fun s => andNot s LIGATURE_OBLIQUE)
      else modifyAt shapes n1 (fun s => s ||| LIGATURE_STEM_LEFT_DOWN)
    else some shapes
  else if dur1 = DUR_BR ∧ dur2 = DUR_LG then
    if up then modifyAt shapes n2 (fun _ => LIGATURE_STEM_RIGHT_DOWN)
    else do
      let shapes ← if !isLastNote then modifyAt shapes n2 (fun _ => LIGATURE_STEM_RIGHT_DOWN)
        else some shapes
      if n1 = 0 then modifyAt shapes n1 (fun _ => LIGATURE_STEM_LEFT_DOWN)
      else some shapes
  else if dur1 = DUR_1 ∧ dur2 = DUR_1 then
    modifyAt shapes n1 (fun _ => LIGATURE_STEM_LEFT_UP)
  else if dur1 = DUR_1 ∧ dur2 = DUR_LG then
    if up then modifyAt shapes n2 (fun _ => LIGATURE_STEM_RIGHT_DOWN)
    else some shapes
  else if dur1 = DUR_1 ∧ dur2 = DUR_BR then
    if up then some shapes
    else if noteLig ≠ data_LIGATUREFORM.LIGATUREFORM_obliqua then do
      let shapes ← modifyAt shapes n1 (fun _ => LIGATURE_OBLIQUE)
      if n1 > 0 then modifyAt shapes (n1 - 1) (fun s => andNot s LIGATURE_OBLIQUE)
      else some shapes
    else some shapes
  else some shapes

/-- The statement `if (oblique) ...` of `CalcLigatureNotePos` that follows the rule
table. -/
def ligatureForceOblique (oblique : Bool) (n1 : Nat) (shapes : List Nat) : Option (List Nat) :=
  if oblique then do
    let shapes ← modifyAt shapes n1 (fun s => s ||| LIGATURE_OBLIQUE)
    if n1 > 0 then modifyAt shapes (n1 - 1) (fun s => andNot s LIGATURE_OBLIQUE)
    else some shapes
  else some shapes

/-- The stacking statement of `CalcLigatureNotePos` (mensural black notation, longa going
up). -/
def ligatureStack (isLastNote isMensuralBlack : Bool) (dur2 diatonicStep : Int)
    (up previousUp : Bool) (n1 n2 : Nat) (shapes : List Nat) : Option (List Nat) :=
  if isLastNote ∧ isMensuralBlack ∧ dur2 = DUR_LG ∧ up then do
    let stackThreshold : Int ←
      if n1 > 0 ∧ !previousUp then do
        let s ← shapeAt shapes (n1 - 1)
        pure (if s &&& LIGATURE_OBLIQUE ≠ 0 then 2 else -VRV_UNSET)
      else pure 1
    if diatonicStep > stackThreshold then modifyAt shapes n2 (fun _ => LIGATURE_STACKED)
    else some shapes
  else some shapes

/-- The variables of the first loop of `CalcLigatureNotePos`. -/
structure ShapeLoopState where
  m_drawingShapes : List Nat
  previousNote : Option Note
  previousUp : Bool
  n1 : Nat
  n2 : Nat
  oblique : Bool
deriving DecidableEq, Repr

/-- The body of the first loop of `CalcLigatureNotePos` for one note. The test
`note == lastNote` is passed as `isLastNote`. -/
def shapeLoopBody (isMensuralBlack isLastNote : Bool) (note : Note) (st : ShapeLoopState) :
    Option ShapeLoopState :=
  let shapes := st.m_drawingShapes ++ [LIGATURE_DEFAULT]
  match st.previousNote with
  | none => some { st with m_drawingShapes := shapes, previousNote := some note }
  | some previousNote =>
    let oblique : Bool :=
      if previousNote.GetLig = data_LIGATUREFORM.LIGATUREFORM_obliqua then true else st.oblique
    let dur1 := previousNote.GetActualDur
    let dur2 := note.GetActualDur
    let isMaxima : Bool := decide (dur1 = DUR_MX)
    let dur1 := if dur1 = DUR_MX then DUR_LG else dur1
    let dur2 := if dur2 = DUR_MX then DUR_LG else dur2
    let diatonicStep := note.GetDiatonicPitch - previousNote.GetDiatonicPitch
    let up : Bool := decide (diatonicStep > 0)
    do
      let shapes ← ligatureTable dur1 dur2 up isMaxima isLastNote note.GetLig st.n1 st.n2 shapes
      let shapes ← ligatureForceOblique oblique st.n1 shapes
      let shapes ← ligatureStack isLastNote isMensuralBlack dur2 diatonicStep up st.previousUp
        st.n1 st.n2 shapes
      pure { m_drawingShapes := shapes, previousNote := some note, previousUp := up,
             n1 := st.n1 + 1, n2 := st.n2 + 1, oblique := false }

/-- The first loop of `CalcLigatureNotePos` over the notes that are left. The notes of the
list are distinct objects, so that `note == lastNote` holds exactly when no note is left
after the current one. -/
def shapeLoop (isMensuralBlack : Bool) : List Note → ShapeLoopState → Option ShapeLoopState
  | [], st => some st
  | note :: rest, st =>
    match shapeLoopBody isMensuralBlack rest.isEmpty note st with
    | none => none
    | some st' => shapeLoop isMensuralBlack rest st'

/-- The variables of the second loop of `CalcLigatureNotePos`. -/
structure PosLoopState where
  previousRight : Int
  previousNote : Option Note
  n1 : Nat
deriving DecidableEq, Repr

/-- The body of the second loop of `CalcLigatureNotePos` for one note: the note with its
x-offset set, and the variables after the iteration. The product and the division of the
shift are those of C, the division truncating towards zero. -/
def posLoopBody (params : FunctorDocParams) (staff : Staff) (shapes : List Nat) (note : Note)
    (st : PosLoopState) : Option (Note × PosLoopState) := do
  let width := note.GetDrawingRadius * 2
    - params.m_doc.GetDrawingStemWidth staff.m_drawingStaffSize
  let stacked ← shapeAt shapes (st.n1 + 1)
  let previousRight :=
    if stacked &&& LIGATURE_STACKED ≠ 0 then st.previousRight - width else st.previousRight
  let note := note.SetDrawingXRel previousRight
  let previousRight := previousRight + width
  match st.previousNote with
  | none => pure (note, { previousRight := previousRight, previousNote := some note, n1 := st.n1 })
  | some previousNote =>
    let diatonicStep := note.GetDiatonicPitch - previousNote.GetDiatonicPitch
    let shape ← shapeAt shapes st.n1
    if shape &&& LIGATURE_OBLIQUE ≠ 0 ∧ (diatonicStep.natAbs : Int) > 2 then
      let shift := Int.tdiv (((diatonicStep.natAbs : Int) - 2) * width * 2) 3
      let note := note.SetDrawingXRel (note.GetDrawingXRel + shift)
      pure (note,
        { previousRight := previousRight + shift, previousNote := some note, n1 := st.n1 + 1 })
    else
      pure (note, { previousRight := previousRight, previousNote := some note, n1 := st.n1 + 1 })

/-- The second loop of `CalcLigatureNotePos` over the notes that are left: the notes with
their x-offsets set. -/
def posLoop (params : FunctorDocParams) (staff : Staff) (shapes : List Nat) :
    List Note → PosLoopState → Option (List Note)
  | [], _ => some []
  | note :: rest, st =>
    match posLoopBody params staff shapes note st with
    | none => none
    | some (note', st') =>
      match posLoop params staff shapes rest st' with
      | none => none
      | some placed => some (note' :: placed)

/-- Embedding of `Ligature::CalcLigatureNotePos` for a ligature in the staff `staff`. The
call `notes.back()` comes before the test on the size of the list; on an empty list its
behaviour is undefined, which is `none`. -/
def Ligature.CalcLigatureNotePos (params : FunctorDocParams) (staff : Staff) (this : Ligature) :
    Option (FunctorCode × Ligature) :=
  if params.m_doc.m_ligatureAsBracket then some (FunctorCode.FUNCTOR_CONTINUE, this)
  else
    let this : Ligature := { this with m_drawingShapes := [] }
    let notes := this.GetList
    match notes.getLast? with
    | none => none
    | some _ =>
      if notes.length < 2 then some (FunctorCode.FUNCTOR_SIBLINGS, this)
      else
        let isMensuralBlack : Bool := decide (staff.m_drawingNotationType
          = data_NOTATIONTYPE.NOTATIONTYPE_mensural_black)
        let oblique : Bool := decide (notes.length = 2
          ∧ this.GetForm = data_LIGATUREFORM.LIGATUREFORM_obliqua)
        match shapeLoop isMensuralBlack notes
            { m_drawingShapes := this.m_drawingShapes, previousNote := none,
              previousUp := false, n1 := 0, n2 := 1, oblique := oblique } with
        | none => none
        | some st =>
          match posLoop params staff st.m_drawingShapes notes
              { previousRight := 0, previousNote := none, n1 := 0 } with
          | none => none
          | some placed =>
            some (FunctorCode.FUNCTOR_SIBLINGS,
              { this with m_drawingShapes := st.m_drawingShapes, notes := placed })

/-- Embedding of `Ligature::ResetData`: the shapes are emptied; `LayerElement::ResetData`
and `Modify()` do not touch the shapes or the notes. -/
def Ligature.ResetData (this : Ligature) : FunctorCode × Ligature :=
  (FunctorCode.FUNCTOR_CONTINUE, { this with m_drawingShapes := [] })

/-- The first loop of `CalcLigatureNotePos` stopped after its first `k` iterations: the
variables at that point. -/
def shapeLoopFirst (isMensuralBlack : Bool) :
    Nat → List Note → ShapeLoopState → Option ShapeLoopState
  | 0, _, st => some st
  | _ + 1, [], st => some st
  | k + 1, note :: rest, st =>
    match shapeLoopBody isMensuralBlack rest.isEmpty note st with
    | none => none
    | some st' => shapeLoopFirst isMensuralBlack k rest st'

/-- The variables of the first loop of `CalcLigatureNotePos`, called on a ligature in the
staff `staff`, after the first `k` iterations. -/
def Ligature.shapeStateAfter (staff : Staff) (this : Ligature) (k : Nat) :
    Option ShapeLoopState :=
  shapeLoopFirst
    (decide (staff.m_drawingNotationType = data_NOTATIONTYPE.NOTATIONTYPE_mensural_black))
    k this.GetList
    { m_drawingShapes := [], previousNote := none, previousUp := false, n1 := 0, n2 := 1,
      oblique := decide (this.GetList.length = 2
        ∧ this.GetForm = data_LIGATUREFORM.LIGATUREFORM_obliqua) }

/-! ## Ligatures: the loops when no access is out of range -/

/-- A shape carries a flag. -/
def hasFlag (shape flag : Nat) : Prop := shape &&& flag ≠ 0

instance (shape flag : Nat) : Decidable (hasFlag shape flag) := by
  unfold hasFlag; infer_instance

/-- The shapes after an update at an index that is in range (see `modifyAt_eq`). -/
def setShape (shapes : List Nat) (i : Nat) (f : Nat → Nat) : List Nat :=
  shapes.set i (f (shapes[i]?.getD 0))

/-- The result of `ligatureTable` when `n1` and `n2` are in range (see
`ligatureTable_eq`). -/
def ligatureTableTotal (dur1 dur2 : Int) (up isMaxima isLastNote : Bool)
    (noteLig : data_LIGATUREFORM) (n1 n2 : Nat) (shapes : List Nat) : List Nat :=
  if dur1 = DUR_LG ∧ dur2 = DUR_LG then
    if up then
      setShape (setShape shapes n1 (fun _ => LIGATURE_STEM_RIGHT_DOWN)) n2
        (fun _ => LIGATURE_STEM_RIGHT_DOWN)
    else shapes
  else if dur1 = DUR_LG ∧ dur2 = DUR_BR then
    if up then setShape shapes n1 (fun _ => LIGATURE_STEM_RIGHT_DOWN)
    else if !isMaxima ∧ (n1 = 0 ∨ isLastNote) then
      if n1 > 0 then
        setShape (setShape shapes n1 (fun _ => LIGATURE_OBLIQUE)) (n1 - 1)
          (fun s => andNot s LIGATURE_OBLIQUE)
      else setShape shapes n1 (fun _ => LIGATURE_OBLIQUE)
    else shapes
  else if dur1 = DUR_BR ∧ dur2 = DUR_BR then
    if up then shapes
    else if n1 = 0 ∨ isLastNote then
      if n1 > 0 then
        setShape (setShape shapes n1 (fun _ => LIGATURE_OBLIQUE)) (n1 - 1)
          (fun s => andNot s LIGATURE_OBLIQUE)
      else
        setShape (setShape shapes n1 (fun _ => LIGATURE_OBLIQUE)) n1
          (fun s => s ||| LIGATURE_STEM_LEFT_DOWN)
    else shapes
  else if dur1 = DUR_BR ∧ dur2 = DUR_LG then
    if up then setShape shapes n2 (fun _ => LIGATURE_STEM_RIGHT_DOWN)
    else
      if n1 = 0 then
        setShape
          (if !isLastNote then setShape shapes n2 (fun _ => LIGATURE_STEM_RIGHT_DOWN)
            else shapes)
          n1 (fun _ => LIGATURE_STEM_LEFT_DOWN)
      else
        if !isLastNote then setShape shapes n2 (fun _ => LIGATURE_STEM_RIGHT_DOWN)
        else shapes
  else if dur1 = DUR_1 ∧ dur2 = DUR_1 then
    setShape shapes n1 (fun _ => LIGATURE_STEM_LEFT_UP)
  else if dur1 = DUR_1 ∧ dur2 = DUR_LG then
    if up then setShape shapes n2 (fun _ => LIGATURE_STEM_RIGHT_DOWN)
    else shapes
  else if dur1 = DUR_1 ∧ dur2 = DUR_BR then
    if up then shapes
    else if noteLig ≠ data_LIGATUREFORM.LIGATUREFORM_obliqua then
      if n1 > 0 then
        setShape (setShape shapes n1 (fun _ => LIGATURE_OBLIQUE)) (n1 - 1)
          (fun s => andNot s LIGATURE_OBLIQUE)
      else setShape shapes n1 (fun _ => LIGATURE_OBLIQUE)
    else shapes
  else shapes

/-- The result of `ligatureForceOblique` when `n1` is in range (see
`ligatureForceOblique_eq`). -/
def ligatureForceObliqueTotal (oblique : Bool) (n1 : Nat) (shapes : List Nat) : List Nat :=
  if oblique then
    if n1 > 0 then
      setShape (setShape shapes n1 (fun s => s ||| LIGATURE_OBLIQUE)) (n1 - 1)
        (fun s => andNot s LIGATURE_OBLIQUE)
    else setShape shapes n1 (fun s => s ||| LIGATURE_OBLIQUE)
  else shapes

/-- The threshold of the stacking statement. -/
def stackThresholdOf (previousUp : Bool) (n1 : Nat) (shapes : List Nat) : Int :=
  if n1 > 0 ∧ !previousUp then
    if (shapes[n1 - 1]?.getD 0) &&& LIGATURE_OBLIQUE ≠ 0 then 2 else -VRV_UNSET
  else 1

/-- The result of `ligatureStack` when `n1` and `n2` are in range (see
`ligatureStack_eq`). -/
def ligatureStackTotal (isLastNote isMensuralBlack : Bool) (dur2 diatonicStep : Int)
    (up previousUp : Bool) (n1 n2 : Nat) (shapes : List Nat) : List Nat :=
  if isLastNote ∧ isMensuralBlack ∧ dur2 = DUR_LG ∧ up then
    if diatonicStep > stackThresholdOf previousUp n1 shapes then
      setShape shapes n2 (fun _ => LIGATURE_STACKED)
    else shapes
  else shapes

/-- The shapes after the three statements of the first loop for the pair of `previousNote`
and `note`, when `n1` and `n2` are in range. -/
def pairShapes (isMensuralBlack isLastNote : Bool) (previousNote note : Note)
    (oblique previousUp : Bool) (n1 n2 : Nat) (shapes : List Nat) : List Nat :=
  let dur1 := if previousNote.GetActualDur = DUR_MX then DUR_LG else previousNote.GetActualDur
  let dur2 := if note.GetActualDur = DUR_MX then DUR_LG else note.GetActualDur
  let diatonicStep := note.GetDiatonicPitch - previousNote.GetDiatonicPitch
  let up : Bool := decide (diatonicStep > 0)
  ligatureStackTotal isLastNote isMensuralBlack dur2 diatonicStep up previousUp n1 n2
    (ligatureForceObliqueTotal
      (if previousNote.GetLig = data_LIGATUREFORM.LIGATUREFORM_obliqua then true else oblique) n1
      (ligatureTableTotal dur1 dur2 up (decide (previousNote.GetActualDur = DUR_MX)) isLastNote
        note.GetLig n1 n2 shapes))

/-- The result of `shapeLoopBody` when no access is out of range (see
`shapeLoopBody_eq`). -/
def shapeLoopBodyTotal (isMensuralBlack isLastNote : Bool) (note : Note) (st : ShapeLoopState) :
    ShapeLoopState :=
  match st.previousNote with
  | none =>
    { st with m_drawingShapes := st.m_drawingShapes ++ [LIGATURE_DEFAULT],
              previousNote := some note }
  | some previousNote =>
    { m_drawingShapes := pairShapes isMensuralBlack isLastNote previousNote note st.oblique
        st.previousUp st.n1 st.n2 (st.m_drawingShapes ++ [LIGATURE_DEFAULT])
      previousNote := some note
      previousUp := decide (note.GetDiatonicPitch - previousNote.GetDiatonicPitch > 0)
      n1 := st.n1 + 1
      n2 := st.n2 + 1
      oblique := false }

/-- The result of `shapeLoop` when no access is out of range (see `shapeLoop_eq`). -/
def shapeLoopTotal (isMensuralBlack : Bool) : List Note → ShapeLoopState → ShapeLoopState
  | [], st => st
  | note :: rest, st =>
    shapeLoopTotal isMensuralBlack rest
      (shapeLoopBodyTotal isMensuralBlack rest.isEmpty note st)

/-- The variables of the first loop are consistent after `k` notes: there are `k` shapes,
and once a note has been seen `n1` and `n2` are the indices of the last two notes seen. -/
def ShapeLoopInv (st : ShapeLoopState) (k : Nat) : Prop :=
  st.m_drawingShapes.length = k ∧
  ((k = 0 ∧ st.previousNote = none ∧ st.n1 = 0 ∧ st.n2 = 1) ∨
    (1 ≤ k ∧ st.previousNote ≠ none ∧ st.n1 + 1 = k ∧ st.n2 = k))

/-- The updates that the rule table and the oblique statement apply to a shape: a shape
without the stacked flag is assigned, or the flags stem-left-down or oblique are added, or
the flag oblique is removed. -/
inductive ShapeOp : (Nat → Nat) → Prop where
  | stemRightDown : ShapeOp (fun _ => LIGATURE_STEM_RIGHT_DOWN)
  | oblique : ShapeOp (fun _ => LIGATURE_OBLIQUE)
  | stemLeftDown : ShapeOp (fun _ => LIGATURE_STEM_LEFT_DOWN)
  | stemLeftUp : ShapeOp (fun _ => LIGATURE_STEM_LEFT_UP)
  | addStemLeftDown : ShapeOp (fun s => s ||| LIGATURE_STEM_LEFT_DOWN)
  | addOblique : ShapeOp (fun s => s ||| LIGATURE_OBLIQUE)
  | removeOblique : ShapeOp (fun s => andNot s LIGATURE_OBLIQUE)

/-- The shapes that the first loop of `CalcLigatureNotePos` computes for the notes of a
ligature with the given `@form` in a staff, when no access is out of range. -/
def ligatureShapes (staff : Staff) (form : data_LIGATUREFORM) (notes : List Note) : List Nat :=
  (shapeLoopTotal
    (decide (staff.m_drawingNotationType = data_NOTATIONTYPE.NOTATIONTYPE_mensural_black))
    notes
    { m_drawingShapes := [], previousNote := none, previousUp := false, n1 := 0, n2 := 1,
      oblique := decide (notes.length = 2
        ∧ form = data_LIGATUREFORM.LIGATUREFORM_obliqua) }).m_drawingShapes

/-- The variables of the first loop after the notes `seen`, none of which was the last one of
the run (or the notation is not mensural black): they are consistent, `previousNote` is the
last note seen, `previousUp` tells whether the last two notes seen go up, `oblique` has its
starting value `oblique0` until a pair has been treated and is false afterwards, and no
shape carries the stacked flag. -/
def ShapeRunInv (oblique0 : Bool) (st : ShapeLoopState) (seen : List Note) : Prop :=
  ShapeLoopInv st seen.length ∧
  st.previousNote = seen.getLast? ∧
  (∀ x ∈ st.m_drawingShapes, ¬ hasFlag x LIGATURE_STACKED) ∧
  (∀ ys q r, seen = ys ++ [q, r] →
    st.previousUp = decide (r.GetDiatonicPitch - q.GetDiatonicPitch > 0)) ∧
  (seen.length ≤ 1 → st.oblique = oblique0) ∧
  (2 ≤ seen.length → st.oblique = false)

/-- No two adjacent shapes both carry the oblique flag, and the last shape does not carry
it. A missing shape counts as the default one. -/
def ObliqueInv (shapes : List Nat) : Prop :=
  (∀ j, ¬ (hasFlag (shapes[j]?.getD 0) LIGATURE_OBLIQUE
    ∧ hasFlag (shapes[j + 1]?.getD 0) LIGATURE_OBLIQUE)) ∧
  ¬ hasFlag (shapes.getLast?.getD 0) LIGATURE_OBLIQUE

/-- The state of the oblique flags inside the step for the pair at `n1` and `n1 + 1`: no two
adjacent shapes before `n1` both carry the flag, the shape at `n1` carries it only if the
one before does not, and the shape at `n1 + 1` does not carry it. -/
def ObliqueStepInv (n1 : Nat) (shapes : List Nat) : Prop :=
  (∀ j, j + 1 < n1 → ¬ (hasFlag (shapes[j]?.getD 0) LIGATURE_OBLIQUE
    ∧ hasFlag (shapes[j + 1]?.getD 0) LIGATURE_OBLIQUE)) ∧
  (0 < n1 → hasFlag (shapes[n1]?.getD 0) LIGATURE_OBLIQUE →
    ¬ hasFlag (shapes[n1 - 1]?.getD 0) LIGATURE_OBLIQUE) ∧
  ¬ hasFlag (shapes[n1 + 1]?.getD 0) LIGATURE_OBLIQUE

/-! ## Child acceptance -/

/-- Modelled from the spec: `Object::IsEditorialElement` is not part of the excerpt; it tells
whether the node is an editorial wrapper. The class ids of the editorial wrappers are
collapsed into the one id `EDITORIAL_ELEMENT`. -/
def Object.IsEditorialElement (o : Object) : Bool := o.Is [ClassId.EDITORIAL_ELEMENT]

/-- Outcome of a call that adds a child: the element after the call, and whether an error
was reported. -/
structure AddChildResult where
  element : Object
  errorReported : Bool

/-- The element with `child` appended to its owned children (`m_children.push_back(child)`). -/
def Object.pushChild (this child : Object) : Object :=
  Object.mk this.addr this.classId this.GetHalign (this.children ++ [child])

/-- Embedding of `Ligature::IsSupportedChild`. The assertions on the dynamic type of the
child hold for every node, the type of a node being the one of its class id. -/
def Ligature.IsSupportedChild (child : Object) : Bool :=
  if child.Is [ClassId.DOT] then true
  else if child.Is [ClassId.NOTE] then true
  else if child.IsEditorialElement then true
  else false

/-- Embedding of `Harm::IsSupportedChild`. -/
def Harm.IsSupportedChild (child : Object) : Bool :=
  if child.Is [ClassId.LB, ClassId.REND, ClassId.TEXT] then true
  else if child.Is [ClassId.FB] then true
  else if child.IsEditorialElement then true
  else false

/-- Embedding of `LabelAbbr::IsSupportedChild`. -/
def LabelAbbr.IsSupportedChild (child : Object) : Bool :=
  if child.Is [ClassId.LB, ClassId.REND, ClassId.TEXT] then true
  else if child.IsEditorialElement then true
  else false

/-- Embedding of `Facsimile::IsSupportedChild`; the rejection is also logged with
`LogError`. -/
def Facsimile.IsSupportedChild (object : Object) : Bool :=
  if object.Is [ClassId.SURFACE] then true
  else false

/-- Modelled from the spec: `Object::AddChild` is not part of the excerpt. With a child whose
type tag is outside the supported-child set of the element, which `IsSupportedChild` of the
element tells, it leaves the children unchanged and reports the rejection; a supported
child is appended to the owned children. -/
def Object.AddChild (isSupportedChild : Object → Bool) (this child : Object) : AddChildResult :=
  if isSupportedChild child then ⟨this.pushChild child, false⟩
  else ⟨this, true⟩

/-- Embedding of `Rend::AddChild`. `ndebug` tells whether the build defines `NDEBUG`, which
turns `assert` into an empty statement; without it `assert(false)` aborts the program, which
is `none`. In the last branch the error is logged and, when the assertion does not abort,
the statements that follow the chain of tests append the child all the same. -/
def Rend.AddChild (ndebug : Bool) (this child : Object) : Option AddChildResult :=
  if child.Is [ClassId.LB] then some ⟨this.pushChild child, false⟩
  else if child.Is [ClassId.REND] then some ⟨this.pushChild child, false⟩
  else if child.Is [ClassId.TEXT] then some ⟨this.pushChild child, false⟩
  else if child.IsEditorialElement then some ⟨this.pushChild child, false⟩
  else if ndebug then some ⟨this.pushChild child, true⟩
  else none

/-! ## Chord-symbol pitches -/

/-- A text object: the value of `GetText()`, a sequence of wide characters. -/
structure Text where
  m_text : List Char
deriving DecidableEq, Repr

/-- Value of `GetText()`. -/
def Text.GetText (t : Text) : List Char := t.m_text

/-- The text object after `SetText(text)`. -/
def Text.SetText (_t : Text) (text : List Char) : Text := ⟨text⟩

/-- A pitch of the transposition engine, as `TransPitch(pname, accid, oct)` builds it:
pitch-name index, accidental and octave. -/
structure TransPitch where
  m_pname : Int
  m_accid : Int
  m_oct : Int
deriving DecidableEq, Repr

/-- The amount that the loop of `GetRootPitch` adds to `accid` for a character, `none` for
a character at which the loop breaks. -/
def accidOf (c : Char) : Option Int :=
  if c = '𝄫' then some (-2)
  else if c = 'b' ∨ c = '♭' then some (-1)
  else if c = '#' ∨ c = '♯' then some 1
  else if c = '𝄪' then some 2
  else none

/-- The loop `for (pos++; pos < text.length(); pos++)` of `GetRootPitch` once `pos++` is
done: `rest` holds the characters from `pos` on; the result is the final `pos` and `accid`.
A position is an `unsigned int`; it stays below the length of the text plus one. -/
def accidLoop : List Char → Nat → Int → Nat × Int
  | [], pos, accid => (pos, accid)
  | c :: rest, pos, accid =>
    match accidOf c with
    | some a => accidLoop rest (pos + 1) (accid + a)
    | none => (pos, accid)

/-- Embedding of `Harm::GetRootPitch`. `textObject` is the value of
`FindDescendantByType(TEXT, 1)`, a call that is not part of the excerpt: the text object of
the label, or null. The result is the returned flag with the values of the reference
arguments `pitch` and `pos` after the call. The remainder is the one of C, which truncates. -/
def Harm.GetRootPitch (textObject : Option Text) (pitch : TransPitch) (pos : Nat) :
    Bool × TransPitch × Nat :=
  match textObject with
  | none => (false, pitch, pos)
  | some textObject =>
    let text := textObject.GetText
    if h : text.length > pos then
      if text[pos] ≥ 'A' ∧ text[pos] ≤ 'G' then
        let pname := Int.tmod ((text[pos].toNat : Int) - ('C'.toNat : Int) + 7) 7
        let r := accidLoop (text.drop (pos + 1)) (pos + 1) 0
        (true, ⟨pname, r.2, 4⟩, r.1)
      else (false, pitch, pos)
    else (false, pitch, pos)

/-- The value of `&text.at(endPos)` read as a string: the characters from `endPos` up to
the first null character. -/
def cStringFrom (text : List Char) (endPos : Nat) : List Char :=
  (text.drop endPos).takeWhile (fun c => c ≠ Char.ofNat 0)

/-- Embedding of `Harm::SetRootPitch`; `pitchString` is the value of
`pitch.GetPitchString()`. -/
def Harm.SetRootPitch (textObject : Option Text) (pitchString : List Char) (endPos : Nat) :
    Option Text :=
  match textObject with
  | none => none
  | some textObject =>
    let text := textObject.GetText
    if text.length > endPos then some (textObject.SetText (pitchString ++ cStringFrom text endPos))
    else some (textObject.SetText pitchString)

/-- The position of the first `/` of the text, or the length of the text. -/
def slashPos (text : List Char) : Nat := (text.takeWhile (fun c => c ≠ '/')).length

/-- Embedding of `Harm::GetBassPitch`: the root pitch that follows the first `/`. -/
def Harm.GetBassPitch (textObject : Option Text) (pitch : TransPitch) : Bool × TransPitch :=
  match textObject with
  | none => (false, pitch)
  | some t =>
    let text := t.GetText
    if text.length = 0 then (false, pitch)
    else if slashPos text < text.length then
      let r := Harm.GetRootPitch (some t) pitch (slashPos text + 1)
      (r.1, r.2.1)
    else (false, pitch)

/-- Embedding of `Harm::SetBassPitch`. -/
def Harm.SetBassPitch (textObject : Option Text) (pitchString : List Char) : Option Text :=
  match textObject with
  | none => none
  | some t =>
    let text := t.GetText
    some (t.SetText (text.take (slashPos text) ++ [ '/'] ++ pitchString))

/-- The collaborators of `Harm::Transpose` that are not part of the excerpt:
`Transposer::Transpose(pitch)`, which replaces the pitch, and `GetPitchString()`. -/
structure TransposeParams where
  m_transposer : TransPitch → TransPitch
  GetPitchString : TransPitch → List Char

/-- The second statement of `Harm::Transpose`, on the bass note. -/
def Harm.transposeBass (params : TransposeParams) (textObject : Option Text)
    (pitch : TransPitch) : Option Text :=
  let r := Harm.GetBassPitch textObject pitch
  if r.1 then Harm.SetBassPitch textObject (params.GetPitchString (params.m_transposer r.2))
  else textObject

/-- Embedding of `Harm::Transpose`: the functor code and the text object of the label
after the call. `pitch` is the value of the default-constructed `TransPitch`. -/
def Harm.Transpose (params : TransposeParams) (textObject : Option Text) (pitch : TransPitch) :
    FunctorCode × Option Text :=
  let position : Nat := 0
  let r := Harm.GetRootPitch textObject pitch position
  if r.1 then
    let pitch := params.m_transposer r.2.1
    let textObject := Harm.SetRootPitch textObject (params.GetPitchString pitch) r.2.2
    (FunctorCode.FUNCTOR_SIBLINGS, Harm.transposeBass params textObject pitch)
  else
    (FunctorCode.FUNCTOR_SIBLINGS, Harm.transposeBass params textObject r.2.1)

/-! ## Measure repeats -/

/-- Values of `data_BOOLEAN`. -/
inductive data_BOOLEAN where
  | BOOLEAN_NONE
  | BOOLEAN_true
  | BOOLEAN_false
deriving DecidableEq, Repr

/-- Fields of `PrepareRptParams` that `MRpt::PrepareRpt` uses: the address of the current
`MRpt`, or null, and the multi-number toggle. -/
structure PrepareRptParams where
  m_currentMRpt : Option Nat
  m_multiNumber : data_BOOLEAN
deriving DecidableEq, Repr

/-- The state that the pass mutates besides its bundle: `m_drawingMeasureCount` of the
`MRpt` at each address. -/
abbrev MRptStore := Nat → Int

/-- Embedding of `MRpt::PrepareRpt`, called on the `MRpt` at address `this`. -/
def MRpt.PrepareRpt (this : Nat) (doc : MRptStore) (params : PrepareRptParams) :
    FunctorCode × MRptStore × PrepareRptParams :=
  if params.m_multiNumber ≠ data_BOOLEAN.BOOLEAN_true then
    (FunctorCode.FUNCTOR_CONTINUE, doc, params)
  else
    let m_drawingMeasureCount : Int :=
      match params.m_currentMRpt with
      | none => 2
      | some m_currentMRpt => doc m_currentMRpt + 1
    (FunctorCode.FUNCTOR_CONTINUE, Function.update doc this m_drawingMeasureCount,
      { params with m_currentMRpt := some this })

/-- A pass over the `MRpt` elements at the given addresses, in visit order, with one
bundle: the codes returned by the visits, and the state and the bundle after them. -/
def runPrepareRpt :
    List Nat → MRptStore → PrepareRptParams → List FunctorCode × MRptStore × PrepareRptParams
  | [], doc, params => ([], doc, params)
  | this :: rest, doc, params =>
    let r := MRpt.PrepareRpt this doc params
    let r' := runPrepareRpt rest r.2.1 r.2.2
    (r.1 :: r'.1, r'.2.1, r'.2.2)

/-! ## Reference lists -/

/-- The state of a `PlistInterface`: the value of `@plist`, a list of URIs, the identifiers
`m_uuids` extracted from it, and the resolved references `m_references`, which are the
addresses of the objects referred to. -/
structure PlistInterface where
  m_plist : List String
  m_uuids : List String
  m_references : List Nat
deriving DecidableEq, Repr

namespace PlistInterface

/-- Value of `GetPlist()`. -/
def GetPlist (this : PlistInterface) : List String := this.m_plist

/-- The interface after `SetPlist(plist)`. -/
def SetPlist (this : PlistInterface) (plist : List String) : PlistInterface :=
  { this with m_plist := plist }

/-- Embedding of `PlistInterface::AddRef`: `std::find` gives `end()` exactly when `ref` is
not an entry of the list. -/
def AddRef (this : PlistInterface) (ref : String) : PlistInterface :=
  let references := this.GetPlist
  if ref ∉ references then this.SetPlist (references ++ [ref])
  else this

/-- Embedding of `PlistInterface::AddRefAllowDuplicate`. -/
def AddRefAllowDuplicate (this : PlistInterface) (ref : String) : PlistInterface :=
  let references := this.GetPlist
  this.SetPlist (references ++ [ref])

/-- Embedding of `PlistInterface::SetRef`. `IsValidRef` is the virtual method of that name,
which is not part of the excerpt; `ref` is the address of the object. -/
def SetRef (IsValidRef : Nat → Bool) (this : PlistInterface) (ref : Nat) : PlistInterface :=
  if !IsValidRef ref then this
  else if ref ∉ this.m_references then
    { this with m_references := this.m_references ++ [ref] }
  else this

/-- Embedding of `PlistInterface::InterfaceResetData`. -/
def InterfaceResetData (this : PlistInterface) : FunctorCode × PlistInterface :=
  (FunctorCode.FUNCTOR_CONTINUE, { this with m_uuids := [], m_references := [] })

end PlistInterface

/-! ## Specification-side definitions -/

/-- The values of a list without repetition, each one at the place of its first
appearance. -/
def firstAppearances : List Int → List Int
  | [] => []
  | x :: xs => x :: (firstAppearances xs).filter (fun y => decide (y ≠ x))

/-- A visited node is eligible for the overflow resolver: it is a `DIR`, `DYNAM` or `TEMPO`,
it is not right-aligned (`GetChildRendAlignment` is not `right`), and the aligner of the
system has at least one positioner for it. -/
def overflowEligible (sys : System) (o : Object) : Prop :=
  o.classId ∈ [ClassId.DIR, ClassId.DYNAM, ClassId.TEMPO] ∧
  ControlElement.GetChildRendAlignment o ≠ data_HORIZONTALALIGNMENT.HORIZONTALALIGNMENT_right ∧
  sys.m_systemAligner.FindAllPositionerPointingTo o.addr ≠ []

instance (sys : System) (o : Object) : Decidable (overflowEligible sys o) := by
  unfold overflowEligible; infer_instance

/-- The positioners of the eligible nodes among the visited ones, in visit order and, for
one node, in the order of its positioner list. -/
def eligiblePositioners (sys : System) : List Object → List FloatingPositioner
  | [] => []
  | o :: os =>
    (if overflowEligible sys o then sys.m_systemAligner.FindAllPositionerPointingTo o.addr
      else []) ++ eligiblePositioners sys os

mutual
/-- The nodes of the tree rooted at a node, in document (pre-order) order. -/
def preorderFrom : Object → List Object
  | Object.mk a cls h cs => Object.mk a cls h cs :: preorderIn cs
/-- The nodes of a forest, in document (pre-order) order. -/
def preorderIn : List Object → List Object
  | [] => []
  | o :: os => preorderFrom o ++ preorderIn os
end

/-- The descendants of a node, in document order. -/
def Object.descendants (o : Object) : List Object := preorderIn o.children

/-- The node has some descendant `rend` whose `@halign` is `right`. -/
def hasRightAlignedRend (o : Object) : Prop :=
  ∃ r ∈ o.descendants, r.classId = ClassId.REND ∧
    r.GetHalign = data_HORIZONTALALIGNMENT.HORIZONTALALIGNMENT_right

instance (o : Object) : Decidable (hasRightAlignedRend o) := by
  unfold hasRightAlignedRend; infer_instance

/-- The first descendant `rend` of the node in document order, if there is one. -/
def firstRend (o : Object) : Option Object :=
  o.descendants.find? (fun r => decide (r.classId = ClassId.REND))

/-- The number that a list of decimal digit characters stands for. -/
def decimalValue (ds : List Char) : Nat :=
  ds.foldl (fun a c => 10 * a + (c.toNat - 48)) 0

/-- The state of a grouping pass after the labels `seen` have been visited: the keys of the
map are unique, every representative is recorded under its own key and is the first seen
label with that key, and every seen label has a representative recorded for its key and
carries the group id of that representative. -/
def GrpInv (doc : HarmStore) (m : List (String × Nat)) (seen : List Nat) : Prop :=
  (m.map Prod.fst).Nodup ∧
  (∀ kv ∈ m, (doc.harms kv.2).groupingKey = kv.1) ∧
  (∀ kv ∈ m, seen.find? (fun x => (doc.harms x).groupingKey == kv.1) = some kv.2) ∧
  (∀ v ∈ seen, ∃ r, ((doc.harms v).groupingKey, r) ∈ m ∧
    (doc.harms v).GetDrawingGrpId = (doc.harms r).GetDrawingGrpId)

/-- The step of the collecting sub-pass on the list of group ids: the id 0 is skipped, an
id that is in the list is skipped, another id is pushed at the back. -/
def collectGrpId (grpIds : List Int) (currentGrpId : Int) : List Int :=
  if currentGrpId = 0 then grpIds
  else if currentGrpId ∈ grpIds then grpIds
  else grpIds ++ [currentGrpId]

/-- The width carried over from the previous measure: its width when a previous measure is
recorded, 0 otherwise. -/
def measureWidthCarry (params : AdjustHarmGrpsSpacingParams) : Int :=
  match params.m_previousMeasure with
  | some previousMeasure => previousMeasure.GetWidth
  | none => 0

/-- The word space: two drawing units, scaled by the lyric size. -/
def wordSpaceOf (doc : Doc) : Int :=
  doc.scaleByLyricSize (2 * doc.GetDrawingUnit 100)

/-- The overlap of the previous positioner with the current one, as the claims state it. -/
def overlapOf (params : AdjustHarmGrpsSpacingParams) (previous cur : FloatingPositioner) : Int :=
  previous.GetContentRight - (cur.GetContentLeft + measureWidthCarry params)
    + wordSpaceOf params.m_doc

/-- The bundle after a visit that compared the label with the previous one: the pending list
is set as given, and the label and its positioner are recorded as the previous ones. -/
def recordPrevious (params : AdjustHarmGrpsSpacingParams) (pending : List AdjustmentTuple)
    (start : LayerElement) (cur : FloatingPositioner) : AdjustHarmGrpsSpacingParams :=
  { params with
    m_overlapingHarm := pending
    m_previousHarmStart := some start
    m_previousHarmPositioner := some cur
    m_previousMeasure := none }

/-- The width of a note in a ligature: twice its drawing radius minus the stem width of the
staff. -/
def noteWidth (params : FunctorDocParams) (staff : Staff) (note : Note) : Int :=
  note.GetDrawingRadius * 2 - params.m_doc.GetDrawingStemWidth staff.m_drawingStaffSize

/-- The amount by which a note with the given shape is moved back: its own width when the
shape includes the stacked flag, 0 otherwise. -/
def stackBack (shape : Nat) (width : Int) : Int :=
  if hasFlag shape LIGATURE_STACKED then width else 0

/-- The shift of the second note of a pair: when the shape of the first note includes the
oblique flag and the interval is larger than 2 in absolute value, `(|d| - 2) * width * 2 / 3`
with the truncating division, 0 otherwise. -/
def obliqueShift (firstShape : Nat) (diatonicStep width : Int) : Int :=
  if hasFlag firstShape LIGATURE_OBLIQUE ∧ (diatonicStep.natAbs : Int) > 2 then
    Int.tdiv (((diatonicStep.natAbs : Int) - 2) * width * 2) 3
  else 0

/-- The x-offsets of the notes `rest`, the first of which is at index `k`, that follow a note
of pitch `previousPitch` whose running right edge is `edge`: a note starts at the running
right edge, less its own width when it is stacked, plus the oblique shift of its pair; its
running right edge is its x-offset plus its width. -/
def laterOffsets (params : FunctorDocParams) (staff : Staff) (shapes : List Nat) :
    List Note → Nat → Int → Int → List Int
  | [], _, _, _ => []
  | note :: rest, k, previousPitch, edge =>
    let width := noteWidth params staff note
    let x := edge - stackBack (shapes[k]?.getD 0) width
      + obliqueShift (shapes[k - 1]?.getD 0) (note.GetDiatonicPitch - previousPitch) width
    x :: laterOffsets params staff shapes rest (k + 1) note.GetDiatonicPitch (x + width)

/-- The x-offsets of the notes of a run when the first note is put at `first`. -/
def offsetsFrom (params : FunctorDocParams) (staff : Staff) (shapes : List Nat) (first : Int) :
    List Note → List Int
  | [] => []
  | note :: rest =>
    first :: laterOffsets params staff shapes rest 1 note.GetDiatonicPitch
      (first + noteWidth params staff note)

/-- The x-offsets as the specification states them: the first note is at 0. -/
def specOffsets (params : FunctorDocParams) (staff : Staff) (shapes : List Nat)
    (notes : List Note) : List Int :=
  offsetsFrom params staff shapes 0 notes

/-- The x-offsets as the second loop of `CalcLigatureNotePos` computes them: the first note
is moved back by its own width when the shape at index 1, the one of the second note,
includes the stacked flag. -/
def codeOffsets (params : FunctorDocParams) (staff : Staff) (shapes : List Nat)
    (notes : List Note) : List Int :=
  match notes with
  | [] => []
  | note :: _ =>
    offsetsFrom params staff shapes
      (0 - stackBack (shapes[1]?.getD 0) (noteWidth params staff note)) notes

/-- The notes with the given x-offsets. -/
def placeNotes (notes : List Note) (offsets : List Int) : List Note :=
  List.zipWith Note.SetDrawingXRel notes offsets

/-- A note without the state that a layout pass leaves on it: its x-offset is 0, as on a
note that has just been constructed. -/
def Note.fresh (n : Note) : Note := n.SetDrawingXRel 0

/-- A ligature without the state that a layout pass leaves on it: no shapes, and fresh
notes. -/
def Ligature.fresh (l : Ligature) : Ligature :=
  { form := l.form, notes := l.notes.map Note.fresh, m_drawingShapes := [] }

/-- The variables of the first loop, the note they point to being taken without its layout
state. -/
def ShapeLoopState.fresh (st : ShapeLoopState) : ShapeLoopState :=
  { st with previousNote := st.previousNote.map Note.fresh }

/-- A duration is that of a longa or of a maxima. -/
def isLongaOrMaxima (dur : Int) : Prop := dur = DUR_LG ∨ dur = DUR_MX

instance (dur : Int) : Decidable (isLongaOrMaxima dur) := by
  unfold isLongaOrMaxima; infer_instance

/-- The rule table for a run of two notes as the specification states it, a maxima being
matched as a longa: the shapes of the first and of the second note. -/
def twoNoteRule (dur1 dur2 : Int) (up : Bool) : Nat × Nat :=
  if isLongaOrMaxima dur1 ∧ isLongaOrMaxima dur2 then
    if up then (LIGATURE_STEM_RIGHT_DOWN, LIGATURE_STEM_RIGHT_DOWN)
    else (LIGATURE_DEFAULT, LIGATURE_DEFAULT)
  else if isLongaOrMaxima dur1 ∧ dur2 = DUR_BR then
    if up then (LIGATURE_STEM_RIGHT_DOWN, LIGATURE_DEFAULT)
    else if dur1 = DUR_MX then (LIGATURE_DEFAULT, LIGATURE_DEFAULT)
    else (LIGATURE_OBLIQUE, LIGATURE_DEFAULT)
  else if dur1 = DUR_BR ∧ dur2 = DUR_BR then
    if up then (LIGATURE_DEFAULT, LIGATURE_DEFAULT)
    else (LIGATURE_OBLIQUE ||| LIGATURE_STEM_LEFT_DOWN, LIGATURE_DEFAULT)
  else if dur1 = DUR_BR ∧ isLongaOrMaxima dur2 then
    if up then (LIGATURE_DEFAULT, LIGATURE_STEM_RIGHT_DOWN)
    else (LIGATURE_STEM_LEFT_DOWN, LIGATURE_DEFAULT)
  else if dur1 = DUR_1 ∧ dur2 = DUR_1 then
    (LIGATURE_STEM_LEFT_UP, LIGATURE_DEFAULT)
  else if dur1 = DUR_1 ∧ isLongaOrMaxima dur2 then
    if up then (LIGATURE_DEFAULT, LIGATURE_STEM_RIGHT_DOWN)
    else (LIGATURE_DEFAULT, LIGATURE_DEFAULT)
  else if dur1 = DUR_1 ∧ dur2 = DUR_BR then
    if up then (LIGATURE_DEFAULT, LIGATURE_DEFAULT)
    else (LIGATURE_OBLIQUE, LIGATURE_DEFAULT)
  else (LIGATURE_DEFAULT, LIGATURE_DEFAULT)

/-- The threshold of the stacking rule as the specification states it, for a run that ends
with the notes `p` and the last note, `pre` being the notes before `p`: 1 when the last
pair is the first pair or the step to `p` goes up; 2 when that step does not go up and
the note before `p`, two positions before the last one, carries the oblique flag; no
threshold, the last note being never stacked, otherwise. -/
def specStackThreshold (pre : List Note) (p : Note) (shapes : List Nat) : Option Int :=
  match pre.getLast? with
  | none => some 1
  | some q =>
    if p.GetDiatonicPitch - q.GetDiatonicPitch > 0 then some 1
    else if hasFlag (shapes[pre.length - 1]?.getD 0) LIGATURE_OBLIQUE then some 2
    else none

/-- The accidental characters of a chord symbol, as the specification lists them: the
double flat, `b`, the flat sign, `#`, the sharp sign and the double sharp. -/
def isAccidChar (c : Char) : Bool :=
  decide (c ∈ [ '𝄫', 'b', '♭', '#', '♯', '𝄪'])

/-- The amount that an accidental character stands for, as the specification states it: -2
per double flat, -1 per `b` or flat sign, +1 per `#` or sharp sign, +2 per double sharp. -/
def accidValue (c : Char) : Int :=
  if c = '𝄫' then -2
  else if c = 'b' ∨ c = '♭' then -1
  else if c = '#' ∨ c = '♯' then 1
  else if c = '𝄪' then 2
  else 0

/-- The maximal run of accidental characters that directly follows the character at index
`p` of the text. -/
def accidRun (text : List Char) (p : Nat) : List Char :=
  (text.drop (p + 1)).takeWhile isAccidChar

/-- The pitch-name index of a letter, as the specification lists it: C = 0, D = 1, E = 2,
F = 3, G = 4, A = 5, B = 6. -/
def pitchNameIndex (c : Char) : Int :=
  if c = 'C' then 0
  else if c = 'D' then 1
  else if c = 'E' then 2
  else if c = 'F' then 3
  else if c = 'G' then 4
  else if c = 'A' then 5
  else 6

/-- The root part of the text of a label: the characters before the first `/`. -/
def rootPart (textObject : Option Text) : Option (List Char) :=
  textObject.map (fun t => t.GetText.takeWhile (fun c => c ≠ '/'))

/-- The note with a maxima replaced by a longa. -/
def maximaAsLonga (n : Note) : Note :=
  if n.GetActualDur = DUR_MX then { n with actualDur := DUR_LG } else n

/-- The variables of the first loop, the note they point to being taken with a maxima
replaced by a longa. -/
def ShapeLoopState.maximaAsLonga (st : ShapeLoopState) : ShapeLoopState :=
  { st with previousNote := st.previousNote.map vrv.maximaAsLonga }

/-- A maxima is not immediately followed by a brevis at the same or a lower pitch: the
condition on two consecutive notes `a` and `b`. -/
def noMaximaBrevisDown (a b : Note) : Prop :=
  ¬ (a.GetActualDur = DUR_MX ∧ b.GetActualDur = DUR_BR
    ∧ b.GetDiatonicPitch ≤ a.GetDiatonicPitch)

/-- The sum of the widths of the notes before the index `k` of a run. -/
def widthsBefore (params : FunctorDocParams) (staff : Staff) (notes : List Note) (k : Nat) :
    Int :=
  ((notes.take k).map (noteWidth params staff)).sum

/-! ## Sample inputs -/

/-- A system whose aligner holds positioners for the objects at addresses 1, 2, 3 and 4. -/
def sampleSystem : System :=
  ⟨⟨[⟨100, 1, 0, 50, true⟩, ⟨101, 1, 5, 80, true⟩, ⟨102, 2, 10, 80, true⟩,
     ⟨103, 3, 0, 200, true⟩, ⟨104, 4, 0, 90, true⟩, ⟨105, 2, 0, 30, true⟩]⟩⟩

/-- A `dir` with a text child, at address 1. -/
def sampleDir : Object :=
  Object.mk 1 ClassId.DIR data_HORIZONTALALIGNMENT.HORIZONTALALIGNMENT_NONE
    [Object.mk 11 ClassId.TEXT data_HORIZONTALALIGNMENT.HORIZONTALALIGNMENT_NONE []]

/-- A `dynam` with a centred `rend`, at address 2. -/
def sampleDynam : Object :=
  Object.mk 2 ClassId.DYNAM data_HORIZONTALALIGNMENT.HORIZONTALALIGNMENT_NONE
    [Object.mk 21 ClassId.REND data_HORIZONTALALIGNMENT.HORIZONTALALIGNMENT_center []]

/-- A `tempo` whose only `rend` is right-aligned, at address 3. -/
def sampleTempoRight : Object :=
  Object.mk 3 ClassId.TEMPO data_HORIZONTALALIGNMENT.HORIZONTALALIGNMENT_NONE
    [Object.mk 31 ClassId.REND data_HORIZONTALALIGNMENT.HORIZONTALALIGNMENT_right
      [Object.mk 32 ClassId.TEXT data_HORIZONTALALIGNMENT.HORIZONTALALIGNMENT_NONE []]]

/-- A `dir` with two `rend` children, the first left-aligned and the second right-aligned, at
address 4. -/
def sampleDirTwoRends : Object :=
  Object.mk 4 ClassId.DIR data_HORIZONTALALIGNMENT.HORIZONTALALIGNMENT_NONE
    [Object.mk 41 ClassId.REND data_HORIZONTALALIGNMENT.HORIZONTALALIGNMENT_left [],
     Object.mk 42 ClassId.REND data_HORIZONTALALIGNMENT.HORIZONTALALIGNMENT_right []]

/-- A `tempo` for which the aligner has no positioner, at address 5. -/
def sampleTempoUnmeasured : Object :=
  Object.mk 5 ClassId.TEMPO data_HORIZONTALALIGNMENT.HORIZONTALALIGNMENT_NONE []

/-- Harmony labels for the spacing pass: 20, 21, 24 and 25 are in group 101, 22 is in group
102, 23 and every other address is not grouped. -/
def sampleSpacingHarms : Nat → Harm
  | 20 => ⟨"1", [1], 101, some ⟨2000, 600⟩⟩
  | 21 => ⟨"1", [1], 101, some ⟨2001, 601⟩⟩
  | 22 => ⟨"2", [1], 102, some ⟨2002, 602⟩⟩
  | 24 => ⟨"1", [1], 101, some ⟨2004, 604⟩⟩
  | 25 => ⟨"1", [1], 101, some ⟨2005, 605⟩⟩
  | _ => ⟨"", [], 0, none⟩

/-- A system whose aligner holds positioners for the labels 20, 21, 22 and 25, and none for
the label 24. -/
def sampleHarmSystem : System :=
  ⟨⟨[⟨200, 20, 0, 100, true⟩, ⟨201, 21, 90, 150, true⟩, ⟨202, 21, 80, 150, true⟩,
     ⟨203, 21, 80, 140, true⟩, ⟨204, 22, 0, 40, true⟩, ⟨205, 25, 300, 350, true⟩]⟩⟩

/-- A document with a drawing unit of 9 and the default lyric size. -/
def sampleDoc : Doc := ⟨fun _ => 9, fun x => x⟩

/-- A bundle of the spacing pass for group 101 in which the label 20 is the previous one. -/
def sampleSpacingParams : AdjustHarmGrpsSpacingParams :=
  { m_grpIds := [101, 102]
    m_currentGrp := 101
    m_previousHarmPositioner := some ⟨200, 20, 0, 100, true⟩
    m_previousHarmStart := some ⟨2000, 600⟩
    m_previousMeasure := none
    m_overlapingHarm := []
    m_doc := sampleDoc
    m_currentSystem := some sampleHarmSystem }

/-- Harmony labels for the grouping pass: 10 and 12 carry `@n` 1, 11 and 13 have no `@n`
and a first staff 3, 14 has no `@n` and a first staff 4. -/
def sampleGroupingHarms : Nat → Harm
  | 10 => ⟨"1", [1], 0, none⟩
  | 11 => ⟨"", [3], 0, none⟩
  | 12 => ⟨"1", [2], 0, none⟩
  | 13 => ⟨"", [3, 4], 0, none⟩
  | 14 => ⟨"", [4], 0, none⟩
  | _ => ⟨"", [], 0, none⟩

/-- The labels of `sampleGroupingHarms` before the grouping pass. -/
def sampleGroupingDoc : HarmStore := ⟨sampleGroupingHarms, []⟩

/-- A bundle of the collecting sub-pass: no current group, no group id collected yet. -/
def sampleCollectParams : AdjustHarmGrpsSpacingParams :=
  { sampleSpacingParams with m_grpIds := [], m_currentGrp := 0 }

/-- A bundle of the spacing pass for group 101 in which the previous label lies in the
previous measure, of width 500, with the right barline at the alignment 700. -/
def sampleCrossMeasureParams : AdjustHarmGrpsSpacingParams :=
  { sampleSpacingParams with
    m_previousHarmPositioner := some ⟨206, 26, 450, 600, true⟩
    m_previousHarmStart := some ⟨2006, 606⟩
    m_previousMeasure := some ⟨300, 500, 700⟩ }

/-- A document with the ligature-as-bracket option off and a stem width of 2. -/
def sampleLigatureParams : FunctorDocParams := ⟨⟨false, fun _ => 2⟩⟩

/-- A document with the ligature-as-bracket option set and a stem width of 2. -/
def sampleBracketParams : FunctorDocParams := ⟨⟨true, fun _ => 2⟩⟩

/-- A staff in white mensural notation. -/
def sampleWhiteStaff : Staff := ⟨data_NOTATIONTYPE.NOTATIONTYPE_mensural_white, 100⟩

/-- A staff in black mensural notation. -/
def sampleBlackStaff : Staff := ⟨data_NOTATIONTYPE.NOTATIONTYPE_mensural_black, 100⟩

/-- A note of the given duration and diatonic pitch (C4 is 28, E4 is 30, G4 is 32), without
`@lig`, with a drawing radius of 10 and the x-offset `x`. -/
def sampleNote (dur pitch x : Int) : Note :=
  ⟨dur, pitch, data_LIGATUREFORM.LIGATUREFORM_NONE, 10, x⟩

/-- A ligature without `@form` over the given notes, with shapes left by an earlier pass. -/
def sampleLigature (notes : List Note) : Ligature :=
  ⟨data_LIGATUREFORM.LIGATUREFORM_NONE, notes, [LIGATURE_OBLIQUE, LIGATURE_STACKED, 7]⟩

/-- The run brevis at C4, brevis at E4. -/
def sampleBrevisUp : List Note := [sampleNote DUR_BR 28 5, sampleNote DUR_BR 30 (-3)]

/-- The run longa at C4, longa at G4. -/
def sampleLongaUp : List Note := [sampleNote DUR_LG 28 0, sampleNote DUR_LG 32 0]

/-- The run brevis at C4, longa at E4. -/
def sampleBrevisLongaUp : List Note := [sampleNote DUR_BR 28 0, sampleNote DUR_LG 30 0]

/-- The run semibrevis at E4, brevis at C4, the brevis with `@lig="obliqua"`. -/
def sampleSecondObliqua : List Note :=
  [sampleNote DUR_1 30 0,
   { sampleNote DUR_BR 28 0 with lig := data_LIGATUREFORM.LIGATUREFORM_obliqua }]

/-- The run longa at G4, brevis at C4, brevis at D4, longa at A4. -/
def sampleFourNotes : List Note :=
  [sampleNote DUR_LG 32 0, sampleNote DUR_BR 28 0, sampleNote DUR_BR 29 0,
   sampleNote DUR_LG 33 0]

/-- The text of a chord symbol: B, two flats written `b` and with the flat sign, 7, and the
bass note F sharp after the slash. -/
def sampleChord : Text := ⟨[ 'B', 'b', '♭', '7', '/', 'F', '#']⟩

/-- A `rend` with one text child, at address 50. -/
def sampleRend : Object :=
  Object.mk 50 ClassId.REND data_HORIZONTALALIGNMENT.HORIZONTALALIGNMENT_NONE
    [Object.mk 51 ClassId.TEXT data_HORIZONTALALIGNMENT.HORIZONTALALIGNMENT_NONE []]

/-- A note without children, at address 52. -/
def sampleNoteObject : Object :=
  Object.mk 52 ClassId.NOTE data_HORIZONTALALIGNMENT.HORIZONTALALIGNMENT_NONE []

/-- The run longa at G4, brevis at E4, brevis at C4, brevis at A3. -/
def sampleDescending : List Note :=
  [sampleNote DUR_LG 32 0, sampleNote DUR_BR 30 0, sampleNote DUR_BR 28 0,
   sampleNote DUR_BR 26 0]

/-- The run maxima at E4, brevis at C4, longa at E4. -/
def sampleMaximaRun : List Note :=
  [sampleNote DUR_MX 30 0, sampleNote DUR_BR 28 0, sampleNote DUR_LG 30 0]

/-- An interface whose `@plist` holds two URIs and whose references are the objects at the
addresses 7 and 9. -/
def samplePlist : PlistInterface := ⟨["#a", "#b"], ["a", "b"], [7, 9]⟩

/-! ## Overflow resolver: lemmas -/

theorem adjustXOverflow_visit (sys : System) (o : Object) (w : Option FloatingPositioner) :
    ControlElement.AdjustXOverflow o ⟨some sys, w⟩ =
      some (if overflowEligible sys o then FunctorCode.FUNCTOR_CONTINUE
              else FunctorCode.FUNCTOR_SIBLINGS,
            ⟨some sys, (eligiblePositioners sys [o]).foldl keepWidestStep w⟩) := by
  unfold ControlElement.AdjustXOverflow overflowEligible eligiblePositioners
    eligiblePositioners overflowEligible Object.Is
  by_cases h1 : o.classId ∈ [ClassId.DIR, ClassId.DYNAM, ClassId.TEMPO]
  · by_cases h2 : ControlElement.GetChildRendAlignment o
        = data_HORIZONTALALIGNMENT.HORIZONTALALIGNMENT_right
    · simp [h1, h2]
    · by_cases h3 : sys.m_systemAligner.FindAllPositionerPointingTo o.addr = []
      · simp [h1, h2, h3]
      · simp [h1, h2, h3]
  · simp [h1]

theorem eligiblePositioners_cons (sys : System) (o : Object) (os : List Object) :
    eligiblePositioners sys (o :: os)
      = eligiblePositioners sys [o] ++ eligiblePositioners sys os := by
  simp [eligiblePositioners]

theorem runAdjustXOverflow_eq (sys : System) (visited : List Object) :
    ∀ w : Option FloatingPositioner,
      runAdjustXOverflow visited ⟨some sys, w⟩ =
        some ⟨some sys, (eligiblePositioners sys visited).foldl keepWidestStep w⟩ := by
  induction visited with
  | nil => intro w; simp [runAdjustXOverflow, eligiblePositioners]
  | cons o os ih =>
    intro w
    have h := ih ((eligiblePositioners sys [o]).foldl keepWidestStep w)
    simp only [runAdjustXOverflow, adjustXOverflow_visit]
    rw [h, ← List.foldl_append, ← eligiblePositioners_cons]

theorem mem_eligiblePositioners (sys : System) (p : FloatingPositioner) (visited : List Object) :
    p ∈ eligiblePositioners sys visited ↔
      ∃ o ∈ visited, overflowEligible sys o ∧
        p ∈ sys.m_systemAligner.FindAllPositionerPointingTo o.addr := by
  induction visited with
  | nil => simp [eligiblePositioners]
  | cons o os ih =>
    rw [eligiblePositioners, List.mem_append, ih]
    by_cases h : overflowEligible sys o
    · simp [h]
    · simp [h]

theorem eligiblePositioners_eq_nil (sys : System) (visited : List Object) :
    eligiblePositioners sys visited = [] ↔ ∀ o ∈ visited, ¬ overflowEligible sys o := by
  induction visited with
  | nil => simp [eligiblePositioners]
  | cons o os ih =>
    rw [eligiblePositioners, List.append_eq_nil, ih]
    by_cases h : overflowEligible sys o
    · have h3 := h.2.2
      simp [h, h3]
    · simp [h]

/-- The loop that keeps the widest positioner, started on a holder `w`, ends on the first
element of `w :: l` whose right edge is the largest one. -/
theorem foldl_keepWidestStep_some (l : List FloatingPositioner) :
    ∀ w : FloatingPositioner, ∃ pre r post,
      w :: l = pre ++ r :: post ∧ l.foldl keepWidestStep (some w) = some r ∧
      (∀ q ∈ pre, q.GetContentRight < r.GetContentRight) ∧
      (∀ q ∈ post, q.GetContentRight ≤ r.GetContentRight) := by
  induction l using List.reverseRecOn with
  | nil => intro w; exact ⟨[], w, [], by simp⟩
  | append_singleton l x ih =>
    intro w
    obtain ⟨pre, r, post, hsplit, hfold, hpre, hpost⟩ := ih w
    rw [List.foldl_append, hfold]
    by_cases hlt : r.GetContentRight < x.GetContentRight
    · refine ⟨pre ++ r :: post, x, [], ?_, ?_, ?_, ?_⟩
      · rw [← List.cons_append, hsplit]
      · simp [keepWidestStep, hlt]
      · intro q hq
        rcases List.mem_append.1 hq with hq | hq
        · exact lt_trans (hpre q hq) hlt
        · rcases List.mem_cons.1 hq with hq | hq
          · rw [hq]; exact hlt
          · exact lt_of_le_of_lt (hpost q hq) hlt
      · simp
    · refine ⟨pre, r, post ++ [x], ?_, ?_, hpre, ?_⟩
      · rw [← List.cons_append, hsplit]; simp
      · simp [keepWidestStep, hlt]
      · intro q hq
        rcases List.mem_append.1 hq with hq | hq
        · exact hpost q hq
        · rw [List.mem_singleton.1 hq]; exact not_lt.1 hlt

/-- The loop that keeps the widest positioner, started on the null holder, ends on the first
element of a non-empty list whose right edge is the largest one. -/
theorem foldl_keepWidestStep_none (l : List FloatingPositioner) (hl : l ≠ []) :
    ∃ pre r post,
      l = pre ++ r :: post ∧ l.foldl keepWidestStep none = some r ∧
      (∀ q ∈ pre, q.GetContentRight < r.GetContentRight) ∧
      (∀ q ∈ post, q.GetContentRight ≤ r.GetContentRight) := by
  cases l with
  | nil => exact absurd rfl hl
  | cons p ps =>
    obtain ⟨pre, r, post, hsplit, hfold, hpre, hpost⟩ := foldl_keepWidestStep_some ps p
    exact ⟨pre, r, post, hsplit, by simpa [keepWidestStep] using hfold, hpre, hpost⟩

theorem foldl_keepWidestStep_grows (l : List FloatingPositioner) (w : FloatingPositioner) :
    l.foldl keepWidestStep (some w) = some w ∨
      ∃ p, l.foldl keepWidestStep (some w) = some p ∧ w.GetContentRight < p.GetContentRight := by
  obtain ⟨pre, r, post, hsplit, hfold, hpre, _⟩ := foldl_keepWidestStep_some l w
  cases pre with
  | nil =>
    left
    rw [hfold]
    simp only [List.nil_append, List.cons.injEq] at hsplit
    rw [hsplit.1]
  | cons a pre' =>
    right
    simp only [List.cons_append, List.cons.injEq] at hsplit
    exact ⟨r, hfold, hpre w (by rw [hsplit.1]; exact List.mem_cons_self _ _)⟩

mutual
theorem findByTypeFrom_eq_find (c : ClassId) :
    ∀ o : Object, findByTypeFrom c o = (preorderFrom o).find? (fun r => decide (r.classId = c))
  | Object.mk a cls h cs => by
    by_cases hc : cls = c
    · simp [findByTypeFrom, preorderFrom, Object.classId, hc]
    · simp [findByTypeFrom, preorderFrom, Object.classId, hc, findByTypeIn_eq_find c cs]
theorem findByTypeIn_eq_find (c : ClassId) :
    ∀ l : List Object, findByTypeIn c l = (preorderIn l).find? (fun r => decide (r.classId = c))
  | [] => by simp [findByTypeIn, preorderIn]
  | o :: os => by
    rw [findByTypeIn, preorderIn, List.find?_append, findByTypeFrom_eq_find c o,
      findByTypeIn_eq_find c os]
    cases (preorderFrom o).find? (fun r => decide (r.classId = c)) <;> rfl
end

theorem FindDescendantByType_rend (o : Object) :
    o.FindDescendantByType ClassId.REND = firstRend o := by
  unfold Object.FindDescendantByType firstRend Object.descendants
  exact findByTypeIn_eq_find _ _

/-! ## Overflow resolver: claims -/

/-- C1: in a pass of `AdjustXOverflow` that starts with a null `currentWidest`, every visit of
an eligible node (a `DIR`, `DYNAM` or `TEMPO` that is not right-aligned and has positioners)
returns `FUNCTOR_CONTINUE`; if no visited node is eligible `currentWidest` is still null at
the end; otherwise it is a positioner of an eligible visited node, and its content right edge
is at least the content right edge of every positioner of every eligible visited node. -/
theorem C1_adjustXOverflow_maximum (sys : System) (visited : List Object) :
    (∀ o ∈ visited, overflowEligible sys o → ∀ w : Option FloatingPositioner, ∃ params',
      ControlElement.AdjustXOverflow o ⟨some sys, w⟩
        = some (FunctorCode.FUNCTOR_CONTINUE, params')) ∧
    ((∀ o ∈ visited, ¬ overflowEligible sys o) →
      runAdjustXOverflow visited ⟨some sys, none⟩ = some ⟨some sys, none⟩) ∧
    ((∃ o ∈ visited, overflowEligible sys o) →
      ∃ p, runAdjustXOverflow visited ⟨some sys, none⟩ = some ⟨some sys, some p⟩ ∧
        (∃ o ∈ visited, overflowEligible sys o ∧
          p ∈ sys.m_systemAligner.FindAllPositionerPointingTo o.addr) ∧
        ∀ o ∈ visited, overflowEligible sys o →
          ∀ q ∈ sys.m_systemAligner.FindAllPositionerPointingTo o.addr,
            q.GetContentRight ≤ p.GetContentRight) := by
  refine ⟨?_, ?_, ?_⟩
  · intro o _ helig w
    exact ⟨_, by rw [adjustXOverflow_visit, if_pos helig]⟩
  · intro hnone
    rw [runAdjustXOverflow_eq, (eligiblePositioners_eq_nil sys visited).2 hnone]
    rfl
  · intro hsome
    have hne : eligiblePositioners sys visited ≠ [] := by
      intro hnil
      obtain ⟨o, ho, helig⟩ := hsome
      exact (eligiblePositioners_eq_nil sys visited).1 hnil o ho helig
    obtain ⟨pre, r, post, hsplit, hfold, hpre, hpost⟩ := foldl_keepWidestStep_none _ hne
    have hmem : r ∈ eligiblePositioners sys visited := by rw [hsplit]; simp
    refine ⟨r, by rw [runAdjustXOverflow_eq, hfold], ?_, ?_⟩
    · exact (mem_eligiblePositioners sys r visited).1 hmem
    · intro o ho helig q hq
      have hq' : q ∈ eligiblePositioners sys visited :=
        (mem_eligiblePositioners sys q visited).2 ⟨o, ho, helig, hq⟩
      rw [hsplit] at hq'
      rcases List.mem_append.1 hq' with h | h
      · exact le_of_lt (hpre q h)
      · rcases List.mem_cons.1 h with h | h
        · rw [h]
        · exact hpost q h

/-- C1 at a concrete pass: a measured `dir`, a right-aligned `tempo` with the widest box of
the system, a `dynam` and an unmeasured `tempo`; the pass ends on the positioner at address
101, whose right edge 80 is the largest among the eligible ones. -/
theorem C1_adjustXOverflow_maximum_witness :
    runAdjustXOverflow [sampleDir, sampleTempoRight, sampleDynam, sampleTempoUnmeasured]
        ⟨some sampleSystem, none⟩
      = some ⟨some sampleSystem, some ⟨101, 1, 5, 80, true⟩⟩ ∧
    ∃ p, runAdjustXOverflow [sampleDir, sampleTempoRight, sampleDynam, sampleTempoUnmeasured]
        ⟨some sampleSystem, none⟩ = some ⟨some sampleSystem, some p⟩ ∧
      (∃ o ∈ [sampleDir, sampleTempoRight, sampleDynam, sampleTempoUnmeasured],
        overflowEligible sampleSystem o ∧
          p ∈ sampleSystem.m_systemAligner.FindAllPositionerPointingTo o.addr) ∧
      ∀ o ∈ [sampleDir, sampleTempoRight, sampleDynam, sampleTempoUnmeasured],
        overflowEligible sampleSystem o →
          ∀ q ∈ sampleSystem.m_systemAligner.FindAllPositionerPointingTo o.addr,
            q.GetContentRight ≤ p.GetContentRight :=
  ⟨by decide,
    (C1_adjustXOverflow_maximum sampleSystem
      [sampleDir, sampleTempoRight, sampleDynam, sampleTempoUnmeasured]).2.2
      ⟨sampleDir, List.mem_cons_self _ _, by decide⟩⟩

/-- C2: a visit of `AdjustXOverflow` keeps the holder of `currentWidest` or replaces it by a
positioner whose content right edge is strictly greater; and at the end of a pass started with
a null `currentWidest`, the holder is the first of the positioners of the eligible visited
nodes, in visit order and in positioner-list order within a node, that has the largest
content right edge: every one before it is strictly smaller, every one after it is not
greater. -/
theorem C2_adjustXOverflow_first_seen_wins (sys : System) (visited : List Object)
    (hne : eligiblePositioners sys visited ≠ []) :
    (∀ (o : Object) (params params' : AdjustXOverflowParams) (w : FloatingPositioner)
        (code : FunctorCode),
      params.m_currentWidest = some w →
      ControlElement.AdjustXOverflow o params = some (code, params') →
      params'.m_currentWidest = some w ∨
        ∃ p, params'.m_currentWidest = some p ∧ w.GetContentRight < p.GetContentRight) ∧
    ∃ pre r post,
      eligiblePositioners sys visited = pre ++ r :: post ∧
      runAdjustXOverflow visited ⟨some sys, none⟩ = some ⟨some sys, some r⟩ ∧
      (∀ q ∈ pre, q.GetContentRight < r.GetContentRight) ∧
      (∀ q ∈ post, q.GetContentRight ≤ r.GetContentRight) := by
  constructor
  · intro o params params' w code hw hvisit
    unfold ControlElement.AdjustXOverflow at hvisit
    split at hvisit
    · simp only [Option.some.injEq, Prod.mk.injEq] at hvisit
      left; rw [← hvisit.2]; exact hw
    · split at hvisit
      · simp only [Option.some.injEq, Prod.mk.injEq] at hvisit
        left; rw [← hvisit.2]; exact hw
      · split at hvisit
        · exact absurd hvisit (by simp)
        · dsimp only at hvisit
          split at hvisit
          · simp only [Option.some.injEq, Prod.mk.injEq] at hvisit
            left; rw [← hvisit.2]; exact hw
          · simp only [Option.some.injEq, Prod.mk.injEq] at hvisit
            rw [← hvisit.2, hw]
            exact foldl_keepWidestStep_grows _ w
  · obtain ⟨pre, r, post, hsplit, hfold, hpre, hpost⟩ := foldl_keepWidestStep_none _ hne
    exact ⟨pre, r, post, hsplit, by rw [runAdjustXOverflow_eq, hfold], hpre, hpost⟩

/-- C2 at a concrete pass: the positioners at addresses 101 and 102 both have the largest
right edge 80, and the one seen first, 101, is the holder at the end. -/
theorem C2_adjustXOverflow_first_seen_wins_witness :
    eligiblePositioners sampleSystem [sampleDir, sampleDynam]
      = [⟨100, 1, 0, 50, true⟩, ⟨101, 1, 5, 80, true⟩, ⟨102, 2, 10, 80, true⟩,
          ⟨105, 2, 0, 30, true⟩] ∧
    runAdjustXOverflow [sampleDir, sampleDynam] ⟨some sampleSystem, none⟩
      = some ⟨some sampleSystem, some ⟨101, 1, 5, 80, true⟩⟩ ∧
    ∃ pre r post,
      eligiblePositioners sampleSystem [sampleDir, sampleDynam] = pre ++ r :: post ∧
      runAdjustXOverflow [sampleDir, sampleDynam] ⟨some sampleSystem, none⟩
        = some ⟨some sampleSystem, some r⟩ ∧
      (∀ q ∈ pre, q.GetContentRight < r.GetContentRight) ∧
      (∀ q ∈ post, q.GetContentRight ≤ r.GetContentRight) :=
  ⟨by decide, by decide,
    (C2_adjustXOverflow_first_seen_wins sampleSystem [sampleDir, sampleDynam] (by decide)).2⟩

/-- C3, as stated, fails: the `dir` at address 4 has a descendant `rend` whose alignment is
`right` (its second `rend`), and yet its visit returns `FUNCTOR_CONTINUE` and makes its
positioner the holder of `currentWidest`, because only the first `rend` is looked at. -/
theorem C3_right_aligned_later_rend_counterexample :
    sampleDirTwoRends.classId = ClassId.DIR ∧
    hasRightAlignedRend sampleDirTwoRends ∧
    ControlElement.AdjustXOverflow sampleDirTwoRends ⟨some sampleSystem, none⟩
      = some (FunctorCode.FUNCTOR_CONTINUE,
          ⟨some sampleSystem, some ⟨104, 4, 0, 90, true⟩⟩) := by
  decide

/-- C3, amended: for every `DIR`, `DYNAM` or `TEMPO` node whose first descendant `rend` in
document order has the alignment `right`, `GetChildRendAlignment` is `right`, and
`AdjustXOverflow` returns `FUNCTOR_SIBLINGS` and leaves the bundle, `currentWidest`
included, unchanged. -/
theorem C3_first_rend_right_aligned_is_skipped (o rend : Object)
    (params : AdjustXOverflowParams)
    (hcls : o.classId ∈ [ClassId.DIR, ClassId.DYNAM, ClassId.TEMPO])
    (hfirst : firstRend o = some rend)
    (hright : rend.GetHalign = data_HORIZONTALALIGNMENT.HORIZONTALALIGNMENT_right) :
    ControlElement.GetChildRendAlignment o
      = data_HORIZONTALALIGNMENT.HORIZONTALALIGNMENT_right ∧
    ControlElement.AdjustXOverflow o params = some (FunctorCode.FUNCTOR_SIBLINGS, params) := by
  have halign : ControlElement.GetChildRendAlignment o
      = data_HORIZONTALALIGNMENT.HORIZONTALALIGNMENT_right := by
    unfold ControlElement.GetChildRendAlignment
    rw [FindDescendantByType_rend, hfirst]
    simp [Object.HasHalign, hright]
  refine ⟨halign, ?_⟩
  unfold ControlElement.AdjustXOverflow Object.Is
  simp [hcls, halign]

/-- C3, amended, at a concrete node: the `tempo` at address 3, whose only `rend` is
right-aligned, is skipped although its box is the widest of the system. -/
theorem C3_first_rend_right_aligned_is_skipped_witness :
    ControlElement.GetChildRendAlignment sampleTempoRight
      = data_HORIZONTALALIGNMENT.HORIZONTALALIGNMENT_right ∧
    ControlElement.AdjustXOverflow sampleTempoRight ⟨some sampleSystem, some ⟨100, 1, 0, 50, true⟩⟩
      = some (FunctorCode.FUNCTOR_SIBLINGS,
          ⟨some sampleSystem, some ⟨100, 1, 0, 50, true⟩⟩) :=
  C3_first_rend_right_aligned_is_skipped sampleTempoRight
    (Object.mk 31 ClassId.REND data_HORIZONTALALIGNMENT.HORIZONTALALIGNMENT_right
      [Object.mk 32 ClassId.TEXT data_HORIZONTALALIGNMENT.HORIZONTALALIGNMENT_NONE []])
    ⟨some sampleSystem, some ⟨100, 1, 0, 50, true⟩⟩ (by decide) rfl rfl

/-- C4: when the aligner of the system has no positioner for the visited node,
`AdjustXOverflow` on a `DIR`, `DYNAM` or `TEMPO` that is not right-aligned, and
`AdjustHarmGrpsSpacing` on a label of the current group, both return `FUNCTOR_SIBLINGS` with
the bundle unchanged, and the latter calls no redistribution. -/
theorem C4_measurement_gap_is_skipped (sys : System) :
    (∀ (o : Object) (w : Option FloatingPositioner),
      o.classId ∈ [ClassId.DIR, ClassId.DYNAM, ClassId.TEMPO] →
      ControlElement.GetChildRendAlignment o
        ≠ data_HORIZONTALALIGNMENT.HORIZONTALALIGNMENT_right →
      sys.m_systemAligner.FindAllPositionerPointingTo o.addr = [] →
      ControlElement.AdjustXOverflow o ⟨some sys, w⟩
        = some (FunctorCode.FUNCTOR_SIBLINGS, ⟨some sys, w⟩)) ∧
    (∀ (harms : Nat → Harm) (this : Nat) (params : AdjustHarmGrpsSpacingParams),
      params.m_currentSystem = some sys →
      (harms this).GetDrawingGrpId ≠ 0 →
      (harms this).GetDrawingGrpId = params.m_currentGrp →
      sys.m_systemAligner.FindAllPositionerPointingTo this = [] →
      Harm.AdjustHarmGrpsSpacing harms this params
        = some ⟨FunctorCode.FUNCTOR_SIBLINGS, params, []⟩) := by
  constructor
  · intro o w hcls halign hgap
    unfold ControlElement.AdjustXOverflow Object.Is
    simp [hcls, halign, hgap]
  · intro harms this params hsys hgrp hcur hgap
    have hcur0 : params.m_currentGrp ≠ 0 := by rw [← hcur]; exact hgrp
    unfold Harm.AdjustHarmGrpsSpacing
    simp [hgrp, hcur0, hcur, hsys, hgap]

/-- C4 at concrete nodes: the `tempo` at address 5 and the label at address 24 have no
positioner in their systems. -/
theorem C4_measurement_gap_is_skipped_witness :
    ControlElement.AdjustXOverflow sampleTempoUnmeasured
        ⟨some sampleSystem, some ⟨100, 1, 0, 50, true⟩⟩
      = some (FunctorCode.FUNCTOR_SIBLINGS, ⟨some sampleSystem, some ⟨100, 1, 0, 50, true⟩⟩) ∧
    Harm.AdjustHarmGrpsSpacing sampleSpacingHarms 24 sampleSpacingParams
      = some ⟨FunctorCode.FUNCTOR_SIBLINGS, sampleSpacingParams, []⟩ :=
  ⟨(C4_measurement_gap_is_skipped sampleSystem).1 sampleTempoUnmeasured _
      (by decide) (by decide) (by decide),
    (C4_measurement_gap_is_skipped sampleHarmSystem).2 sampleSpacingHarms 24 sampleSpacingParams
      rfl (by decide) (by decide) (by decide)⟩

/-! ## Harmony grouping: lemmas -/

theorem groupingKey_congr (h h' : Harm) (hn : h'.n = h.n) (hs : h'.staff = h.staff) :
    h'.groupingKey = h.groupingKey := by
  cases h; cases h'
  simp only at hn hs
  subst hn hs
  rfl

theorem prepareFloatingGrps_found (this : Nat) (doc : HarmStore)
    (params : PrepareFloatingGrpsParams) (kv : String × Nat)
    (h : params.m_harms.find? (fun kv => kv.1 == (doc.harms this).groupingKey) = some kv) :
    Harm.PrepareFloatingGrps this doc params
      = (FunctorCode.FUNCTOR_CONTINUE,
          doc.SetDrawingGrpId this (doc.harms kv.2).GetDrawingGrpId, params) := by
  unfold Harm.PrepareFloatingGrps
  simp only [h]

theorem prepareFloatingGrps_absent (this : Nat) (doc : HarmStore)
    (params : PrepareFloatingGrpsParams)
    (h : params.m_harms.find? (fun kv => kv.1 == (doc.harms this).groupingKey) = none) :
    Harm.PrepareFloatingGrps this doc params
      = (FunctorCode.FUNCTOR_CONTINUE, doc.SetDrawingGrpObject this this,
          ⟨params.m_harms ++ [((doc.harms this).groupingKey, this)]⟩) := by
  have hany : params.m_harms.any (fun kv => kv.1 == (doc.harms this).groupingKey) = false := by
    rw [List.find?_eq_none] at h
    rw [List.any_eq_false]
    exact h
  unfold Harm.PrepareFloatingGrps
  simp only [h, mapInsert, hany]
  rfl

theorem prepareFloatingGrps_attrs (this : Nat) (doc : HarmStore)
    (params : PrepareFloatingGrpsParams) (a : Nat) :
    ((Harm.PrepareFloatingGrps this doc params).2.1.harms a).n = (doc.harms a).n ∧
    ((Harm.PrepareFloatingGrps this doc params).2.1.harms a).staff = (doc.harms a).staff := by
  cases h : params.m_harms.find? (fun kv => kv.1 == (doc.harms this).groupingKey) with
  | some kv =>
    rw [prepareFloatingGrps_found _ _ _ _ h]
    by_cases ha : a = this
    · subst ha; simp [HarmStore.SetDrawingGrpId]
    · simp [HarmStore.SetDrawingGrpId, Function.update_noteq ha]
  | none =>
    rw [prepareFloatingGrps_absent _ _ _ h]
    by_cases ha : a = this
    · subst ha; simp [HarmStore.SetDrawingGrpObject]
    · simp [HarmStore.SetDrawingGrpObject, Function.update_noteq ha]

theorem prepareFloatingGrps_key (this : Nat) (doc : HarmStore)
    (params : PrepareFloatingGrpsParams) (a : Nat) :
    ((Harm.PrepareFloatingGrps this doc params).2.1.harms a).groupingKey
      = (doc.harms a).groupingKey :=
  groupingKey_congr _ _ (prepareFloatingGrps_attrs this doc params a).1
    (prepareFloatingGrps_attrs this doc params a).2

theorem prepareFloatingGrps_other (this : Nat) (doc : HarmStore)
    (params : PrepareFloatingGrpsParams) (a : Nat) (ha : a ≠ this) :
    (Harm.PrepareFloatingGrps this doc params).2.1.harms a = doc.harms a := by
  cases h : params.m_harms.find? (fun kv => kv.1 == (doc.harms this).groupingKey) with
  | some kv =>
    rw [prepareFloatingGrps_found _ _ _ _ h]
    simp [HarmStore.SetDrawingGrpId, Function.update_noteq ha]
  | none =>
    rw [prepareFloatingGrps_absent _ _ _ h]
    simp [HarmStore.SetDrawingGrpObject, Function.update_noteq ha]

theorem runPrepareFloatingGrps_attrs (visited : List Nat) :
    ∀ (doc : HarmStore) (params : PrepareFloatingGrpsParams) (a : Nat),
      ((runPrepareFloatingGrps visited doc params).1.harms a).n = (doc.harms a).n ∧
      ((runPrepareFloatingGrps visited doc params).1.harms a).staff = (doc.harms a).staff := by
  induction visited with
  | nil => intro doc params a; exact ⟨rfl, rfl⟩
  | cons x rest ih =>
    intro doc params a
    rw [runPrepareFloatingGrps]
    have h1 := ih (Harm.PrepareFloatingGrps x doc params).2.1
      (Harm.PrepareFloatingGrps x doc params).2.2 a
    have h2 := prepareFloatingGrps_attrs x doc params a
    exact ⟨h1.1.trans h2.1, h1.2.trans h2.2⟩

theorem runPrepareFloatingGrps_key (visited : List Nat) (doc : HarmStore)
    (params : PrepareFloatingGrpsParams) (a : Nat) :
    ((runPrepareFloatingGrps visited doc params).1.harms a).groupingKey
      = (doc.harms a).groupingKey :=
  groupingKey_congr _ _ (runPrepareFloatingGrps_attrs visited doc params a).1
    (runPrepareFloatingGrps_attrs visited doc params a).2

theorem mem_of_find_key {m : List (String × Nat)} {k : String} {kv : String × Nat}
    (h : m.find? (fun kv => kv.1 == k) = some kv) : kv ∈ m ∧ kv.1 = k := by
  refine ⟨List.mem_of_find?_eq_some h, ?_⟩
  have := List.find?_some h
  simpa using this

theorem entry_unique {m : List (String × Nat)} (hnd : (m.map Prod.fst).Nodup)
    {kv kv' : String × Nat} (h : kv ∈ m) (h' : kv' ∈ m) (hk : kv.1 = kv'.1) : kv = kv' :=
  List.inj_on_of_nodup_map hnd h h' hk

theorem grpInv_found (doc doc' : HarmStore) (m : List (String × Nat)) (seen : List Nat)
    (x : Nat) (kv : String × Nat) (hinv : GrpInv doc m seen) (hkvm : kv ∈ m)
    (hkvk : kv.1 = (doc.harms x).groupingKey)
    (hkey : ∀ a, (doc'.harms a).groupingKey = (doc.harms a).groupingKey)
    (hother : ∀ a, a ≠ x → doc'.harms a = doc.harms a)
    (hgx : (doc'.harms x).GetDrawingGrpId = (doc.harms kv.2).GetDrawingGrpId) :
    GrpInv doc' m (seen ++ [x]) := by
  obtain ⟨hnd, hrep, hfirst, hseen⟩ := hinv
  have hF : ∀ kv' ∈ m, (doc'.harms kv'.2).GetDrawingGrpId = (doc.harms kv'.2).GetDrawingGrpId := by
    intro kv' hkv'
    by_cases hx : kv'.2 = x
    · have hk' : kv'.1 = kv.1 := by rw [← hrep kv' hkv', hx, hkvk]
      have heq := entry_unique hnd hkv' hkvm hk'
      rw [hx, hgx, ← heq, hx]
    · rw [hother _ hx]
  refine ⟨hnd, ?_, ?_, ?_⟩
  · intro kv' hkv'
    rw [hkey]; exact hrep kv' hkv'
  · intro kv' hkv'
    simp only [hkey]
    rw [List.find?_append, hfirst kv' hkv']
    rfl
  · intro v hv
    by_cases hvx : v = x
    · refine ⟨kv.2, ?_, ?_⟩
      · rw [hkey, hvx, ← hkvk]; exact hkvm
      · rw [hvx, hgx, hF kv hkvm]
    · have hv' : v ∈ seen := by
        rcases List.mem_append.1 hv with h | h
        · exact h
        · exact absurd (List.mem_singleton.1 h) hvx
      obtain ⟨r, hr, hg⟩ := hseen v hv'
      refine ⟨r, ?_, ?_⟩
      · rw [hkey]; exact hr
      · rw [hother v hvx, hg]
        exact (hF _ hr).symm

theorem grpInv_absent (doc doc' : HarmStore) (m : List (String × Nat)) (seen : List Nat)
    (x : Nat) (hinv : GrpInv doc m seen)
    (habs : ∀ kv ∈ m, kv.1 ≠ (doc.harms x).groupingKey)
    (hkey : ∀ a, (doc'.harms a).groupingKey = (doc.harms a).groupingKey)
    (hother : ∀ a, a ≠ x → doc'.harms a = doc.harms a) :
    GrpInv doc' (m ++ [((doc.harms x).groupingKey, x)]) (seen ++ [x]) := by
  obtain ⟨hnd, hrep, hfirst, hseen⟩ := hinv
  have hnotseen : ∀ v ∈ seen, (doc.harms v).groupingKey ≠ (doc.harms x).groupingKey := by
    intro v hv hk
    obtain ⟨r, hr, _⟩ := hseen v hv
    exact habs _ hr hk
  have hrepx : ∀ kv ∈ m, kv.2 ≠ x := by
    intro kv hkv hx
    exact habs kv hkv (by rw [← hrep kv hkv, hx])
  refine ⟨?_, ?_, ?_, ?_⟩
  · rw [List.map_append, List.nodup_append]
    refine ⟨hnd, by simp, ?_⟩
    intro k hk hk'
    simp only [List.map_cons, List.map_nil, List.mem_singleton] at hk'
    obtain ⟨kv, hkv, hkvk⟩ := List.mem_map.1 hk
    exact habs kv hkv (hkvk.trans hk')
  · intro kv hkv
    rw [hkey]
    rcases List.mem_append.1 hkv with h | h
    · exact hrep kv h
    · rw [List.mem_singleton.1 h]
  · intro kv hkv
    simp only [hkey]
    rw [List.find?_append]
    rcases List.mem_append.1 hkv with h | h
    · rw [hfirst kv h]; rfl
    · rw [List.mem_singleton.1 h]
      have hnone : seen.find? (fun a => (doc.harms a).groupingKey == (doc.harms x).groupingKey)
          = none := by
        rw [List.find?_eq_none]
        intro v hv
        simpa using hnotseen v hv
      rw [hnone]
      simp
  · intro v hv
    by_cases hvx : v = x
    · refine ⟨x, ?_, by rw [hvx]⟩
      rw [hkey, hvx]; simp
    · have hv' : v ∈ seen := by
        rcases List.mem_append.1 hv with h | h
        · exact h
        · exact absurd (List.mem_singleton.1 h) hvx
      obtain ⟨r, hr, hg⟩ := hseen v hv'
      refine ⟨r, ?_, ?_⟩
      · rw [hkey]; exact List.mem_append_left _ hr
      · rw [hother v hvx, hother r (hrepx _ hr), hg]

theorem grpInv_step (doc : HarmStore) (m : List (String × Nat)) (seen : List Nat) (x : Nat)
    (hinv : GrpInv doc m seen) :
    GrpInv (Harm.PrepareFloatingGrps x doc ⟨m⟩).2.1
      (Harm.PrepareFloatingGrps x doc ⟨m⟩).2.2.m_harms (seen ++ [x]) := by
  have hkey := prepareFloatingGrps_key x doc ⟨m⟩
  have hother := prepareFloatingGrps_other x doc ⟨m⟩
  cases h : m.find? (fun kv => kv.1 == (doc.harms x).groupingKey) with
  | some kv =>
    obtain ⟨hkvm, hkvk⟩ := mem_of_find_key h
    have hres := prepareFloatingGrps_found x doc ⟨m⟩ kv h
    have hgx : ((Harm.PrepareFloatingGrps x doc ⟨m⟩).2.1.harms x).GetDrawingGrpId
        = (doc.harms kv.2).GetDrawingGrpId := by
      rw [hres]; simp [HarmStore.SetDrawingGrpId, Harm.GetDrawingGrpId]
    have hm : (Harm.PrepareFloatingGrps x doc ⟨m⟩).2.2.m_harms = m := by rw [hres]
    rw [hm]
    exact grpInv_found doc _ m seen x kv hinv hkvm hkvk hkey hother hgx
  | none =>
    have hres := prepareFloatingGrps_absent x doc ⟨m⟩ h
    have hm : (Harm.PrepareFloatingGrps x doc ⟨m⟩).2.2.m_harms
        = m ++ [((doc.harms x).groupingKey, x)] := by rw [hres]
    rw [hm]
    refine grpInv_absent doc _ m seen x hinv ?_ hkey hother
    intro kv hkv hk
    rw [List.find?_eq_none] at h
    exact h kv hkv (by simpa using hk)

theorem runPrepareFloatingGrps_inv (rest : List Nat) :
    ∀ (doc : HarmStore) (m : List (String × Nat)) (seen : List Nat), GrpInv doc m seen →
      GrpInv (runPrepareFloatingGrps rest doc ⟨m⟩).1
        (runPrepareFloatingGrps rest doc ⟨m⟩).2.m_harms (seen ++ rest) := by
  induction rest with
  | nil => intro doc m seen h; simpa [runPrepareFloatingGrps] using h
  | cons x rest ih =>
    intro doc m seen h
    have hstep := grpInv_step doc m seen x h
    have := ih _ _ _ hstep
    rw [List.append_assoc, List.singleton_append] at this
    exact this

theorem grpInv_empty (doc : HarmStore) : GrpInv doc [] [] := by
  refine ⟨by simp, ?_, ?_, ?_⟩ <;> intro _ h <;> exact absurd h (List.not_mem_nil _)

theorem groupingKey_explicit (h : Harm) (hn : h.GetN ≠ "") : h.groupingKey = h.GetN := by
  unfold Harm.groupingKey
  rw [dif_neg (fun hc => hn hc.1)]

theorem groupingKey_fallback (h : Harm) (s : Int) (rest : List Int) (hn : h.GetN = "")
    (hs : h.staff = s :: rest) : h.groupingKey = StringFormat_d (s * -1) := by
  cases h with
  | mk n staff g st =>
    simp only [Harm.GetN] at hn
    simp only at hs
    subst hn hs
    simp [Harm.groupingKey, Harm.GetN, Harm.HasStaff]

theorem digitChar_toNat (k : Nat) (hk : k < 10) : (Nat.digitChar k).toNat - 48 = k := by
  interval_cases k <;> rfl

theorem digitChar_ne_minus (k : Nat) (hk : k < 10) : Nat.digitChar k ≠ '-' := by
  interval_cases k <;> decide

theorem toDigitsCore_value : ∀ (fuel n : Nat) (ds : List Char), n < fuel →
    (Nat.toDigitsCore 10 fuel n ds).foldl (fun a c => 10 * a + (c.toNat - 48)) 0
      = ds.foldl (fun a c => 10 * a + (c.toNat - 48)) n := by
  intro fuel
  induction fuel with
  | zero => intro n ds h; omega
  | succ fuel ih =>
    intro n ds h
    unfold Nat.toDigitsCore
    by_cases h0 : n / 10 = 0
    · simp only [h0, if_true, List.foldl_cons]
      rw [digitChar_toNat _ (Nat.mod_lt _ (by norm_num))]
      have : n % 10 = n := by omega
      simp [this]
    · simp only [h0, if_false]
      rw [ih (n / 10) _ (by omega), List.foldl_cons,
        digitChar_toNat _ (Nat.mod_lt _ (by norm_num)), Nat.div_add_mod]

theorem toDigitsCore_no_minus : ∀ (fuel n : Nat) (ds : List Char), (∀ c ∈ ds, c ≠ '-') →
    ∀ c ∈ Nat.toDigitsCore 10 fuel n ds, c ≠ '-' := by
  intro fuel
  induction fuel with
  | zero => intro n ds h; simpa [Nat.toDigitsCore] using h
  | succ fuel ih =>
    intro n ds h
    have hd : ∀ c ∈ Nat.digitChar (n % 10) :: ds, c ≠ '-' := by
      intro c hc
      rcases List.mem_cons.1 hc with hc | hc
      · rw [hc]; exact digitChar_ne_minus _ (Nat.mod_lt _ (by norm_num))
      · exact h c hc
    unfold Nat.toDigitsCore
    by_cases h0 : n / 10 = 0
    · simp only [h0, if_true]; exact hd
    · simp only [h0, if_false]; exact ih _ _ hd

/-- The digits that `%d` prints for a natural number stand for that number. -/
theorem decimalValue_repr (n : Nat) : decimalValue (Nat.repr n).data = n := by
  unfold decimalValue Nat.repr Nat.toDigits
  show List.foldl _ 0 (Nat.toDigitsCore 10 (n + 1) n []) = n
  rw [toDigitsCore_value _ _ _ (Nat.lt_succ_self n)]
  rfl

theorem repr_no_minus (n : Nat) : ∀ c ∈ (Nat.repr n).data, c ≠ '-' := by
  unfold Nat.repr Nat.toDigits
  show ∀ c ∈ Nat.toDigitsCore 10 (n + 1) n [], c ≠ '-'
  exact toDigitsCore_no_minus _ _ _ (by simp)

theorem repr_injective {a b : Nat} (h : Nat.repr a = Nat.repr b) : a = b := by
  rw [← decimalValue_repr a, ← decimalValue_repr b, h]

/-- Two integers with the same `%d` rendering are equal. -/
theorem StringFormat_d_injective {i j : Int} (h : StringFormat_d i = StringFormat_d j) :
    i = j := by
  cases i with
  | ofNat a =>
    cases j with
    | ofNat b => simp only [StringFormat_d] at h; rw [repr_injective h]
    | negSucc b =>
      exfalso
      simp only [StringFormat_d] at h
      have hm : '-' ∈ (Nat.repr a).data := by rw [h]; simp
      exact repr_no_minus a _ hm rfl
  | negSucc a =>
    cases j with
    | ofNat b =>
      exfalso
      simp only [StringFormat_d] at h
      have hm : '-' ∈ (Nat.repr b).data := by rw [← h]; simp
      exact repr_no_minus b _ hm rfl
    | negSucc b =>
      simp only [StringFormat_d] at h
      have hd := congrArg String.data h
      simp only [String.data_append, List.append_cancel_left_eq] at hd
      have hr : Nat.repr (a + 1) = Nat.repr (b + 1) := String.ext hd
      have := repr_injective hr
      congr 1
      omega

theorem StringFormat_d_neg (s : Int) (hs : 1 ≤ s) :
    StringFormat_d (s * -1) = "-" ++ Nat.repr s.toNat := by
  obtain ⟨k, rfl⟩ : ∃ k : Nat, s = ((k + 1 : Nat) : Int) := ⟨(s - 1).toNat, by omega⟩
  have : ((k + 1 : Nat) : Int) * -1 = Int.negSucc k := by
    rw [Int.negSucc_eq]; push_cast; ring
  rw [this]
  simp [StringFormat_d]

theorem prepareFloatingGrps_code (this : Nat) (doc : HarmStore)
    (params : PrepareFloatingGrpsParams) :
    (Harm.PrepareFloatingGrps this doc params).1 = FunctorCode.FUNCTOR_CONTINUE := by
  cases h : params.m_harms.find? (fun kv => kv.1 == (doc.harms this).groupingKey) with
  | some kv => rw [prepareFloatingGrps_found _ _ _ _ h]
  | none => rw [prepareFloatingGrps_absent _ _ _ h]

theorem find_key_of_mem {m : List (String × Nat)} {k : String} {r : Nat} (h : (k, r) ∈ m) :
    ∃ kv, m.find? (fun kv => kv.1 == k) = some kv := by
  cases hf : m.find? (fun kv => kv.1 == k) with
  | some kv => exact ⟨kv, rfl⟩
  | none =>
    rw [List.find?_eq_none] at hf
    exact absurd (by simp) (hf _ h)

theorem find_key_none {m : List (String × Nat)} {k : String} (h : ∀ r, (k, r) ∉ m) :
    m.find? (fun kv => kv.1 == k) = none := by
  cases hf : m.find? (fun kv => kv.1 == k) with
  | none => rfl
  | some kv =>
    obtain ⟨hm, hk⟩ := mem_of_find_key hf
    exact absurd (by rw [← hk]; exact hm) (h kv.2)

theorem prepareFloatingGrps_grows (this : Nat) (doc : HarmStore)
    (params : PrepareFloatingGrpsParams) :
    ∃ added, (Harm.PrepareFloatingGrps this doc params).2.2.m_harms
      = params.m_harms ++ added := by
  cases h : params.m_harms.find? (fun kv => kv.1 == (doc.harms this).groupingKey) with
  | some kv => rw [prepareFloatingGrps_found _ _ _ _ h]; exact ⟨[], by simp⟩
  | none => rw [prepareFloatingGrps_absent _ _ _ h]; exact ⟨_, rfl⟩

theorem runPrepareFloatingGrps_grows (visited : List Nat) :
    ∀ (doc : HarmStore) (params : PrepareFloatingGrpsParams),
      ∃ added, (runPrepareFloatingGrps visited doc params).2.m_harms
        = params.m_harms ++ added := by
  induction visited with
  | nil => intro doc params; exact ⟨[], by simp [runPrepareFloatingGrps]⟩
  | cons x rest ih =>
    intro doc params
    obtain ⟨a1, h1⟩ := prepareFloatingGrps_grows x doc params
    obtain ⟨a2, h2⟩ := ih (Harm.PrepareFloatingGrps x doc params).2.1
      (Harm.PrepareFloatingGrps x doc params).2.2
    exact ⟨a1 ++ a2, by rw [runPrepareFloatingGrps, h2, h1, List.append_assoc]⟩

/-! ## Harmony grouping: claims -/

/-- C5: in a pass of `PrepareFloatingGrps` that starts with an empty map, two visited labels
that carry the same non-empty `@n` end with the same drawing group id, which is the one of
the representative recorded for that `@n`. -/
theorem C5_same_number_same_group (doc : HarmStore) (visited : List Nat) (a b : Nat)
    (ha : a ∈ visited) (hb : b ∈ visited) (hne : (doc.harms a).GetN ≠ "")
    (hn : (doc.harms a).GetN = (doc.harms b).GetN) :
    ((runPrepareFloatingGrps visited doc ⟨[]⟩).1.harms a).GetDrawingGrpId
      = ((runPrepareFloatingGrps visited doc ⟨[]⟩).1.harms b).GetDrawingGrpId ∧
    ∃ r, ((doc.harms a).GetN, r) ∈ (runPrepareFloatingGrps visited doc ⟨[]⟩).2.m_harms ∧
      ((runPrepareFloatingGrps visited doc ⟨[]⟩).1.harms a).GetDrawingGrpId
        = ((runPrepareFloatingGrps visited doc ⟨[]⟩).1.harms r).GetDrawingGrpId ∧
      ((runPrepareFloatingGrps visited doc ⟨[]⟩).1.harms b).GetDrawingGrpId
        = ((runPrepareFloatingGrps visited doc ⟨[]⟩).1.harms r).GetDrawingGrpId := by
  have hinv := runPrepareFloatingGrps_inv visited doc [] [] (grpInv_empty doc)
  rw [List.nil_append] at hinv
  obtain ⟨hnd, _, _, hseen⟩ := hinv
  obtain ⟨ra, hra, hga⟩ := hseen a ha
  obtain ⟨rb, hrb, hgb⟩ := hseen b hb
  have hka : ((runPrepareFloatingGrps visited doc ⟨[]⟩).1.harms a).groupingKey
      = (doc.harms a).GetN := by
    rw [runPrepareFloatingGrps_key, groupingKey_explicit _ hne]
  have hkb : ((runPrepareFloatingGrps visited doc ⟨[]⟩).1.harms b).groupingKey
      = (doc.harms a).GetN := by
    rw [runPrepareFloatingGrps_key, groupingKey_explicit _ (by rw [← hn]; exact hne), hn]
  rw [hka] at hra
  rw [hkb] at hrb
  have hrr : ra = rb := congrArg Prod.snd (entry_unique hnd hra hrb rfl)
  subst hrr
  exact ⟨hga.trans hgb.symm, ra, hra, hga, hgb⟩

/-- C5 at a concrete pass: the labels 10 and 12 carry `@n` 1, and both end in the group of
the label 10. -/
theorem C5_same_number_same_group_witness :
    ((runPrepareFloatingGrps [10, 11, 12, 13, 14] sampleGroupingDoc ⟨[]⟩).1.harms 10).GetDrawingGrpId
      = ((runPrepareFloatingGrps [10, 11, 12, 13, 14] sampleGroupingDoc ⟨[]⟩).1.harms 12).GetDrawingGrpId ∧
    ∃ r, ((sampleGroupingDoc.harms 10).GetN, r)
        ∈ (runPrepareFloatingGrps [10, 11, 12, 13, 14] sampleGroupingDoc ⟨[]⟩).2.m_harms ∧
      ((runPrepareFloatingGrps [10, 11, 12, 13, 14] sampleGroupingDoc ⟨[]⟩).1.harms 10).GetDrawingGrpId
        = ((runPrepareFloatingGrps [10, 11, 12, 13, 14] sampleGroupingDoc ⟨[]⟩).1.harms r).GetDrawingGrpId ∧
      ((runPrepareFloatingGrps [10, 11, 12, 13, 14] sampleGroupingDoc ⟨[]⟩).1.harms 12).GetDrawingGrpId
        = ((runPrepareFloatingGrps [10, 11, 12, 13, 14] sampleGroupingDoc ⟨[]⟩).1.harms r).GetDrawingGrpId :=
  C5_same_number_same_group sampleGroupingDoc [10, 11, 12, 13, 14] 10 12
    (by decide) (by decide) (by decide) (by decide)

/-- C6: for a label without `@n` whose `@staff` starts with `s`, the grouping key is the
`%d` rendering of `s * -1`; two such labels have the same key exactly when their first staff
numbers are equal; and when `s` is at least 1 the key is a minus sign followed by the decimal
digits of `s`, and differs from the `%d` rendering of every positive integer. -/
theorem C6_fallback_key (h h' : Harm) (s s' : Int) (rest rest' : List Int)
    (hn : h.GetN = "") (hs : h.staff = s :: rest)
    (hn' : h'.GetN = "") (hs' : h'.staff = s' :: rest') :
    h.groupingKey = StringFormat_d (s * -1) ∧
    (h.groupingKey = h'.groupingKey ↔ s = s') ∧
    (1 ≤ s →
      (h.groupingKey = "-" ++ Nat.repr s.toNat ∧
        ((decimalValue (Nat.repr s.toNat).data : Nat) : Int) = s) ∧
      ∀ m : Int, 0 < m → h.groupingKey ≠ StringFormat_d m) := by
  have hk := groupingKey_fallback h s rest hn hs
  have hk' := groupingKey_fallback h' s' rest' hn' hs'
  refine ⟨hk, ?_, ?_⟩
  · rw [hk, hk']
    constructor
    · intro heq
      have := StringFormat_d_injective heq
      omega
    · intro heq; rw [heq]
  · intro hpos
    refine ⟨⟨by rw [hk, StringFormat_d_neg s hpos], ?_⟩, ?_⟩
    · rw [decimalValue_repr]; omega
    · intro m hm heq
      rw [hk] at heq
      have := StringFormat_d_injective heq
      omega

/-- C6 at concrete labels: staff `[3]` against staff `[4]`; the key of the first is `-3`. -/
theorem C6_fallback_key_witness :
    (sampleGroupingHarms 11).groupingKey = "-3" ∧
    (sampleGroupingHarms 11).groupingKey = (sampleGroupingHarms 13).groupingKey ∧
    ((sampleGroupingHarms 11).groupingKey = (sampleGroupingHarms 14).groupingKey
      ↔ (3 : Int) = 4) :=
  ⟨by decide, by decide,
    (C6_fallback_key (sampleGroupingHarms 11) (sampleGroupingHarms 14) 3 4 [] []
      rfl rfl rfl rfl).2.1⟩

/-- C7: every visit of `PrepareFloatingGrps` returns `FUNCTOR_CONTINUE`; it leaves the map
untouched when the key of the label is present, adds exactly the entry from the key to the
visited label when the key is absent, and keeps the keys of the map unique. Over a pass the
entries present at the start stay in place, and after a pass that starts with an empty map
the keys are unique and the entry of a key is the first visited label with that key. -/
theorem C7_representative_invariant (doc : HarmStore) (visited : List Nat) :
    (∀ (this : Nat) (d : HarmStore) (params : PrepareFloatingGrpsParams),
      (Harm.PrepareFloatingGrps this d params).1 = FunctorCode.FUNCTOR_CONTINUE ∧
      ((∃ r, ((d.harms this).groupingKey, r) ∈ params.m_harms) →
        (Harm.PrepareFloatingGrps this d params).2.2 = params) ∧
      ((∀ r, ((d.harms this).groupingKey, r) ∉ params.m_harms) →
        (Harm.PrepareFloatingGrps this d params).2.2.m_harms
          = params.m_harms ++ [((d.harms this).groupingKey, this)]) ∧
      ((params.m_harms.map Prod.fst).Nodup →
        ((Harm.PrepareFloatingGrps this d params).2.2.m_harms.map Prod.fst).Nodup)) ∧
    (∀ (d : HarmStore) (params : PrepareFloatingGrpsParams),
      ∃ added, (runPrepareFloatingGrps visited d params).2.m_harms
        = params.m_harms ++ added) ∧
    ((runPrepareFloatingGrps visited doc ⟨[]⟩).2.m_harms.map Prod.fst).Nodup ∧
    (∀ (k : String) (r : Nat),
      (k, r) ∈ (runPrepareFloatingGrps visited doc ⟨[]⟩).2.m_harms ↔
        visited.find? (fun x => (doc.harms x).groupingKey == k) = some r) := by
  have hinv := runPrepareFloatingGrps_inv visited doc [] [] (grpInv_empty doc)
  rw [List.nil_append] at hinv
  obtain ⟨hnd, _, hfirst, hseen⟩ := hinv
  simp only [runPrepareFloatingGrps_key] at hfirst hseen
  refine ⟨?_, runPrepareFloatingGrps_grows visited, hnd, ?_⟩
  · intro this d params
    refine ⟨prepareFloatingGrps_code this d params, ?_, ?_, ?_⟩
    · rintro ⟨r, hr⟩
      obtain ⟨kv, hkv⟩ := find_key_of_mem hr
      rw [prepareFloatingGrps_found _ _ _ _ hkv]
    · intro habs
      rw [prepareFloatingGrps_absent _ _ _ (find_key_none habs)]
    · intro hnd'
      cases h : params.m_harms.find? (fun kv => kv.1 == (d.harms this).groupingKey) with
      | some kv => rw [prepareFloatingGrps_found _ _ _ _ h]; exact hnd'
      | none =>
        rw [prepareFloatingGrps_absent _ _ _ h, List.map_append, List.nodup_append]
        refine ⟨hnd', by simp, ?_⟩
        intro k hk hk'
        simp only [List.map_cons, List.map_nil, List.mem_singleton] at hk'
        obtain ⟨kv, hkv, hkvk⟩ := List.mem_map.1 hk
        rw [List.find?_eq_none] at h
        exact h kv hkv (by simp [hkvk, hk'])
  · intro k r
    constructor
    · intro hkr
      exact hfirst (k, r) hkr
    · intro hfind
      have hrv : r ∈ visited := List.mem_of_find?_eq_some hfind
      have hrk : (doc.harms r).groupingKey = k := by
        have := List.find?_some hfind
        simpa using this
      obtain ⟨r', hr', _⟩ := hseen r hrv
      rw [hrk] at hr'
      have := hfirst (k, r') hr'
      simp only at this
      rw [hfind] at this
      rw [Option.some.inj this]
      exact hr'

/-- C7 at a concrete pass: the map after the visits of the labels 10 to 14. -/
theorem C7_representative_invariant_witness :
    (runPrepareFloatingGrps [10, 11, 12, 13, 14] sampleGroupingDoc ⟨[]⟩).2.m_harms
      = [("1", 10), ("-3", 11), ("-4", 14)] ∧
    ((runPrepareFloatingGrps [10, 11, 12, 13, 14] sampleGroupingDoc ⟨[]⟩).2.m_harms.map
      Prod.fst).Nodup ∧
    (("-3", 11) ∈ (runPrepareFloatingGrps [10, 11, 12, 13, 14] sampleGroupingDoc ⟨[]⟩).2.m_harms ↔
      [10, 11, 12, 13, 14].find? (fun x => (sampleGroupingDoc.harms x).groupingKey == "-3")
        = some 11) :=
  ⟨by decide,
    (C7_representative_invariant sampleGroupingDoc [10, 11, 12, 13, 14]).2.2.1,
    (C7_representative_invariant sampleGroupingDoc [10, 11, 12, 13, 14]).2.2.2 "-3" 11⟩

/-! ## Harmony spacing: lemmas -/

theorem mem_firstAppearances (l : List Int) (g : Int) : g ∈ firstAppearances l ↔ g ∈ l := by
  induction l with
  | nil => simp [firstAppearances]
  | cons x xs ih =>
    by_cases hg : g = x
    · simp [firstAppearances, hg]
    · simp [firstAppearances, hg, ih]

theorem nodup_firstAppearances (l : List Int) : (firstAppearances l).Nodup := by
  induction l with
  | nil => simp [firstAppearances]
  | cons x xs ih =>
    rw [firstAppearances, List.nodup_cons]
    exact ⟨by simp, ih.filter _⟩

theorem foldl_collectGrpId (l : List Int) :
    ∀ acc : List Int, l.foldl collectGrpId acc
      = acc ++ (firstAppearances (l.filter (fun g => decide (g ≠ 0)))).filter
          (fun g => decide (g ∉ acc)) := by
  induction l with
  | nil => intro acc; simp [firstAppearances]
  | cons x xs ih =>
    intro acc
    rw [List.foldl_cons, ih]
    by_cases hx0 : x = 0
    · simp [collectGrpId, hx0]
    · by_cases hxa : x ∈ acc
      · have hfilter : List.filter (fun g => decide (g ≠ 0)) (x :: xs)
            = x :: List.filter (fun g => decide (g ≠ 0)) xs := by simp [hx0]
        rw [hfilter, firstAppearances]
        simp only [collectGrpId, hx0, hxa, if_true, if_false, List.filter_cons, decide_not,
          Bool.not_true, List.filter_filter]
        congr 1
        apply List.filter_congr
        intro g _
        by_cases hga : g ∈ acc
        · simp [hga]
        · have : g ≠ x := fun h => hga (h ▸ hxa)
          simp [hga, this]
      · have hfilter : List.filter (fun g => decide (g ≠ 0)) (x :: xs)
            = x :: List.filter (fun g => decide (g ≠ 0)) xs := by simp [hx0]
        rw [hfilter, firstAppearances]
        simp only [collectGrpId, hx0, hxa, if_false, List.filter_cons, decide_not,
          Bool.not_false, if_true, List.filter_filter, List.append_assoc, List.singleton_append]
        congr 2
        apply List.filter_congr
        intro g _
        by_cases hgx : g = x
        · simp [hgx]
        · simp [hgx]

theorem adjustHarmGrpsSpacing_collect (harms : Nat → Harm) (this : Nat)
    (params : AdjustHarmGrpsSpacingParams) (hcur : params.m_currentGrp = 0) :
    Harm.AdjustHarmGrpsSpacing harms this params
      = some ⟨FunctorCode.FUNCTOR_SIBLINGS,
          { params with m_grpIds := collectGrpId params.m_grpIds (harms this).GetDrawingGrpId },
          []⟩ := by
  cases params with
  | mk grpIds currentGrp previousHarmPositioner previousHarmStart previousMeasure
      overlapingHarm doc currentSystem =>
    simp only at hcur
    subst hcur
    unfold Harm.AdjustHarmGrpsSpacing collectGrpId
    by_cases h0 : (harms this).GetDrawingGrpId = 0
    · simp [h0]
    · by_cases hmem : (harms this).GetDrawingGrpId ∈ grpIds
      · simp [h0, hmem]
      · simp [h0, hmem]

theorem runAdjustHarmGrpsSpacing_collect (harms : Nat → Harm) (visited : List Nat) :
    ∀ params : AdjustHarmGrpsSpacingParams, params.m_currentGrp = 0 →
      runAdjustHarmGrpsSpacing harms visited params
        = some ({ params with m_grpIds := ((visited.map
            (fun a => (harms a).GetDrawingGrpId)).foldl collectGrpId params.m_grpIds) },
          []) := by
  induction visited with
  | nil => intro params _; rfl
  | cons x rest ih =>
    intro params hcur
    have hstep := ih { params with
      m_grpIds := collectGrpId params.m_grpIds (harms x).GetDrawingGrpId } hcur
    rw [runAdjustHarmGrpsSpacing, adjustHarmGrpsSpacing_collect harms x params hcur]
    simp only
    rw [hstep]
    rfl

theorem foldl_keepLeftmostStep_some (l : List FloatingPositioner) :
    ∀ h : FloatingPositioner, (∀ q ∈ l, h.GetContentLeft ≤ q.GetContentLeft) →
      l.foldl keepLeftmostStep (some h) = some h := by
  induction l with
  | nil => intro h _; rfl
  | cons p ps ih =>
    intro h hle
    have hp : ¬ h.GetContentLeft > p.GetContentLeft :=
      not_lt.2 (hle p (List.mem_cons_self _ _))
    rw [List.foldl_cons]
    simp only [keepLeftmostStep, hp, if_false]
    exact ih h (fun q hq => hle q (List.mem_cons_of_mem _ hq))

theorem foldl_keepLeftmostStep_before (cur : FloatingPositioner) (pre : List FloatingPositioner) :
    ∀ acc : Option FloatingPositioner,
      (∀ q ∈ pre, cur.GetContentLeft < q.GetContentLeft) →
      (∀ a, acc = some a → cur.GetContentLeft < a.GetContentLeft) →
      keepLeftmostStep (pre.foldl keepLeftmostStep acc) cur = some cur := by
  induction pre with
  | nil =>
    intro acc _ hacc
    cases acc with
    | none => rfl
    | some a =>
      have := hacc a rfl
      simp [keepLeftmostStep, this]
  | cons p ps ih =>
    intro acc hpre hacc
    rw [List.foldl_cons]
    apply ih
    · exact fun q hq => hpre q (List.mem_cons_of_mem _ hq)
    · intro a ha
      cases acc with
      | none =>
        simp only [keepLeftmostStep, Option.some.injEq] at ha
        rw [← ha]; exact hpre p (List.mem_cons_self _ _)
      | some b =>
        simp only [keepLeftmostStep] at ha
        split at ha
        · rw [← Option.some.inj ha]; exact hpre p (List.mem_cons_self _ _)
        · rw [← Option.some.inj ha]; exact hacc b rfl

/-- The loop that keeps the leftmost positioner ends on the first element of the list whose
left edge is the smallest one. -/
theorem foldl_keepLeftmostStep_none (pre post : List FloatingPositioner)
    (cur : FloatingPositioner)
    (hpre : ∀ q ∈ pre, cur.GetContentLeft < q.GetContentLeft)
    (hpost : ∀ q ∈ post, cur.GetContentLeft ≤ q.GetContentLeft) :
    (pre ++ cur :: post).foldl keepLeftmostStep none = some cur := by
  rw [List.foldl_append, List.foldl_cons,
    foldl_keepLeftmostStep_before cur pre none hpre (by simp)]
  exact foldl_keepLeftmostStep_some post cur hpost

/-- The visit of a label of the current group whose leftmost positioner `cur` has content,
when a previous positioner is recorded. -/
theorem adjustHarmGrpsSpacing_compare (harms : Nat → Harm) (this : Nat)
    (params : AdjustHarmGrpsSpacingParams) (sys : System) (pre post : List FloatingPositioner)
    (cur previous : FloatingPositioner) (start : LayerElement)
    (hsys : params.m_currentSystem = some sys)
    (hgrp : (harms this).GetDrawingGrpId ≠ 0)
    (hcur : (harms this).GetDrawingGrpId = params.m_currentGrp)
    (hpos : sys.m_systemAligner.FindAllPositionerPointingTo this = pre ++ cur :: post)
    (hpre : ∀ q ∈ pre, cur.GetContentLeft < q.GetContentLeft)
    (hpost : ∀ q ∈ post, cur.GetContentLeft ≤ q.GetContentLeft)
    (hbb : cur.HasContentBB = true)
    (hstart : (harms this).GetStart = some start)
    (hprev : params.m_previousHarmPositioner = some previous) :
    Harm.AdjustHarmGrpsSpacing harms this params =
      if 0 < overlapOf params previous cur then
        match params.m_previousHarmStart with
        | none => none
        | some previousHarmStart =>
          match params.m_previousMeasure with
          | some previousMeasure =>
            some ⟨FunctorCode.FUNCTOR_SIBLINGS, recordPrevious params [] start cur,
              [(previousMeasure.addr, params.m_overlapingHarm ++
                [(previousHarmStart.GetAlignment, previousMeasure.rightBarLineAlignment,
                  overlapOf params previous cur)])]⟩
          | none =>
            some ⟨FunctorCode.FUNCTOR_SIBLINGS,
              recordPrevious params (params.m_overlapingHarm ++
                [(previousHarmStart.GetAlignment, start.GetAlignment,
                  overlapOf params previous cur)]) start cur, []⟩
      else
        some ⟨FunctorCode.FUNCTOR_SIBLINGS,
          recordPrevious params params.m_overlapingHarm start cur, []⟩ := by
  have hcur0 : params.m_currentGrp ≠ 0 := by rw [← hcur]; exact hgrp
  have hfold := foldl_keepLeftmostStep_none pre post cur hpre hpost
  have hne : (pre ++ cur :: post).isEmpty = false := by
    cases pre <;> rfl
  unfold Harm.AdjustHarmGrpsSpacing
  simp only [hgrp, hcur0, hcur, hsys, hpos, hfold, hbb, hstart, hprev, hne, if_false,
    ne_eq, not_true_eq_false, Bool.not_true, Bool.false_eq_true, overlapOf, measureWidthCarry,
    wordSpaceOf, recordPrevious, gt_iff_lt]

/-! ## Harmony spacing: claims -/

/-- C8: a pass of `AdjustHarmGrpsSpacing` with no current group (id 0) that starts with an
empty list of group ids ends with the list of the distinct non-zero drawing group ids of the
visited labels in the order of their first appearance, every other field of the bundle being
unchanged and no redistribution being called; that list has no duplicate and does not
contain 0; and every visit of such a pass returns `FUNCTOR_SIBLINGS` and changes nothing but
the list of group ids. -/
theorem C8_collect_group_ids (harms : Nat → Harm) (visited : List Nat)
    (params : AdjustHarmGrpsSpacingParams) (hcur : params.m_currentGrp = 0)
    (hids : params.m_grpIds = []) :
    runAdjustHarmGrpsSpacing harms visited params
      = some ({ params with m_grpIds := (firstAppearances
          ((visited.map (fun a => (harms a).GetDrawingGrpId)).filter
            (fun g => decide (g ≠ 0)))) }, []) ∧
    (firstAppearances ((visited.map (fun a => (harms a).GetDrawingGrpId)).filter
      (fun g => decide (g ≠ 0)))).Nodup ∧
    (∀ g, g ∈ firstAppearances ((visited.map (fun a => (harms a).GetDrawingGrpId)).filter
        (fun g => decide (g ≠ 0)))
      ↔ g ≠ 0 ∧ ∃ a ∈ visited, (harms a).GetDrawingGrpId = g) ∧
    (∀ (this : Nat) (p : AdjustHarmGrpsSpacingParams), p.m_currentGrp = 0 →
      Harm.AdjustHarmGrpsSpacing harms this p
        = some ⟨FunctorCode.FUNCTOR_SIBLINGS,
            { p with m_grpIds := collectGrpId p.m_grpIds (harms this).GetDrawingGrpId }, []⟩) := by
  refine ⟨?_, nodup_firstAppearances _, ?_, ?_⟩
  · rw [runAdjustHarmGrpsSpacing_collect harms visited params hcur, foldl_collectGrpId, hids]
    simp
  · intro g
    rw [mem_firstAppearances]
    simp only [List.mem_filter, List.mem_map, decide_eq_true_eq]
    constructor
    · rintro ⟨⟨a, ha, hg⟩, h0⟩
      exact ⟨h0, a, ha, hg⟩
    · rintro ⟨h0, a, ha, hg⟩
      exact ⟨⟨a, ha, hg⟩, h0⟩
  · intro this p hp
    exact adjustHarmGrpsSpacing_collect harms this p hp

/-- C8 at a concrete pass: the visited labels carry the group ids 101, 102, 0, 101, 102 and
101, and the collected list is 101, 102. -/
theorem C8_collect_group_ids_witness :
    runAdjustHarmGrpsSpacing sampleSpacingHarms [20, 22, 23, 21, 22, 24] sampleCollectParams
      = some ({ sampleCollectParams with m_grpIds := [101, 102] }, []) :=
  (C8_collect_group_ids sampleSpacingHarms [20, 22, 23, 21, 22, 24] sampleCollectParams
    rfl rfl).1

/-- C9: on a label of the current group whose positioner with the smallest content left edge
(the first one on ties) is `cur` and has content, with a previous positioner and its start
recorded, let `overlap` be the content right edge of the previous positioner minus the sum of
the content left edge of `cur` and the width of the recorded previous measure (0 if none), plus
the word space. If `overlap` is not positive the pending list is unchanged and no
redistribution is called. If it is positive exactly one new tuple, carrying `overlap`, is
issued: it is pushed to the pending list in the same-measure case, and passed with the pending
ones to the aligner of the previous measure in the cross-measure case. -/
theorem C9_overlap_test (harms : Nat → Harm) (this : Nat)
    (params : AdjustHarmGrpsSpacingParams) (sys : System) (pre post : List FloatingPositioner)
    (cur previous : FloatingPositioner) (start previousStart : LayerElement)
    (hsys : params.m_currentSystem = some sys)
    (hgrp : (harms this).GetDrawingGrpId ≠ 0)
    (hcur : (harms this).GetDrawingGrpId = params.m_currentGrp)
    (hpos : sys.m_systemAligner.FindAllPositionerPointingTo this = pre ++ cur :: post)
    (hpre : ∀ q ∈ pre, cur.GetContentLeft < q.GetContentLeft)
    (hpost : ∀ q ∈ post, cur.GetContentLeft ≤ q.GetContentLeft)
    (hbb : cur.HasContentBB = true)
    (hstart : (harms this).GetStart = some start)
    (hprev : params.m_previousHarmPositioner = some previous)
    (hprevStart : params.m_previousHarmStart = some previousStart) :
    (overlapOf params previous cur ≤ 0 →
      ∃ r, Harm.AdjustHarmGrpsSpacing harms this params = some r ∧
        r.code = FunctorCode.FUNCTOR_SIBLINGS ∧
        r.params.m_overlapingHarm = params.m_overlapingHarm ∧ r.adjusted = []) ∧
    (0 < overlapOf params previous cur →
      ∃ r startAlignment endAlignment,
        Harm.AdjustHarmGrpsSpacing harms this params = some r ∧
        r.code = FunctorCode.FUNCTOR_SIBLINGS ∧
        ((params.m_previousMeasure = none ∧
            r.params.m_overlapingHarm = params.m_overlapingHarm ++
              [(startAlignment, endAlignment, overlapOf params previous cur)] ∧
            r.adjusted = []) ∨
          (∃ m, params.m_previousMeasure = some m ∧ r.params.m_overlapingHarm = [] ∧
            r.adjusted = [(m.addr, params.m_overlapingHarm ++
              [(startAlignment, endAlignment, overlapOf params previous cur)])]))) := by
  have h := adjustHarmGrpsSpacing_compare harms this params sys pre post cur previous start
    hsys hgrp hcur hpos hpre hpost hbb hstart hprev
  constructor
  · intro hle
    rw [if_neg (not_lt.2 hle)] at h
    exact ⟨_, h, rfl, rfl, rfl⟩
  · intro hlt
    rw [if_pos hlt, hprevStart] at h
    cases hm : params.m_previousMeasure with
    | none =>
      rw [hm] at h
      exact ⟨_, previousStart.GetAlignment, start.GetAlignment, h, rfl, Or.inl ⟨rfl, rfl, rfl⟩⟩
    | some m =>
      rw [hm] at h
      exact ⟨_, previousStart.GetAlignment, m.rightBarLineAlignment, h, rfl,
        Or.inr ⟨m, rfl, rfl, rfl⟩⟩

/-- C9 at concrete visits. The label 21 has positioners with the left edges 90, 80 and 80;
the previous right edge is 100 and the word space 18, so the overlap is 38 and one tuple is
issued. The label 25 has its left edge at 300, the overlap is -182, and the pending list is
left as it is. -/
theorem C9_overlap_test_witness :
    overlapOf sampleSpacingParams ⟨200, 20, 0, 100, true⟩ ⟨202, 21, 80, 150, true⟩ = 38 ∧
    (∃ r startAlignment endAlignment,
      Harm.AdjustHarmGrpsSpacing sampleSpacingHarms 21 sampleSpacingParams = some r ∧
      r.code = FunctorCode.FUNCTOR_SIBLINGS ∧
      ((sampleSpacingParams.m_previousMeasure = none ∧
          r.params.m_overlapingHarm = sampleSpacingParams.m_overlapingHarm ++
            [(startAlignment, endAlignment,
              overlapOf sampleSpacingParams ⟨200, 20, 0, 100, true⟩ ⟨202, 21, 80, 150, true⟩)] ∧
          r.adjusted = []) ∨
        (∃ m, sampleSpacingParams.m_previousMeasure = some m ∧
          r.params.m_overlapingHarm = [] ∧
          r.adjusted = [(m.addr, sampleSpacingParams.m_overlapingHarm ++
            [(startAlignment, endAlignment,
              overlapOf sampleSpacingParams ⟨200, 20, 0, 100, true⟩
                ⟨202, 21, 80, 150, true⟩)])]))) ∧
    overlapOf sampleSpacingParams ⟨200, 20, 0, 100, true⟩ ⟨205, 25, 300, 350, true⟩ = -182 ∧
    ∃ r, Harm.AdjustHarmGrpsSpacing sampleSpacingHarms 25 sampleSpacingParams = some r ∧
      r.code = FunctorCode.FUNCTOR_SIBLINGS ∧
      r.params.m_overlapingHarm = sampleSpacingParams.m_overlapingHarm ∧ r.adjusted = [] :=
  ⟨by decide,
    (C9_overlap_test sampleSpacingHarms 21 sampleSpacingParams sampleHarmSystem
      [⟨201, 21, 90, 150, true⟩] [⟨203, 21, 80, 140, true⟩] ⟨202, 21, 80, 150, true⟩
      ⟨200, 20, 0, 100, true⟩ ⟨2001, 601⟩ ⟨2000, 600⟩ rfl (by decide) (by decide) (by decide)
      (by decide) (by decide) rfl rfl rfl rfl).2 (by decide),
    by decide,
    (C9_overlap_test sampleSpacingHarms 25 sampleSpacingParams sampleHarmSystem
      [] [] ⟨205, 25, 300, 350, true⟩
      ⟨200, 20, 0, 100, true⟩ ⟨2005, 605⟩ ⟨2000, 600⟩ rfl (by decide) (by decide) (by decide)
      (by decide) (by decide) rfl rfl rfl rfl).1 (by decide)⟩

/-- C10: in the setting of C9 with a positive overlap, (a) when no previous measure is
recorded the tuple made of the alignment of the previous start, the alignment of the start of
the current label and the overlap is pushed to the pending list and no redistribution is
called; (b) when a previous measure is recorded the tuple made of the alignment of the
previous start, the alignment of the right barline of the previous measure and the overlap is
pushed, the list is passed at once to the aligner of the previous measure, and the pending
list is empty when the visit returns. -/
theorem C10_redistribution_target (harms : Nat → Harm) (this : Nat)
    (params : AdjustHarmGrpsSpacingParams) (sys : System) (pre post : List FloatingPositioner)
    (cur previous : FloatingPositioner) (start previousStart : LayerElement)
    (hsys : params.m_currentSystem = some sys)
    (hgrp : (harms this).GetDrawingGrpId ≠ 0)
    (hcur : (harms this).GetDrawingGrpId = params.m_currentGrp)
    (hpos : sys.m_systemAligner.FindAllPositionerPointingTo this = pre ++ cur :: post)
    (hpre : ∀ q ∈ pre, cur.GetContentLeft < q.GetContentLeft)
    (hpost : ∀ q ∈ post, cur.GetContentLeft ≤ q.GetContentLeft)
    (hbb : cur.HasContentBB = true)
    (hstart : (harms this).GetStart = some start)
    (hprev : params.m_previousHarmPositioner = some previous)
    (hprevStart : params.m_previousHarmStart = some previousStart)
    (hover : 0 < overlapOf params previous cur) :
    (params.m_previousMeasure = none →
      Harm.AdjustHarmGrpsSpacing harms this params
        = some ⟨FunctorCode.FUNCTOR_SIBLINGS,
            recordPrevious params (params.m_overlapingHarm ++
              [(previousStart.GetAlignment, start.GetAlignment,
                overlapOf params previous cur)]) start cur, []⟩) ∧
    (∀ m, params.m_previousMeasure = some m →
      Harm.AdjustHarmGrpsSpacing harms this params
        = some ⟨FunctorCode.FUNCTOR_SIBLINGS, recordPrevious params [] start cur,
            [(m.addr, params.m_overlapingHarm ++
              [(previousStart.GetAlignment, m.rightBarLineAlignment,
                overlapOf params previous cur)])]⟩ ∧
      (recordPrevious params [] start cur).m_overlapingHarm = []) := by
  have h := adjustHarmGrpsSpacing_compare harms this params sys pre post cur previous start
    hsys hgrp hcur hpos hpre hpost hbb hstart hprev
  rw [if_pos hover, hprevStart] at h
  constructor
  · intro hm
    rw [hm] at h
    exact h
  · intro m hm
    rw [hm] at h
    exact ⟨h, rfl⟩

/-- C10 at concrete visits of the label 21: in the same measure the tuple (600, 601, 38) is
pending after the visit; across a measure of width 500 whose right barline is at the
alignment 700 the tuple (606, 700, 38) goes at once to the aligner of that measure. -/
theorem C10_redistribution_target_witness :
    Harm.AdjustHarmGrpsSpacing sampleSpacingHarms 21 sampleSpacingParams
      = some ⟨FunctorCode.FUNCTOR_SIBLINGS,
          recordPrevious sampleSpacingParams [(600, 601, 38)] ⟨2001, 601⟩
            ⟨202, 21, 80, 150, true⟩, []⟩ ∧
    Harm.AdjustHarmGrpsSpacing sampleSpacingHarms 21 sampleCrossMeasureParams
      = some ⟨FunctorCode.FUNCTOR_SIBLINGS,
          recordPrevious sampleCrossMeasureParams [] ⟨2001, 601⟩ ⟨202, 21, 80, 150, true⟩,
          [(300, [(606, 700, 38)])]⟩ :=
  ⟨(C10_redistribution_target sampleSpacingHarms 21 sampleSpacingParams sampleHarmSystem
      [⟨201, 21, 90, 150, true⟩] [⟨203, 21, 80, 140, true⟩] ⟨202, 21, 80, 150, true⟩
      ⟨200, 20, 0, 100, true⟩ ⟨2001, 601⟩ ⟨2000, 600⟩ rfl (by decide) (by decide) (by decide)
      (by decide) (by decide) rfl rfl rfl rfl (by decide)).1 rfl,
    ((C10_redistribution_target sampleSpacingHarms 21 sampleCrossMeasureParams sampleHarmSystem
      [⟨201, 21, 90, 150, true⟩] [⟨203, 21, 80, 140, true⟩] ⟨202, 21, 80, 150, true⟩
      ⟨206, 26, 450, 600, true⟩ ⟨2001, 601⟩ ⟨2006, 606⟩ rfl (by decide) (by decide) (by decide)
      (by decide) (by decide) rfl rfl rfl rfl (by decide)).2 ⟨300, 500, 700⟩ rfl).1⟩

/-! ## Ligatures: lemmas -/

theorem length_setShape (shapes : List Nat) (i : Nat) (f : Nat → Nat) :
    (setShape shapes i f).length = shapes.length := by
  simp [setShape]

theorem getElem?_setShape (shapes : List Nat) (i j : Nat) (f : Nat → Nat) :
    (setShape shapes i f)[j]? = if i = j then (shapes[j]?).map f else shapes[j]? := by
  unfold setShape
  rw [List.getElem?_set']
  by_cases h : i = j
  · subst h
    cases hs : shapes[i]? <;> simp
  · simp [h]

theorem modifyAt_eq (shapes : List Nat) (i : Nat) (f : Nat → Nat) (h : i < shapes.length) :
    modifyAt shapes i f = some (setShape shapes i f) := by
  unfold modifyAt setShape
  rw [List.getElem?_eq_getElem h]
  rfl

theorem shapeAt_eq (shapes : List Nat) (i : Nat) (h : i < shapes.length) :
    shapeAt shapes i = some (shapes[i]?.getD 0) := by
  unfold shapeAt
  rw [List.getElem?_eq_getElem h]
  rfl

theorem ligatureTable_eq (dur1 dur2 : Int) (up isMaxima isLastNote : Bool)
    (noteLig : data_LIGATUREFORM) (n1 n2 : Nat) (shapes : List Nat)
    (h1 : n1 < shapes.length) (h2 : n2 < shapes.length) :
    ligatureTable dur1 dur2 up isMaxima isLastNote noteLig n1 n2 shapes
      = some (ligatureTableTotal dur1 dur2 up isMaxima isLastNote noteLig n1 n2 shapes) := by
  have h0 : n1 - 1 < shapes.length := by omega
  unfold ligatureTable ligatureTableTotal
  by_cases c1 : dur1 = DUR_LG ∧ dur2 = DUR_LG
  · rw [if_pos c1, if_pos c1]
    split_ifs <;> simp [modifyAt_eq, length_setShape, h0, h1, h2]
  rw [if_neg c1, if_neg c1]
  by_cases c2 : dur1 = DUR_LG ∧ dur2 = DUR_BR
  · rw [if_pos c2, if_pos c2]
    split_ifs <;> simp [modifyAt_eq, length_setShape, h0, h1, h2]
  rw [if_neg c2, if_neg c2]
  by_cases c3 : dur1 = DUR_BR ∧ dur2 = DUR_BR
  · rw [if_pos c3, if_pos c3]
    split_ifs <;> simp [modifyAt_eq, length_setShape, h0, h1, h2]
  rw [if_neg c3, if_neg c3]
  by_cases c4 : dur1 = DUR_BR ∧ dur2 = DUR_LG
  · rw [if_pos c4, if_pos c4]
    split_ifs <;> simp [modifyAt_eq, length_setShape, h0, h1, h2]
  rw [if_neg c4, if_neg c4]
  by_cases c5 : dur1 = DUR_1 ∧ dur2 = DUR_1
  · rw [if_pos c5, if_pos c5]
    simp [modifyAt_eq, length_setShape, h0, h1, h2]
  rw [if_neg c5, if_neg c5]
  by_cases c6 : dur1 = DUR_1 ∧ dur2 = DUR_LG
  · rw [if_pos c6, if_pos c6]
    split_ifs <;> simp [modifyAt_eq, length_setShape, h0, h1, h2]
  rw [if_neg c6, if_neg c6]
  by_cases c7 : dur1 = DUR_1 ∧ dur2 = DUR_BR
  · rw [if_pos c7, if_pos c7]
    split_ifs <;> simp [modifyAt_eq, length_setShape, h0, h1, h2]
  rw [if_neg c7, if_neg c7]

theorem ligatureForceOblique_eq (oblique : Bool) (n1 : Nat) (shapes : List Nat)
    (h1 : n1 < shapes.length) :
    ligatureForceOblique oblique n1 shapes
      = some (ligatureForceObliqueTotal oblique n1 shapes) := by
  have h0 : n1 - 1 < shapes.length := by omega
  unfold ligatureForceOblique ligatureForceObliqueTotal
  split_ifs <;> simp [modifyAt_eq, length_setShape, h0, h1]

theorem ligatureStack_eq (isLastNote isMensuralBlack : Bool) (dur2 diatonicStep : Int)
    (up previousUp : Bool) (n1 n2 : Nat) (shapes : List Nat)
    (h1 : n1 < shapes.length) (h2 : n2 < shapes.length) :
    ligatureStack isLastNote isMensuralBlack dur2 diatonicStep up previousUp n1 n2 shapes
      = some (ligatureStackTotal isLastNote isMensuralBlack dur2 diatonicStep up previousUp
          n1 n2 shapes) := by
  have h0 : n1 - 1 < shapes.length := by omega
  unfold ligatureStack ligatureStackTotal stackThresholdOf
  by_cases c : isLastNote = true ∧ isMensuralBlack = true ∧ dur2 = DUR_LG ∧ up = true
  · rw [if_pos c, if_pos c]
    by_cases c2 : n1 > 0 ∧ (!previousUp) = true
    · simp only [if_pos c2, shapeAt_eq _ _ h0, bind, pure, Option.bind]
      split_ifs <;> simp_all [modifyAt_eq]
    · simp only [if_neg c2, bind, pure, Option.bind]
      split_ifs <;> simp [modifyAt_eq, h2]
  · rw [if_neg c, if_neg c]

/-- Whatever holds of the shapes and is kept by the updates of the rule table holds after the
rule table. -/
theorem ligatureTableTotal_ind (P : List Nat → Prop) (dur1 dur2 : Int)
    (up isMaxima isLastNote : Bool) (noteLig : data_LIGATUREFORM) (n1 n2 : Nat)
    (shapes : List Nat) (h0 : P shapes)
    (hstep : ∀ s i f, P s → ShapeOp f → P (setShape s i f)) :
    P (ligatureTableTotal dur1 dur2 up isMaxima isLastNote noteLig n1 n2 shapes) := by
  unfold ligatureTableTotal
  by_cases c1 : dur1 = DUR_LG ∧ dur2 = DUR_LG
  · rw [if_pos c1]
    split_ifs <;> first
      | exact h0
      | exact hstep _ _ _ (hstep _ _ _ h0 (by constructor)) (by constructor)
  rw [if_neg c1]
  by_cases c2 : dur1 = DUR_LG ∧ dur2 = DUR_BR
  · rw [if_pos c2]
    split_ifs <;> first
      | exact h0
      | exact hstep _ _ _ h0 (by constructor)
      | exact hstep _ _ _ (hstep _ _ _ h0 (by constructor)) (by constructor)
  rw [if_neg c2]
  by_cases c3 : dur1 = DUR_BR ∧ dur2 = DUR_BR
  · rw [if_pos c3]
    split_ifs <;> first
      | exact h0
      | exact hstep _ _ _ (hstep _ _ _ h0 (by constructor)) (by constructor)
  rw [if_neg c3]
  by_cases c4 : dur1 = DUR_BR ∧ dur2 = DUR_LG
  · rw [if_pos c4]
    split_ifs <;> first
      | exact h0
      | exact hstep _ _ _ h0 (by constructor)
      | exact hstep _ _ _ (hstep _ _ _ h0 (by constructor)) (by constructor)
  rw [if_neg c4]
  by_cases c5 : dur1 = DUR_1 ∧ dur2 = DUR_1
  · rw [if_pos c5]
    exact hstep _ _ _ h0 (by constructor)
  rw [if_neg c5]
  by_cases c6 : dur1 = DUR_1 ∧ dur2 = DUR_LG
  · rw [if_pos c6]
    split_ifs <;> first
      | exact h0
      | exact hstep _ _ _ h0 (by constructor)
  rw [if_neg c6]
  by_cases c7 : dur1 = DUR_1 ∧ dur2 = DUR_BR
  · rw [if_pos c7]
    split_ifs <;> first
      | exact h0
      | exact hstep _ _ _ h0 (by constructor)
      | exact hstep _ _ _ (hstep _ _ _ h0 (by constructor)) (by constructor)
  rw [if_neg c7]
  exact h0

/-- Whatever holds of the shapes and is kept by the updates of the oblique statement holds
after it. -/
theorem ligatureForceObliqueTotal_ind (P : List Nat → Prop) (oblique : Bool) (n1 : Nat)
    (shapes : List Nat) (h0 : P shapes)
    (hstep : ∀ s i f, P s → ShapeOp f → P (setShape s i f)) :
    P (ligatureForceObliqueTotal oblique n1 shapes) := by
  unfold ligatureForceObliqueTotal
  split_ifs <;> first
    | exact h0
    | exact hstep _ _ _ h0 (by constructor)
    | exact hstep _ _ _ (hstep _ _ _ h0 (by constructor)) (by constructor)

theorem length_ligatureTableTotal (dur1 dur2 : Int) (up isMaxima isLastNote : Bool)
    (noteLig : data_LIGATUREFORM) (n1 n2 : Nat) (shapes : List Nat) :
    (ligatureTableTotal dur1 dur2 up isMaxima isLastNote noteLig n1 n2 shapes).length
      = shapes.length :=
  ligatureTableTotal_ind (fun s => s.length = shapes.length) _ _ _ _ _ _ _ _ _ rfl
    (fun s i f h _ => (length_setShape s i f).trans h)

theorem length_ligatureForceObliqueTotal (oblique : Bool) (n1 : Nat) (shapes : List Nat) :
    (ligatureForceObliqueTotal oblique n1 shapes).length = shapes.length :=
  ligatureForceObliqueTotal_ind (fun s => s.length = shapes.length) _ _ _ rfl
    (fun s i f h _ => (length_setShape s i f).trans h)

theorem length_ligatureStackTotal (isLastNote isMensuralBlack : Bool) (dur2 diatonicStep : Int)
    (up previousUp : Bool) (n1 n2 : Nat) (shapes : List Nat) :
    (ligatureStackTotal isLastNote isMensuralBlack dur2 diatonicStep up previousUp n1 n2
      shapes).length = shapes.length := by
  unfold ligatureStackTotal
  split_ifs <;> simp [length_setShape]

theorem length_pairShapes (isMensuralBlack isLastNote : Bool) (previousNote note : Note)
    (oblique previousUp : Bool) (n1 n2 : Nat) (shapes : List Nat) :
    (pairShapes isMensuralBlack isLastNote previousNote note oblique previousUp n1 n2
      shapes).length = shapes.length := by
  unfold pairShapes
  simp only [length_ligatureStackTotal, length_ligatureForceObliqueTotal,
    length_ligatureTableTotal]

theorem shapeLoopBody_eq (isMensuralBlack isLastNote : Bool) (note : Note)
    (st : ShapeLoopState) (k : Nat) (hinv : ShapeLoopInv st k) :
    shapeLoopBody isMensuralBlack isLastNote note st
      = some (shapeLoopBodyTotal isMensuralBlack isLastNote note st) ∧
    ShapeLoopInv (shapeLoopBodyTotal isMensuralBlack isLastNote note st) (k + 1) := by
  obtain ⟨hlen, hcase⟩ := hinv
  rcases hcase with ⟨hk, hprev, hn1, hn2⟩ | ⟨hk, hprev, hn1, hn2⟩
  · unfold shapeLoopBody shapeLoopBodyTotal ShapeLoopInv
    simp only [hprev]
    exact ⟨trivial, by simp [hlen], Or.inr ⟨by omega, by simp, by simp [hn1, hk], by simp [hn2, hk]⟩⟩
  · cases hp : st.previousNote with
    | none => exact absurd hp hprev
    | some previousNote =>
      have h1 : st.n1 < (st.m_drawingShapes ++ [LIGATURE_DEFAULT]).length := by
        simp; omega
      have h2 : st.n2 < (st.m_drawingShapes ++ [LIGATURE_DEFAULT]).length := by
        simp; omega
      constructor
      · unfold shapeLoopBody shapeLoopBodyTotal pairShapes
        simp only [hp]
        rw [ligatureTable_eq _ _ _ _ _ _ _ _ _ h1 h2]
        simp only [bind, pure, Option.bind]
        rw [ligatureForceOblique_eq _ _ _ (by rw [length_ligatureTableTotal]; exact h1)]
        simp only
        rw [ligatureStack_eq _ _ _ _ _ _ _ _ _
          (by rw [length_ligatureForceObliqueTotal, length_ligatureTableTotal]; exact h1)
          (by rw [length_ligatureForceObliqueTotal, length_ligatureTableTotal]; exact h2)]
      · unfold shapeLoopBodyTotal ShapeLoopInv
        simp only [hp, length_pairShapes]
        refine ⟨by simp [hlen], Or.inr ⟨by omega, by simp, by omega, by omega⟩⟩

theorem shapeLoop_eq (isMensuralBlack : Bool) (notes : List Note) :
    ∀ (st : ShapeLoopState) (k : Nat), ShapeLoopInv st k →
      shapeLoop isMensuralBlack notes st = some (shapeLoopTotal isMensuralBlack notes st) ∧
      ShapeLoopInv (shapeLoopTotal isMensuralBlack notes st) (k + notes.length) := by
  induction notes with
  | nil => intro st k h; exact ⟨rfl, by simpa using h⟩
  | cons note rest ih =>
    intro st k h
    obtain ⟨hb, hinv⟩ := shapeLoopBody_eq isMensuralBlack rest.isEmpty note st k h
    obtain ⟨hl, hinv'⟩ := ih _ _ hinv
    constructor
    · rw [shapeLoop, hb]
      simp only
      rw [hl, shapeLoopTotal]
    · rw [shapeLoopTotal]
      have : k + (note :: rest).length = k + 1 + rest.length := by simp; omega
      rw [this]
      exact hinv'

theorem posLoopBody_first (params : FunctorDocParams) (staff : Staff) (shapes : List Nat)
    (note : Note) (st : PosLoopState) (hprev : st.previousNote = none)
    (h : st.n1 + 1 < shapes.length) :
    posLoopBody params staff shapes note st
      = some (note.SetDrawingXRel (st.previousRight
            - stackBack (shapes[st.n1 + 1]?.getD 0) (noteWidth params staff note)),
          { previousRight := st.previousRight
              - stackBack (shapes[st.n1 + 1]?.getD 0) (noteWidth params staff note)
              + noteWidth params staff note
            previousNote := some (note.SetDrawingXRel (st.previousRight
              - stackBack (shapes[st.n1 + 1]?.getD 0) (noteWidth params staff note)))
            n1 := st.n1 }) := by
  unfold posLoopBody
  simp only [shapeAt_eq _ _ h, hprev, bind, pure, Option.bind, stackBack, noteWidth, hasFlag]
  split_ifs <;> simp

theorem posLoopBody_next (params : FunctorDocParams) (staff : Staff) (shapes : List Nat)
    (note previousNote : Note) (st : PosLoopState) (hprev : st.previousNote = some previousNote)
    (h : st.n1 + 1 < shapes.length) :
    posLoopBody params staff shapes note st
      = some (note.SetDrawingXRel (st.previousRight
            - stackBack (shapes[st.n1 + 1]?.getD 0) (noteWidth params staff note)
            + obliqueShift (shapes[st.n1]?.getD 0)
                (note.GetDiatonicPitch - previousNote.GetDiatonicPitch)
                (noteWidth params staff note)),
          { previousRight := st.previousRight
              - stackBack (shapes[st.n1 + 1]?.getD 0) (noteWidth params staff note)
              + obliqueShift (shapes[st.n1]?.getD 0)
                  (note.GetDiatonicPitch - previousNote.GetDiatonicPitch)
                  (noteWidth params staff note)
              + noteWidth params staff note
            previousNote := some (note.SetDrawingXRel (st.previousRight
              - stackBack (shapes[st.n1 + 1]?.getD 0) (noteWidth params staff note)
              + obliqueShift (shapes[st.n1]?.getD 0)
                  (note.GetDiatonicPitch - previousNote.GetDiatonicPitch)
                  (noteWidth params staff note)))
            n1 := st.n1 + 1 }) := by
  have h' : st.n1 < shapes.length := by omega
  unfold posLoopBody
  simp only [shapeAt_eq _ _ h, shapeAt_eq _ _ h', hprev, bind, pure, Option.bind, stackBack,
    obliqueShift, noteWidth, hasFlag, Note.SetDrawingXRel, Note.GetDrawingXRel,
    Note.GetDiatonicPitch]
  split_ifs <;> simp <;> ring

theorem posLoop_later (params : FunctorDocParams) (staff : Staff) (shapes : List Nat)
    (rest : List Note) :
    ∀ (st : PosLoopState) (k : Nat) (previousNote : Note),
      st.previousNote = some previousNote → st.n1 + 1 = k → k + rest.length ≤ shapes.length →
      posLoop params staff shapes rest st
        = some (placeNotes rest (laterOffsets params staff shapes rest k
            previousNote.GetDiatonicPitch st.previousRight)) := by
  induction rest with
  | nil => intro st k previousNote _ _ _; rfl
  | cons note rest ih =>
    intro st k previousNote hprev hk hlen
    have hlen' : k + rest.length + 1 ≤ shapes.length := by
      simpa [Nat.add_assoc] using hlen
    have h : st.n1 + 1 < shapes.length := by omega
    rw [posLoop, posLoopBody_next params staff shapes note previousNote st hprev h]
    simp only
    rw [ih _ (k + 1) _ rfl (by simp; omega) (by omega)]
    simp only [laterOffsets, placeNotes, List.zipWith_cons_cons, ← hk, Nat.add_sub_cancel,
      Note.SetDrawingXRel, Note.GetDiatonicPitch]

theorem posLoop_first (params : FunctorDocParams) (staff : Staff) (shapes : List Nat)
    (notes : List Note) (h2 : 2 ≤ shapes.length) (hlen : notes.length ≤ shapes.length) :
    posLoop params staff shapes notes { previousRight := 0, previousNote := none, n1 := 0 }
      = some (placeNotes notes (codeOffsets params staff shapes notes)) := by
  cases notes with
  | nil => rfl
  | cons note rest =>
    have hlen' : rest.length + 1 ≤ shapes.length := by simpa using hlen
    rw [posLoop, posLoopBody_first params staff shapes note _ rfl (by simp; omega)]
    simp only
    rw [posLoop_later params staff shapes rest _ 1 _ rfl rfl (by omega)]
    simp only [codeOffsets, offsetsFrom, placeNotes, List.zipWith_cons_cons,
      Note.SetDrawingXRel, Note.GetDiatonicPitch, Nat.zero_add]

theorem length_laterOffsets (params : FunctorDocParams) (staff : Staff) (shapes : List Nat)
    (rest : List Note) :
    ∀ (k : Nat) (previousPitch edge : Int),
      (laterOffsets params staff shapes rest k previousPitch edge).length = rest.length := by
  induction rest with
  | nil => intro k p e; rfl
  | cons note rest ih => intro k p e; simp [laterOffsets, ih]

theorem length_offsetsFrom (params : FunctorDocParams) (staff : Staff) (shapes : List Nat)
    (first : Int) (notes : List Note) :
    (offsetsFrom params staff shapes first notes).length = notes.length := by
  cases notes with
  | nil => rfl
  | cons note rest => simp [offsetsFrom, length_laterOffsets]

theorem length_codeOffsets (params : FunctorDocParams) (staff : Staff) (shapes : List Nat)
    (notes : List Note) :
    (codeOffsets params staff shapes notes).length = notes.length := by
  cases notes with
  | nil => rfl
  | cons note rest => simp [codeOffsets, length_offsetsFrom]

theorem length_placeNotes (notes : List Note) (offsets : List Int)
    (h : offsets.length = notes.length) : (placeNotes notes offsets).length = notes.length := by
  simp [placeNotes, h]

theorem length_ligatureShapes (staff : Staff) (form : data_LIGATUREFORM) (notes : List Note) :
    (ligatureShapes staff form notes).length = notes.length := by
  unfold ligatureShapes
  have h := (shapeLoop_eq
    (decide (staff.m_drawingNotationType = data_NOTATIONTYPE.NOTATIONTYPE_mensural_black))
    notes
    { m_drawingShapes := [], previousNote := none, previousUp := false, n1 := 0, n2 := 1,
      oblique := decide (notes.length = 2
        ∧ form = data_LIGATUREFORM.LIGATUREFORM_obliqua) } 0
    ⟨rfl, Or.inl ⟨rfl, rfl, rfl, rfl⟩⟩).2
  simpa using h.1

/-- With the bracket option off, `CalcLigatureNotePos` on a run of at least two notes returns
`FUNCTOR_SIBLINGS` with the shapes of the first loop and the x-offsets of the second loop. -/
theorem calcLigatureNotePos_eq (params : FunctorDocParams) (staff : Staff) (this : Ligature)
    (hbracket : params.m_doc.m_ligatureAsBracket = false) (hn : 2 ≤ this.notes.length) :
    Ligature.CalcLigatureNotePos params staff this
      = some (FunctorCode.FUNCTOR_SIBLINGS,
          { form := this.form
            notes := placeNotes this.notes (codeOffsets params staff
              (ligatureShapes staff this.form this.notes) this.notes)
            m_drawingShapes := ligatureShapes staff this.form this.notes }) := by
  have hlast : ∃ l, this.notes.getLast? = some l := by
    cases hl : this.notes.getLast? with
    | some l => exact ⟨l, rfl⟩
    | none =>
      rw [List.getLast?_eq_none_iff] at hl
      rw [hl] at hn
      simp at hn
  obtain ⟨l, hl⟩ := hlast
  have hloop := (shapeLoop_eq
    (decide (staff.m_drawingNotationType = data_NOTATIONTYPE.NOTATIONTYPE_mensural_black))
    this.notes
    { m_drawingShapes := [], previousNote := none, previousUp := false, n1 := 0, n2 := 1,
      oblique := decide (this.notes.length = 2
        ∧ this.form = data_LIGATUREFORM.LIGATUREFORM_obliqua) } 0
    ⟨rfl, Or.inl ⟨rfl, rfl, rfl, rfl⟩⟩).1
  have hlen := length_ligatureShapes staff this.form this.notes
  unfold Ligature.CalcLigatureNotePos
  simp only [hbracket, Ligature.GetList, Ligature.GetForm, hl, not_lt.2 hn, if_false, hloop,
    Bool.false_eq_true]
  have hpos := posLoop_first params staff (ligatureShapes staff this.form this.notes)
    this.notes (by omega) (by omega)
  unfold ligatureShapes at hpos
  rw [hpos]
  rfl

theorem hasFlag_two_pow (s k : Nat) : hasFlag s (2 ^ k) ↔ s.testBit k = true := by
  unfold hasFlag
  constructor
  · intro h
    obtain ⟨i, hi⟩ := Nat.ne_zero_implies_bit_true h
    rw [Nat.testBit_and, Nat.testBit_two_pow, Bool.and_eq_true, decide_eq_true_eq] at hi
    rw [hi.2]; exact hi.1
  · intro h hz
    have : (s &&& 2 ^ k).testBit k = true := by
      rw [Nat.testBit_and, h, Nat.testBit_two_pow_self]; rfl
    rw [hz, Nat.zero_testBit] at this
    exact absurd this (by simp)

theorem hasFlag_oblique (s : Nat) : hasFlag s LIGATURE_OBLIQUE ↔ s.testBit 4 = true :=
  hasFlag_two_pow s 4

theorem hasFlag_stacked (s : Nat) : hasFlag s LIGATURE_STACKED ↔ s.testBit 5 = true :=
  hasFlag_two_pow s 5

theorem hasFlag_or_oblique (s : Nat) : hasFlag (s ||| LIGATURE_OBLIQUE) LIGATURE_OBLIQUE := by
  rw [hasFlag_oblique, Nat.testBit_or]
  have : LIGATURE_OBLIQUE.testBit 4 = true := by decide
  rw [this, Bool.or_true]

theorem not_hasFlag_andNot_oblique (s : Nat) :
    ¬ hasFlag (andNot s LIGATURE_OBLIQUE) LIGATURE_OBLIQUE := by
  rw [hasFlag_oblique, andNot, Nat.testBit_xor, Nat.testBit_and]
  have : LIGATURE_OBLIQUE.testBit 4 = true := by decide
  rw [this]
  cases s.testBit 4 <;> simp

/-- The updates of the rule table and of the oblique statement do not add the stacked
flag. -/
theorem ShapeOp.not_stacked {f : Nat → Nat} (hf : ShapeOp f) (x : Nat)
    (hx : ¬ hasFlag x LIGATURE_STACKED) : ¬ hasFlag (f x) LIGATURE_STACKED := by
  rw [hasFlag_stacked] at hx ⊢
  cases hf with
  | stemRightDown => show ¬ LIGATURE_STEM_RIGHT_DOWN.testBit 5 = true; decide
  | oblique => show ¬ LIGATURE_OBLIQUE.testBit 5 = true; decide
  | stemLeftDown => show ¬ LIGATURE_STEM_LEFT_DOWN.testBit 5 = true; decide
  | stemLeftUp => show ¬ LIGATURE_STEM_LEFT_UP.testBit 5 = true; decide
  | addStemLeftDown =>
    have : LIGATURE_STEM_LEFT_DOWN.testBit 5 = false := by decide
    simp only [Nat.testBit_or, this, Bool.or_false]; exact hx
  | addOblique =>
    have : LIGATURE_OBLIQUE.testBit 5 = false := by decide
    simp only [Nat.testBit_or, this, Bool.or_false]; exact hx
  | removeOblique =>
    have : LIGATURE_OBLIQUE.testBit 5 = false := by decide
    simp only [andNot, Nat.testBit_xor, Nat.testBit_and, this, Bool.and_false, Bool.xor_false]
    exact hx

theorem mem_setShape {shapes : List Nat} {i : Nat} {f : Nat → Nat} {x : Nat}
    (hx : x ∈ setShape shapes i f) : x ∈ shapes ∨ ∃ y ∈ shapes, x = f y := by
  obtain ⟨j, hj⟩ := List.mem_iff_getElem?.1 hx
  rw [getElem?_setShape] at hj
  split_ifs at hj with h
  · cases hs : shapes[j]? with
    | none => rw [hs] at hj; simp at hj
    | some y =>
      rw [hs] at hj
      simp only [Option.map_some', Option.some.injEq] at hj
      exact Or.inr ⟨y, List.mem_iff_getElem?.2 ⟨j, hs⟩, hj.symm⟩
  · exact Or.inl (List.mem_iff_getElem?.2 ⟨j, hj⟩)

theorem setShape_not_stacked {shapes : List Nat} (i : Nat) {f : Nat → Nat} (hf : ShapeOp f)
    (h : ∀ x ∈ shapes, ¬ hasFlag x LIGATURE_STACKED) :
    ∀ x ∈ setShape shapes i f, ¬ hasFlag x LIGATURE_STACKED := by
  intro x hx
  rcases mem_setShape hx with hx | ⟨y, hy, rfl⟩
  · exact h x hx
  · exact hf.not_stacked y (h y hy)

/-- The shapes of a pair carry no stacked flag when the note is not the last one, or the
notation is not mensural black, if there was none before. -/
theorem pairShapes_not_stacked (isMensuralBlack isLastNote : Bool) (previousNote note : Note)
    (oblique previousUp : Bool) (n1 n2 : Nat) (shapes : List Nat)
    (hno : isLastNote = false ∨ isMensuralBlack = false)
    (h : ∀ x ∈ shapes, ¬ hasFlag x LIGATURE_STACKED) :
    ∀ x ∈ pairShapes isMensuralBlack isLastNote previousNote note oblique previousUp n1 n2
      shapes, ¬ hasFlag x LIGATURE_STACKED := by
  unfold pairShapes
  simp only
  have hstack : ∀ (d2 ds : Int) (u pu : Bool) (s : List Nat),
      ligatureStackTotal isLastNote isMensuralBlack d2 ds u pu n1 n2 s = s := by
    intro d2 ds u pu s
    unfold ligatureStackTotal
    rw [if_neg]
    rintro ⟨h1, h2, _⟩
    rcases hno with hno | hno
    · rw [hno] at h1; exact absurd h1 (by simp)
    · rw [hno] at h2; exact absurd h2 (by simp)
  rw [hstack]
  apply ligatureForceObliqueTotal_ind (fun s => ∀ x ∈ s, ¬ hasFlag x LIGATURE_STACKED)
  · apply ligatureTableTotal_ind (fun s => ∀ x ∈ s, ¬ hasFlag x LIGATURE_STACKED)
    · exact h
    · intro s i f hs hf; exact setShape_not_stacked i hf hs
  · intro s i f hs hf; exact setShape_not_stacked i hf hs

theorem shapeLoopTotal_append (isMensuralBlack : Bool) (pre rest : List Note)
    (hrest : rest ≠ []) :
    ∀ st : ShapeLoopState,
      shapeLoopTotal isMensuralBlack (pre ++ rest) st
        = shapeLoopTotal isMensuralBlack rest
            (pre.foldl (fun st note => shapeLoopBodyTotal isMensuralBlack false note st) st) := by
  induction pre with
  | nil => intro st; rfl
  | cons note pre ih =>
    intro st
    have hne : (pre ++ rest).isEmpty = false := by
      cases pre with
      | nil => cases rest with
        | nil => exact absurd rfl hrest
        | cons _ _ => rfl
      | cons _ _ => rfl
    rw [List.cons_append, shapeLoopTotal, hne, ih, List.foldl_cons]

theorem shapeRunInv_step (isMensuralBlack isLastNote : Bool) (oblique0 : Bool)
    (st : ShapeLoopState) (seen : List Note) (note : Note)
    (hno : isLastNote = false ∨ isMensuralBlack = false)
    (hinv : ShapeRunInv oblique0 st seen) :
    ShapeRunInv oblique0 (shapeLoopBodyTotal isMensuralBlack isLastNote note st)
      (seen ++ [note]) := by
  obtain ⟨hloop, hprev, hstk, hup, hob1, hob2⟩ := hinv
  have hloop' := (shapeLoopBody_eq isMensuralBlack isLastNote note st _ hloop).2
  refine ⟨by simpa using hloop', ?_, ?_, ?_, ?_, ?_⟩
  · unfold shapeLoopBodyTotal
    cases hp : st.previousNote <;> simp
  · unfold shapeLoopBodyTotal
    cases hp : st.previousNote with
    | none =>
      intro x hx
      simp only [List.mem_append, List.mem_singleton] at hx
      rcases hx with hx | hx
      · exact hstk x hx
      · rw [hx]; decide
    | some previousNote =>
      simp only
      apply pairShapes_not_stacked _ _ _ _ _ _ _ _ _ hno
      intro x hx
      simp only [List.mem_append, List.mem_singleton] at hx
      rcases hx with hx | hx
      · exact hstk x hx
      · rw [hx]; decide
  · intro ys q r hys
    have hlast : seen ++ [note] = (ys ++ [q]) ++ [r] := by simp [hys]
    obtain ⟨hseen, hr⟩ := List.append_inj' hlast rfl
    simp only [List.cons.injEq, and_true] at hr
    have hq : st.previousNote = some q := by rw [hprev, hseen]; simp
    unfold shapeLoopBodyTotal
    simp only [hq, hr]
  · intro hlen
    have hseen : seen = [] := by
      cases seen with
      | nil => rfl
      | cons _ _ => simp at hlen
    have hp : st.previousNote = none := by rw [hprev, hseen]; rfl
    unfold shapeLoopBodyTotal
    simp only [hp]
    exact hob1 (by rw [hseen]; simp)
  · intro hlen
    have hne : seen ≠ [] := by
      intro h; rw [h] at hlen; simp at hlen
    have hp : ∃ p, st.previousNote = some p := by
      rw [hprev]
      cases h : seen.getLast? with
      | none => exact absurd (List.getLast?_eq_none_iff.1 h) hne
      | some p => exact ⟨p, rfl⟩
    obtain ⟨p, hp⟩ := hp
    unfold shapeLoopBodyTotal
    simp only [hp]

theorem shapeRunInv_foldl (isMensuralBlack : Bool) (oblique0 : Bool) (pre : List Note) :
    ∀ (st : ShapeLoopState) (seen : List Note), ShapeRunInv oblique0 st seen →
      ShapeRunInv oblique0
        (pre.foldl (fun st note => shapeLoopBodyTotal isMensuralBlack false note st) st)
        (seen ++ pre) := by
  induction pre with
  | nil => intro st seen h; simpa using h
  | cons note pre ih =>
    intro st seen h
    have := ih _ _ (shapeRunInv_step isMensuralBlack false oblique0 st seen note (Or.inl rfl) h)
    simpa using this

theorem shapeRunInv_init (oblique0 : Bool) :
    ShapeRunInv oblique0
      { m_drawingShapes := [], previousNote := none, previousUp := false, n1 := 0, n2 := 1,
        oblique := oblique0 } [] := by
  refine ⟨⟨rfl, Or.inl ⟨rfl, rfl, rfl, rfl⟩⟩, rfl, by simp, ?_, fun _ => rfl, ?_⟩
  · intro ys q r h
    have := congrArg List.length h
    simp at this
  · intro h; simp at h

theorem getD_not_stacked {shapes : List Nat}
    (h : ∀ x ∈ shapes, ¬ hasFlag x LIGATURE_STACKED) (i : Nat) :
    ¬ hasFlag (shapes[i]?.getD 0) LIGATURE_STACKED := by
  cases hs : shapes[i]? with
  | none => decide
  | some x => exact h x (List.mem_iff_getElem?.2 ⟨i, hs⟩)

theorem mapped_dur_eq_longa (dur : Int) :
    (if dur = DUR_MX then DUR_LG else dur) = DUR_LG ↔ isLongaOrMaxima dur := by
  unfold isLongaOrMaxima
  split_ifs with h
  · simp [h]
  · simp [h]

/-- The shapes after the pair of the last note: no note before the last one is stacked, and
the last one is exactly stacked when the stacking statement applies. -/
theorem pairShapes_last (isMensuralBlack : Bool) (p l : Note) (oblique previousUp : Bool)
    (n1 : Nat) (shapes : List Nat) (hlen : shapes.length = n1 + 2)
    (hno : ∀ x ∈ shapes, ¬ hasFlag x LIGATURE_STACKED) :
    (pairShapes isMensuralBlack true p l oblique previousUp n1 (n1 + 1) shapes).length
      = n1 + 2 ∧
    (∀ i, i ≤ n1 →
      ¬ hasFlag ((pairShapes isMensuralBlack true p l oblique previousUp n1 (n1 + 1)
        shapes)[i]?.getD 0) LIGATURE_STACKED) ∧
    ((pairShapes isMensuralBlack true p l oblique previousUp n1 (n1 + 1) shapes)[n1 + 1]?
        = some LIGATURE_STACKED ↔
      isMensuralBlack = true ∧ isLongaOrMaxima l.GetActualDur ∧
      0 < l.GetDiatonicPitch - p.GetDiatonicPitch ∧
      stackThresholdOf previousUp n1
          (pairShapes isMensuralBlack true p l oblique previousUp n1 (n1 + 1) shapes)
        < l.GetDiatonicPitch - p.GetDiatonicPitch) := by
  have hS : ∀ x ∈ pairShapes false true p l oblique previousUp n1 (n1 + 1) shapes,
      ¬ hasFlag x LIGATURE_STACKED :=
    pairShapes_not_stacked false true p l oblique previousUp n1 (n1 + 1) shapes (Or.inr rfl) hno
  have hSlen := length_pairShapes false true p l oblique previousUp n1 (n1 + 1) shapes
  have hflen := length_pairShapes isMensuralBlack true p l oblique previousUp n1 (n1 + 1) shapes
  refine ⟨by rw [hflen, hlen], ?_⟩
  unfold pairShapes at hS hSlen ⊢
  simp only at hS hSlen ⊢
  have hSeq : ∀ (d2 ds : Int) (u pu : Bool) (s : List Nat),
      ligatureStackTotal true false d2 ds u pu n1 (n1 + 1) s = s := by
    intro d2 ds u pu s
    unfold ligatureStackTotal
    rw [if_neg]
    rintro ⟨_, h2, _⟩
    exact absurd h2 (by simp)
  rw [hSeq] at hS hSlen
  generalize hSdef : ligatureForceObliqueTotal
    (if p.GetLig = data_LIGATUREFORM.LIGATUREFORM_obliqua then true else oblique) n1
    (ligatureTableTotal (if p.GetActualDur = DUR_MX then DUR_LG else p.GetActualDur)
      (if l.GetActualDur = DUR_MX then DUR_LG else l.GetActualDur)
      (decide (l.GetDiatonicPitch - p.GetDiatonicPitch > 0))
      (decide (p.GetActualDur = DUR_MX)) true l.GetLig n1 (n1 + 1) shapes) = S at hS hSlen ⊢
  have hrange : n1 + 1 < S.length := by omega
  unfold ligatureStackTotal
  by_cases c : (true = true) ∧ isMensuralBlack = true ∧
      (if l.GetActualDur = DUR_MX then DUR_LG else l.GetActualDur) = DUR_LG ∧
      decide (l.GetDiatonicPitch - p.GetDiatonicPitch > 0) = true
  · rw [if_pos c]
    obtain ⟨_, hb, hdur, hup⟩ := c
    rw [mapped_dur_eq_longa] at hdur
    rw [decide_eq_true_eq] at hup
    by_cases c2 : l.GetDiatonicPitch - p.GetDiatonicPitch > stackThresholdOf previousUp n1 S
    · rw [if_pos c2]
      have hthr : stackThresholdOf previousUp n1
          (setShape S (n1 + 1) (fun _ => LIGATURE_STACKED)) = stackThresholdOf previousUp n1 S := by
        have e : (setShape S (n1 + 1) (fun _ => LIGATURE_STACKED))[n1 - 1]? = S[n1 - 1]? := by
          rw [getElem?_setShape, if_neg (by omega : ¬ n1 + 1 = n1 - 1)]
        unfold stackThresholdOf
        rw [e]
      constructor
      · intro i hi
        rw [getElem?_setShape, if_neg (by omega : ¬ n1 + 1 = i)]
        exact getD_not_stacked hS i
      · rw [hthr, getElem?_setShape, if_pos rfl, List.getElem?_eq_getElem hrange]
        simp only [Option.map_some', true_iff]
        exact ⟨hb, hdur, hup, c2⟩
    · rw [if_neg c2]
      constructor
      · intro i _; exact getD_not_stacked hS i
      · constructor
        · intro h
          have := hS LIGATURE_STACKED (List.mem_iff_getElem?.2 ⟨_, h⟩)
          exact absurd (by decide) this
        · rintro ⟨_, _, _, h⟩
          exact absurd h c2
  · rw [if_neg c]
    constructor
    · intro i _; exact getD_not_stacked hS i
    · constructor
      · intro h
        have := hS LIGATURE_STACKED (List.mem_iff_getElem?.2 ⟨_, h⟩)
        exact absurd (by decide) this
      · rintro ⟨hb, hdur, hup, _⟩
        exact absurd ⟨rfl, hb, (mapped_dur_eq_longa _).2 hdur, decide_eq_true hup⟩ c

/-- The shapes of a run whose last two notes are `p` and `l`: those of the pair of the last
note, on the variables that the loop has after the notes before `l`. -/
theorem ligatureShapes_last (staff : Staff) (form : data_LIGATUREFORM) (pre : List Note)
    (p l : Note) :
    ∃ st : ShapeLoopState,
      ShapeRunInv (decide ((pre ++ [p, l]).length = 2
        ∧ form = data_LIGATUREFORM.LIGATUREFORM_obliqua)) st (pre ++ [p]) ∧
      ligatureShapes staff form (pre ++ [p, l])
        = pairShapes
            (decide (staff.m_drawingNotationType
              = data_NOTATIONTYPE.NOTATIONTYPE_mensural_black))
            true p l st.oblique st.previousUp pre.length (pre.length + 1)
            (st.m_drawingShapes ++ [LIGATURE_DEFAULT]) := by
  have hsplit : pre ++ [p, l] = (pre ++ [p]) ++ [l] := by simp
  unfold ligatureShapes
  generalize decide ((pre ++ [p, l]).length = 2
    ∧ form = data_LIGATUREFORM.LIGATUREFORM_obliqua) = ob0
  generalize decide (staff.m_drawingNotationType
    = data_NOTATIONTYPE.NOTATIONTYPE_mensural_black) = black
  have hinv := shapeRunInv_foldl black ob0 (pre ++ [p]) _ [] (shapeRunInv_init ob0)
  rw [hsplit, shapeLoopTotal_append _ _ _ (by simp)]
  generalize List.foldl (fun st note => shapeLoopBodyTotal black false note st)
    { m_drawingShapes := [], previousNote := none, previousUp := false, n1 := 0, n2 := 1,
      oblique := ob0 } (pre ++ [p]) = st at hinv ⊢
  rw [List.nil_append] at hinv
  refine ⟨st, hinv, ?_⟩
  obtain ⟨⟨hlen, hcase⟩, hprev, -⟩ := hinv
  have hlast : (pre ++ [p]).getLast? = some p := by simp
  rw [hlast] at hprev
  simp only [List.length_append, List.length_singleton] at hlen hcase
  rw [shapeLoopTotal, shapeLoopTotal]
  unfold shapeLoopBodyTotal
  simp only [hprev, List.isEmpty_nil]
  rcases hcase with ⟨h0, -⟩ | ⟨-, -, hn1, hn2⟩
  · omega
  · have hn1' : st.n1 = pre.length := by omega
    rw [hn1', hn2]

theorem ligatureShapes_two (staff : Staff) (form : data_LIGATUREFORM) (a b : Note) :
    ligatureShapes staff form [a, b]
      = pairShapes
          (decide (staff.m_drawingNotationType
            = data_NOTATIONTYPE.NOTATIONTYPE_mensural_black))
          true a b (decide (form = data_LIGATUREFORM.LIGATUREFORM_obliqua)) false 0 1
          [LIGATURE_DEFAULT, LIGATURE_DEFAULT] := by
  unfold ligatureShapes
  simp [shapeLoopTotal, shapeLoopBodyTotal]

theorem dur_cases (d : Int) :
    d = DUR_MX ∨ d = DUR_LG ∨ d = DUR_BR ∨ d = DUR_1 ∨
      (d ≠ DUR_MX ∧ d ≠ DUR_LG ∧ d ≠ DUR_BR ∧ d ≠ DUR_1) := by
  by_cases h1 : d = DUR_MX
  · exact Or.inl h1
  by_cases h2 : d = DUR_LG
  · exact Or.inr (Or.inl h2)
  by_cases h3 : d = DUR_BR
  · exact Or.inr (Or.inr (Or.inl h3))
  by_cases h4 : d = DUR_1
  · exact Or.inr (Or.inr (Or.inr (Or.inl h4)))
  exact Or.inr (Or.inr (Or.inr (Or.inr ⟨h1, h2, h3, h4⟩)))

theorem dur_distinct :
    DUR_MX ≠ DUR_LG ∧ DUR_MX ≠ DUR_BR ∧ DUR_MX ≠ DUR_1 ∧ DUR_LG ≠ DUR_BR ∧ DUR_LG ≠ DUR_1 ∧
      DUR_BR ≠ DUR_1 := by
  decide

/-- The rule table of the code on a run of two notes gives the shapes of the rule table of
the specification, when the second note does not carry `@lig` obliqua. -/
theorem ligatureTableTotal_two (dur1 dur2 : Int) (up : Bool) (noteLig : data_LIGATUREFORM)
    (hlig : noteLig ≠ data_LIGATUREFORM.LIGATUREFORM_obliqua) :
    ligatureTableTotal (if dur1 = DUR_MX then DUR_LG else dur1)
        (if dur2 = DUR_MX then DUR_LG else dur2) up (decide (dur1 = DUR_MX)) true noteLig 0 1
        [LIGATURE_DEFAULT, LIGATURE_DEFAULT]
      = [(twoNoteRule dur1 dur2 up).1, (twoNoteRule dur1 dur2 up).2] := by
  obtain ⟨d1, d2, d3, d4, d5, d6⟩ := dur_distinct
  rcases dur_cases dur1 with h | h | h | h | ⟨h1, h2, h3, h4⟩ <;>
  rcases dur_cases dur2 with h' | h' | h' | h' | ⟨h1', h2', h3', h4'⟩ <;>
  cases up <;>
  simp [ligatureTableTotal, twoNoteRule, isLongaOrMaxima, setShape, *, d1, d2, d3, d4, d5, d6,
    d1.symm, d2.symm, d3.symm, d4.symm, d5.symm, d6.symm]

theorem pairShapes_fresh (isMensuralBlack isLastNote : Bool) (previousNote note : Note)
    (oblique previousUp : Bool) (n1 n2 : Nat) (shapes : List Nat) :
    pairShapes isMensuralBlack isLastNote previousNote.fresh note.fresh oblique previousUp n1 n2
        shapes
      = pairShapes isMensuralBlack isLastNote previousNote note oblique previousUp n1 n2
        shapes := rfl

theorem shapeLoopBodyTotal_fresh (isMensuralBlack isLastNote : Bool) (note : Note)
    (st : ShapeLoopState) :
    shapeLoopBodyTotal isMensuralBlack isLastNote note.fresh st.fresh
      = (shapeLoopBodyTotal isMensuralBlack isLastNote note st).fresh := by
  unfold shapeLoopBodyTotal ShapeLoopState.fresh
  cases hp : st.previousNote with
  | none => rfl
  | some previousNote => rfl

theorem shapeLoopTotal_fresh (isMensuralBlack : Bool) (notes : List Note) :
    ∀ st : ShapeLoopState,
      shapeLoopTotal isMensuralBlack (notes.map Note.fresh) st.fresh
        = (shapeLoopTotal isMensuralBlack notes st).fresh := by
  induction notes with
  | nil => intro st; rfl
  | cons note rest ih =>
    intro st
    have he : (List.map Note.fresh rest).isEmpty = rest.isEmpty := by cases rest <;> rfl
    rw [List.map_cons, shapeLoopTotal, shapeLoopTotal, he, shapeLoopBodyTotal_fresh, ih]

theorem ligatureShapes_fresh (staff : Staff) (form : data_LIGATUREFORM) (notes : List Note) :
    ligatureShapes staff form (notes.map Note.fresh) = ligatureShapes staff form notes := by
  unfold ligatureShapes
  have h := shapeLoopTotal_fresh
    (decide (staff.m_drawingNotationType = data_NOTATIONTYPE.NOTATIONTYPE_mensural_black))
    notes
    { m_drawingShapes := [], previousNote := none, previousUp := false, n1 := 0, n2 := 1,
      oblique := decide (notes.length = 2
        ∧ form = data_LIGATUREFORM.LIGATUREFORM_obliqua) }
  rw [List.length_map]
  have h2 := congrArg ShapeLoopState.m_drawingShapes h
  exact h2

theorem laterOffsets_fresh (params : FunctorDocParams) (staff : Staff) (shapes : List Nat)
    (rest : List Note) :
    ∀ (k : Nat) (previousPitch edge : Int),
      laterOffsets params staff shapes (rest.map Note.fresh) k previousPitch edge
        = laterOffsets params staff shapes rest k previousPitch edge := by
  induction rest with
  | nil => intro k p e; rfl
  | cons note rest ih =>
    intro k p e
    rw [List.map_cons, laterOffsets, laterOffsets, ih]
    rfl

theorem codeOffsets_fresh (params : FunctorDocParams) (staff : Staff) (shapes : List Nat)
    (notes : List Note) :
    codeOffsets params staff shapes (notes.map Note.fresh)
      = codeOffsets params staff shapes notes := by
  cases notes with
  | nil => rfl
  | cons note rest =>
    simp only [List.map_cons, codeOffsets, offsetsFrom, laterOffsets_fresh]
    rfl

theorem placeNotes_fresh (notes : List Note) :
    ∀ offsets : List Int, placeNotes (notes.map Note.fresh) offsets = placeNotes notes offsets := by
  induction notes with
  | nil => intro offsets; rfl
  | cons note rest ih =>
    intro offsets
    cases offsets with
    | nil => rfl
    | cons x xs =>
      have := ih xs
      unfold placeNotes at this ⊢
      rw [List.map_cons, List.zipWith_cons_cons, List.zipWith_cons_cons, this]
      rfl

theorem fresh_placeNotes (notes : List Note) :
    ∀ offsets : List Int, offsets.length = notes.length →
      (placeNotes notes offsets).map Note.fresh = notes.map Note.fresh := by
  induction notes with
  | nil => intro offsets _; rfl
  | cons note rest ih =>
    intro offsets hlen
    cases offsets with
    | nil => simp at hlen
    | cons x xs =>
      have := ih xs (by simpa using hlen)
      unfold placeNotes at this ⊢
      rw [List.zipWith_cons_cons, List.map_cons, List.map_cons, this]
      rfl

/-- With the bracket option off and at least two notes, the result of `CalcLigatureNotePos`
is the one on the ligature without its layout state. -/
theorem calcLigatureNotePos_fresh (params : FunctorDocParams) (staff : Staff) (this : Ligature)
    (hbracket : params.m_doc.m_ligatureAsBracket = false) (hn : 2 ≤ this.notes.length) :
    Ligature.CalcLigatureNotePos params staff this
      = Ligature.CalcLigatureNotePos params staff this.fresh := by
  have hn' : 2 ≤ this.fresh.notes.length := by
    simp only [Ligature.fresh, List.length_map]; exact hn
  rw [calcLigatureNotePos_eq params staff this hbracket hn,
    calcLigatureNotePos_eq params staff this.fresh hbracket hn']
  simp only [Ligature.fresh, ligatureShapes_fresh, codeOffsets_fresh, placeNotes_fresh]

theorem ligatureForceObliqueTotal_false (n1 : Nat) (shapes : List Nat) :
    ligatureForceObliqueTotal false n1 shapes = shapes := by
  simp [ligatureForceObliqueTotal]

/-- The stacking statement on the first pair of a run of two notes. -/
theorem ligatureStackTotal_two (black : Bool) (dur2 d : Int) (x y : Nat) :
    ligatureStackTotal true black (if dur2 = DUR_MX then DUR_LG else dur2) d (decide (d > 0))
        false 0 1 [x, y]
      = [x, if black = true ∧ isLongaOrMaxima dur2 ∧ 1 < d then LIGATURE_STACKED else y] := by
  unfold ligatureStackTotal stackThresholdOf
  have hd := mapped_dur_eq_longa dur2
  by_cases hc : black = true ∧ isLongaOrMaxima dur2 ∧ 1 < d
  · obtain ⟨h1, h2, h3⟩ := hc
    have h4 : d > 0 := by omega
    simp [h1, h2, h3, h4, hd.2 h2, setShape]
  · rw [if_neg hc]
    by_cases h1 : black = true
    · by_cases h2 : isLongaOrMaxima dur2
      · have h3 : ¬ 1 < d := fun h => hc ⟨h1, h2, h⟩
        simp [h3]
      · have h2' : ¬ (if dur2 = DUR_MX then DUR_LG else dur2) = DUR_LG := fun h => h2 (hd.1 h)
        simp [h2']
    · simp [h1]

/-- The shapes of a run of two notes without `@lig="obliqua"`, in a ligature without
`@form="obliqua"`. -/
theorem pairShapes_two (black : Bool) (a b : Note)
    (ha : a.GetLig ≠ data_LIGATUREFORM.LIGATUREFORM_obliqua)
    (hb : b.GetLig ≠ data_LIGATUREFORM.LIGATUREFORM_obliqua) :
    pairShapes black true a b false false 0 1 [LIGATURE_DEFAULT, LIGATURE_DEFAULT]
      = [(twoNoteRule a.GetActualDur b.GetActualDur
            (decide (b.GetDiatonicPitch - a.GetDiatonicPitch > 0))).1,
         if black = true ∧ isLongaOrMaxima b.GetActualDur
              ∧ 1 < b.GetDiatonicPitch - a.GetDiatonicPitch then LIGATURE_STACKED
         else (twoNoteRule a.GetActualDur b.GetActualDur
            (decide (b.GetDiatonicPitch - a.GetDiatonicPitch > 0))).2] := by
  unfold pairShapes
  simp only [if_neg ha]
  rw [ligatureTableTotal_two _ _ _ _ hb, ligatureForceObliqueTotal_false,
    ligatureStackTotal_two]

theorem codeOffsets_two (params : FunctorDocParams) (staff : Staff) (s0 s1 : Nat)
    (a b : Note) :
    codeOffsets params staff [s0, s1] [a, b]
      = [0 - stackBack s1 (noteWidth params staff a),
         0 - stackBack s1 (noteWidth params staff a) + noteWidth params staff a
           - stackBack s1 (noteWidth params staff b)
           + obliqueShift s0 (b.GetDiatonicPitch - a.GetDiatonicPitch)
               (noteWidth params staff b)] := by
  simp [codeOffsets, offsetsFrom, laterOffsets]

/-- The result of `CalcLigatureNotePos` on a run of two notes without `@lig="obliqua"`, in
a ligature without `@form="obliqua"`. -/
theorem calcLigatureNotePos_two (params : FunctorDocParams) (staff : Staff)
    (form : data_LIGATUREFORM) (a b : Note) (shapes0 : List Nat)
    (hbracket : params.m_doc.m_ligatureAsBracket = false)
    (hform : form ≠ data_LIGATUREFORM.LIGATUREFORM_obliqua)
    (ha : a.GetLig ≠ data_LIGATUREFORM.LIGATUREFORM_obliqua)
    (hb : b.GetLig ≠ data_LIGATUREFORM.LIGATUREFORM_obliqua)
    (s0 s1 : Nat)
    (hs0 : s0 = (twoNoteRule a.GetActualDur b.GetActualDur
            (decide (b.GetDiatonicPitch - a.GetDiatonicPitch > 0))).1)
    (hs1 : s1 = if staff.m_drawingNotationType = data_NOTATIONTYPE.NOTATIONTYPE_mensural_black
              ∧ isLongaOrMaxima b.GetActualDur
              ∧ 1 < b.GetDiatonicPitch - a.GetDiatonicPitch then LIGATURE_STACKED
         else (twoNoteRule a.GetActualDur b.GetActualDur
            (decide (b.GetDiatonicPitch - a.GetDiatonicPitch > 0))).2) :
    Ligature.CalcLigatureNotePos params staff ⟨form, [a, b], shapes0⟩
      = some (FunctorCode.FUNCTOR_SIBLINGS,
          ⟨form,
           [a.SetDrawingXRel (0 - stackBack s1 (noteWidth params staff a)),
            b.SetDrawingXRel (0 - stackBack s1 (noteWidth params staff a)
              + noteWidth params staff a - stackBack s1 (noteWidth params staff b)
              + obliqueShift s0 (b.GetDiatonicPitch - a.GetDiatonicPitch)
                  (noteWidth params staff b))],
           [s0, s1]⟩) := by
  have hsh : ligatureShapes staff form [a, b] = [s0, s1] := by
    rw [ligatureShapes_two, decide_eq_false hform, pairShapes_two _ _ _ ha hb, hs0, hs1]
    simp only [decide_eq_true_eq]
  rw [calcLigatureNotePos_eq params staff _ hbracket (by simp)]
  simp only [hsh, codeOffsets_two]
  rfl

theorem getElem?_ligatureStackTotal (isLastNote isMensuralBlack : Bool) (dur2 diatonicStep : Int)
    (up previousUp : Bool) (n1 n2 : Nat) (shapes : List Nat) (i : Nat) (hi : n2 ≠ i) :
    (ligatureStackTotal isLastNote isMensuralBlack dur2 diatonicStep up previousUp n1 n2
      shapes)[i]? = shapes[i]? := by
  unfold ligatureStackTotal
  split_ifs
  · rw [getElem?_setShape, if_neg hi]
  · rfl
  · rfl

/-- The oblique statement with `oblique` set: the shape at `n1` carries the oblique flag
and the one before it does not. -/
theorem ligatureForceObliqueTotal_true (n1 : Nat) (shapes : List Nat)
    (hn1 : n1 < shapes.length) :
    hasFlag ((ligatureForceObliqueTotal true n1 shapes)[n1]?.getD 0) LIGATURE_OBLIQUE ∧
    (0 < n1 →
      ¬ hasFlag ((ligatureForceObliqueTotal true n1 shapes)[n1 - 1]?.getD 0)
        LIGATURE_OBLIQUE) := by
  unfold ligatureForceObliqueTotal
  simp only [if_true]
  by_cases h : n1 > 0
  · rw [if_pos h]
    have hne : ¬ n1 - 1 = n1 := by omega
    have hlt : n1 - 1 < shapes.length := by omega
    constructor
    · rw [getElem?_setShape, if_neg hne, getElem?_setShape, if_pos rfl,
        List.getElem?_eq_getElem hn1]
      exact hasFlag_or_oblique _
    · intro _
      rw [getElem?_setShape, if_pos rfl, getElem?_setShape, if_neg (Ne.symm hne),
        List.getElem?_eq_getElem hlt]
      exact not_hasFlag_andNot_oblique _
  · rw [if_neg h]
    constructor
    · rw [getElem?_setShape, if_pos rfl, List.getElem?_eq_getElem hn1]
      exact hasFlag_or_oblique _
    · intro h'; exact absurd h' h

/-- The threshold of the stacking statement is exceeded exactly when the threshold of the
specification exists and is exceeded, for an interval that is an `int`. -/
theorem stackThresholdOf_lt_iff (pre : List Note) (p : Note) (previousUp : Bool)
    (shapes : List Nat) (d : Int) (hint : d ≤ 2147483647)
    (hup : ∀ ys q, pre = ys ++ [q] →
      previousUp = decide (p.GetDiatonicPitch - q.GetDiatonicPitch > 0)) :
    stackThresholdOf previousUp pre.length shapes < d
      ↔ ∃ t, specStackThreshold pre p shapes = some t ∧ t < d := by
  unfold stackThresholdOf specStackThreshold
  cases hq : pre.getLast? with
  | none =>
    have hpre : pre = [] := List.getLast?_eq_none_iff.1 hq
    subst hpre
    simp
  | some q =>
    obtain ⟨ys, hys⟩ : ∃ ys, pre = ys ++ [q] := by
      have hne : pre ≠ [] := by
        intro h; rw [h] at hq; simp at hq
      refine ⟨pre.dropLast, ?_⟩
      have h1 := List.dropLast_append_getLast? q (by simpa using hq)
      exact h1.symm
    have hpu := hup ys q hys
    have hlen : pre.length > 0 := by rw [hys]; simp
    simp only
    by_cases hgo : p.GetDiatonicPitch - q.GetDiatonicPitch > 0
    · rw [decide_eq_true hgo] at hpu
      simp [hpu, hgo]
    · rw [decide_eq_false hgo] at hpu
      rw [if_pos ⟨hlen, by rw [hpu]; rfl⟩, if_neg hgo]
      by_cases hobl : hasFlag (shapes[pre.length - 1]?.getD 0) LIGATURE_OBLIQUE
      · rw [if_pos hobl, if_pos (show _ ≠ 0 from hobl)]
        simp
      · rw [if_neg hobl, if_neg (show ¬ _ ≠ 0 from hobl)]
        have hv : - VRV_UNSET = 2147483647 := by decide
        rw [hv]
        constructor
        · intro h; omega
        · rintro ⟨t, ht, _⟩; simp at ht

theorem codeOffsets_eq_specOffsets (params : FunctorDocParams) (staff : Staff)
    (shapes : List Nat) (notes : List Note)
    (h : ¬ hasFlag (shapes[1]?.getD 0) LIGATURE_STACKED) :
    codeOffsets params staff shapes notes = specOffsets params staff shapes notes := by
  cases notes with
  | nil => rfl
  | cons note rest =>
    unfold codeOffsets specOffsets stackBack
    simp only [if_neg h, sub_zero]

theorem head?_placeNotes_codeOffsets (params : FunctorDocParams) (staff : Staff)
    (shapes : List Nat) (a : Note) (rest : List Note) :
    (placeNotes (a :: rest) (codeOffsets params staff shapes (a :: rest))).head?
      = some (a.SetDrawingXRel
          (0 - stackBack (shapes[1]?.getD 0) (noteWidth params staff a))) := by
  simp [placeNotes, codeOffsets, offsetsFrom]

theorem laterOffsets_pair (params : FunctorDocParams) (staff : Staff) (shapes : List Nat)
    (pre : List Note) (a b : Note) (post : List Note) :
    ∀ (k : Nat) (previousPitch edge : Int),
      ∃ xa xb : Int,
        (laterOffsets params staff shapes (pre ++ a :: b :: post) k previousPitch
          edge)[pre.length]? = some xa ∧
        (laterOffsets params staff shapes (pre ++ a :: b :: post) k previousPitch
          edge)[pre.length + 1]? = some xb ∧
        xb = xa + noteWidth params staff a
          - stackBack (shapes[k + pre.length + 1]?.getD 0) (noteWidth params staff b)
          + obliqueShift (shapes[k + pre.length]?.getD 0)
              (b.GetDiatonicPitch - a.GetDiatonicPitch) (noteWidth params staff b) := by
  induction pre with
  | nil =>
    intro k p e
    refine ⟨e - stackBack (shapes[k]?.getD 0) (noteWidth params staff a)
      + obliqueShift (shapes[k - 1]?.getD 0) (a.GetDiatonicPitch - p)
          (noteWidth params staff a), _, ?_, ?_, rfl⟩
    · simp only [List.nil_append, laterOffsets, List.length_nil, List.getElem?_cons_zero]
    · simp only [List.nil_append, laterOffsets, List.length_nil, Nat.zero_add,
        List.getElem?_cons_succ, List.getElem?_cons_zero, Nat.add_zero, Nat.add_sub_cancel]
  | cons c pre ih =>
    intro k p e
    obtain ⟨xa, xb, h1, h2, h3⟩ := ih (k + 1) c.GetDiatonicPitch
      (e - stackBack (shapes[k]?.getD 0) (noteWidth params staff c)
        + obliqueShift (shapes[k - 1]?.getD 0) (c.GetDiatonicPitch - p)
            (noteWidth params staff c) + noteWidth params staff c)
    refine ⟨xa, xb, ?_, ?_, ?_⟩
    · simpa only [List.cons_append, laterOffsets, List.length_cons,
        List.getElem?_cons_succ] using h1
    · simpa only [List.cons_append, laterOffsets, List.length_cons,
        List.getElem?_cons_succ] using h2
    · rw [h3]
      have e1 : k + 1 + pre.length + 1 = k + (c :: pre).length + 1 := by
        simp only [List.length_cons]; omega
      have e2 : k + 1 + pre.length = k + (c :: pre).length := by
        simp only [List.length_cons]; omega
      rw [e1, e2]

theorem codeOffsets_pair (params : FunctorDocParams) (staff : Staff) (shapes : List Nat)
    (pre : List Note) (a b : Note) (post : List Note) :
    ∃ xa xb : Int,
      (codeOffsets params staff shapes (pre ++ a :: b :: post))[pre.length]? = some xa ∧
      (codeOffsets params staff shapes (pre ++ a :: b :: post))[pre.length + 1]? = some xb ∧
      xb = xa + noteWidth params staff a
        - stackBack (shapes[pre.length + 1]?.getD 0) (noteWidth params staff b)
        + obliqueShift (shapes[pre.length]?.getD 0)
            (b.GetDiatonicPitch - a.GetDiatonicPitch) (noteWidth params staff b) := by
  cases pre with
  | nil =>
    refine ⟨0 - stackBack (shapes[1]?.getD 0) (noteWidth params staff a), _, ?_, ?_, rfl⟩
    · simp only [List.nil_append, codeOffsets, offsetsFrom, List.length_nil,
        List.getElem?_cons_zero]
    · simp only [List.nil_append, codeOffsets, offsetsFrom, laterOffsets, List.length_nil,
        Nat.zero_add, List.getElem?_cons_succ, List.getElem?_cons_zero, Nat.sub_self]
  | cons c pre =>
    obtain ⟨xa, xb, h1, h2, h3⟩ := laterOffsets_pair params staff shapes pre a b post 1
      c.GetDiatonicPitch
      (0 - stackBack (shapes[1]?.getD 0) (noteWidth params staff c) + noteWidth params staff c)
    refine ⟨xa, xb, ?_, ?_, ?_⟩
    · simpa only [List.cons_append, codeOffsets, offsetsFrom, List.length_cons,
        List.getElem?_cons_succ] using h1
    · simpa only [List.cons_append, codeOffsets, offsetsFrom, List.length_cons,
        List.getElem?_cons_succ] using h2
    · rw [h3]
      have e1 : 1 + pre.length + 1 = (c :: pre).length + 1 := by
        simp only [List.length_cons]; omega
      have e2 : 1 + pre.length = (c :: pre).length := by
        simp only [List.length_cons]; omega
      rw [e1, e2]

theorem getElem?_placeNotes (notes : List Note) (offsets : List Int) (i : Nat) (n : Note)
    (x : Int) (hn : notes[i]? = some n) (hx : offsets[i]? = some x) :
    (placeNotes notes offsets)[i]? = some (n.SetDrawingXRel x) := by
  unfold placeNotes
  rw [List.getElem?_zipWith_eq_some]
  exact ⟨n, x, hn, hx, rfl⟩

theorem shapeLoopFirst_length (isMensuralBlack : Bool) (notes : List Note) :
    ∀ st : ShapeLoopState,
      shapeLoopFirst isMensuralBlack notes.length notes st = shapeLoop isMensuralBlack notes st := by
  induction notes with
  | nil => intro st; rfl
  | cons note rest ih =>
    intro st
    rw [List.length_cons, shapeLoopFirst, shapeLoop]
    cases shapeLoopBody isMensuralBlack rest.isEmpty note st with
    | none => rfl
    | some st' => exact ih st'

/-- The first `|pre| + j` iterations of the first loop on `pre ++ rest`, when `rest` is not
empty: no note of `pre` is the last one, and the loop goes on with `rest`. -/
theorem shapeLoopFirst_append (isMensuralBlack : Bool) (pre rest : List Note) (j : Nat)
    (hrest : rest ≠ []) :
    ∀ (st : ShapeLoopState) (k : Nat), ShapeLoopInv st k →
      shapeLoopFirst isMensuralBlack (pre.length + j) (pre ++ rest) st
        = shapeLoopFirst isMensuralBlack j rest
            (pre.foldl (fun st note => shapeLoopBodyTotal isMensuralBlack false note st) st) := by
  induction pre with
  | nil => intro st k _; simp
  | cons note pre ih =>
    intro st k hinv
    have hne : (pre ++ rest).isEmpty = false := by
      cases pre with
      | nil => cases rest with
        | nil => exact absurd rfl hrest
        | cons _ _ => rfl
      | cons _ _ => rfl
    obtain ⟨hb, hinv'⟩ := shapeLoopBody_eq isMensuralBlack false note st k hinv
    have hlen : (note :: pre).length + j = (pre.length + j) + 1 := by
      simp only [List.length_cons]; omega
    rw [hlen, List.cons_append, shapeLoopFirst, hne, hb]
    simp only [List.foldl_cons]
    exact ih _ _ hinv'

/-- The rule table, update by update: an update either adds no oblique flag, or it sets the
oblique shape at `n1` and removes the flag from the shape before it. -/
theorem ligatureTableTotal_ind2 (P : List Nat → Prop) (dur1 dur2 : Int)
    (up isMaxima isLastNote : Bool) (noteLig : data_LIGATUREFORM) (n1 n2 : Nat)
    (shapes : List Nat) (h0 : P shapes)
    (hplain : ∀ s i f, P s →
      (∀ x, hasFlag (f x) LIGATURE_OBLIQUE → hasFlag x LIGATURE_OBLIQUE) → P (setShape s i f))
    (hobl : ∀ s, P s →
      P (if n1 > 0 then
          setShape (setShape s n1 (fun _ => LIGATURE_OBLIQUE)) (n1 - 1)
            (fun s => andNot s LIGATURE_OBLIQUE)
        else setShape s n1 (fun _ => LIGATURE_OBLIQUE))) :
    P (ligatureTableTotal dur1 dur2 up isMaxima isLastNote noteLig n1 n2 shapes) := by
  have hsrd : ∀ x : Nat, hasFlag ((fun _ => LIGATURE_STEM_RIGHT_DOWN) x) LIGATURE_OBLIQUE →
      hasFlag x LIGATURE_OBLIQUE :=
    fun x h => absurd h (show ¬ hasFlag LIGATURE_STEM_RIGHT_DOWN LIGATURE_OBLIQUE by decide)
  have hsld : ∀ x : Nat, hasFlag ((fun _ => LIGATURE_STEM_LEFT_DOWN) x) LIGATURE_OBLIQUE →
      hasFlag x LIGATURE_OBLIQUE :=
    fun x h => absurd h (show ¬ hasFlag LIGATURE_STEM_LEFT_DOWN LIGATURE_OBLIQUE by decide)
  have hslu : ∀ x : Nat, hasFlag ((fun _ => LIGATURE_STEM_LEFT_UP) x) LIGATURE_OBLIQUE →
      hasFlag x LIGATURE_OBLIQUE :=
    fun x h => absurd h (show ¬ hasFlag LIGATURE_STEM_LEFT_UP LIGATURE_OBLIQUE by decide)
  have hadd : ∀ x : Nat, hasFlag ((fun s => s ||| LIGATURE_STEM_LEFT_DOWN) x) LIGATURE_OBLIQUE →
      hasFlag x LIGATURE_OBLIQUE := by
    intro x h
    rw [hasFlag_oblique] at h ⊢
    have e : LIGATURE_STEM_LEFT_DOWN.testBit 4 = false := by decide
    simpa [Nat.testBit_or, e] using h
  unfold ligatureTableTotal
  by_cases c1 : dur1 = DUR_LG ∧ dur2 = DUR_LG
  · rw [if_pos c1]
    split_ifs
    · exact hplain _ _ _ (hplain _ _ _ h0 hsrd) hsrd
    · exact h0
  rw [if_neg c1]
  by_cases c2 : dur1 = DUR_LG ∧ dur2 = DUR_BR
  · rw [if_pos c2]
    by_cases hu : up = true
    · rw [if_pos hu]; exact hplain _ _ _ h0 hsrd
    rw [if_neg hu]
    by_cases hc : (!isMaxima) = true ∧ (n1 = 0 ∨ isLastNote = true)
    · rw [if_pos hc]; exact hobl _ h0
    · rw [if_neg hc]; exact h0
  rw [if_neg c2]
  by_cases c3 : dur1 = DUR_BR ∧ dur2 = DUR_BR
  · rw [if_pos c3]
    by_cases hu : up = true
    · rw [if_pos hu]; exact h0
    rw [if_neg hu]
    by_cases hc : n1 = 0 ∨ isLastNote = true
    · rw [if_pos hc]
      have h := hobl _ h0
      by_cases hn : n1 > 0
      · rw [if_pos hn] at h ⊢; exact h
      · rw [if_neg hn] at h ⊢; exact hplain _ _ _ h hadd
    · rw [if_neg hc]; exact h0
  rw [if_neg c3]
  by_cases c4 : dur1 = DUR_BR ∧ dur2 = DUR_LG
  · rw [if_pos c4]
    split_ifs <;> first
      | exact h0
      | exact hplain _ _ _ h0 hsrd
      | exact hplain _ _ _ h0 hsld
      | exact hplain _ _ _ (hplain _ _ _ h0 hsrd) hsld
  rw [if_neg c4]
  by_cases c5 : dur1 = DUR_1 ∧ dur2 = DUR_1
  · rw [if_pos c5]
    exact hplain _ _ _ h0 hslu
  rw [if_neg c5]
  by_cases c6 : dur1 = DUR_1 ∧ dur2 = DUR_LG
  · rw [if_pos c6]
    split_ifs
    · exact hplain _ _ _ h0 hsrd
    · exact h0
  rw [if_neg c6]
  by_cases c7 : dur1 = DUR_1 ∧ dur2 = DUR_BR
  · rw [if_pos c7]
    by_cases hu : up = true
    · rw [if_pos hu]; exact h0
    rw [if_neg hu]
    by_cases hc : noteLig ≠ data_LIGATUREFORM.LIGATUREFORM_obliqua
    · rw [if_pos hc]; exact hobl _ h0
    · rw [if_neg hc]; exact h0
  rw [if_neg c7]
  exact h0

theorem getD_setShape_mono (s : List Nat) (i j : Nat) (f : Nat → Nat)
    (hf : ∀ x, hasFlag (f x) LIGATURE_OBLIQUE → hasFlag x LIGATURE_OBLIQUE)
    (h : hasFlag ((setShape s i f)[j]?.getD 0) LIGATURE_OBLIQUE) :
    hasFlag (s[j]?.getD 0) LIGATURE_OBLIQUE := by
  rw [getElem?_setShape] at h
  split_ifs at h with hij
  · cases hs : s[j]? with
    | none => rw [hs] at h; exact absurd h (show ¬ hasFlag 0 LIGATURE_OBLIQUE by decide)
    | some x => rw [hs] at h; exact hf x h
  · exact h

theorem obliqueStepInv_plain (n1 : Nat) (s : List Nat) (i : Nat) (f : Nat → Nat)
    (h : ObliqueStepInv n1 s)
    (hf : ∀ x, hasFlag (f x) LIGATURE_OBLIQUE → hasFlag x LIGATURE_OBLIQUE) :
    ObliqueStepInv n1 (setShape s i f) := by
  obtain ⟨h1, h2, h3⟩ := h
  refine ⟨?_, ?_, ?_⟩
  · intro j hj hc
    exact h1 j hj ⟨getD_setShape_mono s i j f hf hc.1, getD_setShape_mono s i (j + 1) f hf hc.2⟩
  · intro hn ho hp
    exact h2 hn (getD_setShape_mono s i n1 f hf ho) (getD_setShape_mono s i (n1 - 1) f hf hp)
  · intro hc
    exact h3 (getD_setShape_mono s i (n1 + 1) f hf hc)

theorem andNot_oblique_mono (x : Nat)
    (h : hasFlag ((fun s => andNot s LIGATURE_OBLIQUE) x) LIGATURE_OBLIQUE) :
    hasFlag x LIGATURE_OBLIQUE :=
  absurd h (not_hasFlag_andNot_oblique x)

theorem obliqueStepInv_oblique (n1 : Nat) (s : List Nat) (f : Nat → Nat)
    (h : ObliqueStepInv n1 s) :
    ObliqueStepInv n1
      (if n1 > 0 then
        setShape (setShape s n1 f) (n1 - 1) (fun s => andNot s LIGATURE_OBLIQUE)
      else setShape s n1 f) := by
  obtain ⟨h1, h2, h3⟩ := h
  by_cases hn : n1 > 0
  · rw [if_pos hn]
    have hkeep : ∀ j, j ≠ n1 →
        hasFlag ((setShape (setShape s n1 f) (n1 - 1)
          (fun s => andNot s LIGATURE_OBLIQUE))[j]?.getD 0) LIGATURE_OBLIQUE →
        hasFlag (s[j]?.getD 0) LIGATURE_OBLIQUE := by
      intro j hj hc
      have := getD_setShape_mono _ _ _ _ andNot_oblique_mono hc
      rw [getElem?_setShape, if_neg (Ne.symm hj)] at this
      exact this
    refine ⟨?_, ?_, ?_⟩
    · intro j hj hc
      exact h1 j hj ⟨hkeep j (by omega) hc.1, hkeep (j + 1) (by omega) hc.2⟩
    · intro _ _ hp
      rw [getElem?_setShape, if_pos rfl] at hp
      cases hs : (setShape s n1 f)[n1 - 1]? with
      | none => rw [hs] at hp; exact absurd hp (show ¬ hasFlag 0 LIGATURE_OBLIQUE by decide)
      | some x => rw [hs] at hp; exact not_hasFlag_andNot_oblique x hp
    · intro hc
      exact h3 (hkeep (n1 + 1) (by omega) hc)
  · rw [if_neg hn]
    refine ⟨?_, ?_, ?_⟩
    · intro j hj; omega
    · intro h0; exact absurd h0 hn
    · intro hc
      rw [getElem?_setShape, if_neg (by omega : ¬ n1 = n1 + 1)] at hc
      exact h3 hc

theorem pairShapes_obliqueStepInv (isMensuralBlack isLastNote : Bool)
    (previousNote note : Note) (oblique previousUp : Bool) (n1 n2 : Nat) (shapes : List Nat)
    (h : ObliqueStepInv n1 shapes) :
    ObliqueStepInv n1
      (pairShapes isMensuralBlack isLastNote previousNote note oblique previousUp n1 n2
        shapes) := by
  unfold pairShapes
  simp only
  have hstack : ∀ (a b : Bool) (d2 ds : Int) (u pu : Bool) (s : List Nat),
      ObliqueStepInv n1 s →
      ObliqueStepInv n1 (ligatureStackTotal a b d2 ds u pu n1 n2 s) := by
    intro a b d2 ds u pu s hs
    unfold ligatureStackTotal
    split_ifs
    · exact obliqueStepInv_plain n1 s n2 _ hs
        (fun x hx => absurd hx (show ¬ hasFlag LIGATURE_STACKED LIGATURE_OBLIQUE by decide))
    · exact hs
    · exact hs
  have hforce : ∀ (o : Bool) (s : List Nat), ObliqueStepInv n1 s →
      ObliqueStepInv n1 (ligatureForceObliqueTotal o n1 s) := by
    intro o s hs
    unfold ligatureForceObliqueTotal
    by_cases ho : o = true
    · rw [if_pos ho]; exact obliqueStepInv_oblique n1 s _ hs
    · rw [if_neg ho]; exact hs
  apply hstack
  apply hforce
  exact ligatureTableTotal_ind2 (ObliqueStepInv n1) _ _ _ _ _ _ _ _ _ h
    (fun s i f hs hf => obliqueStepInv_plain n1 s i f hs hf)
    (fun s hs => obliqueStepInv_oblique n1 s _ hs)

theorem obliqueInv_push (s : List Nat) (n1 : Nat) (h : ObliqueInv s)
    (hlen : s.length = n1 + 1) :
    ObliqueStepInv n1 (s ++ [LIGATURE_DEFAULT]) := by
  obtain ⟨h1, h2⟩ := h
  have hlast : s.getLast? = s[n1]? := by
    rw [List.getLast?_eq_getElem?, hlen, Nat.add_sub_cancel]
  have hget : ∀ j, j ≤ n1 → (s ++ [LIGATURE_DEFAULT])[j]? = s[j]? := by
    intro j hj
    rw [List.getElem?_append_left (by omega)]
  refine ⟨?_, ?_, ?_⟩
  · intro j hj
    rw [hget j (by omega), hget (j + 1) (by omega)]
    exact h1 j
  · intro _ ho
    rw [hget n1 (le_refl _), ← hlast] at ho
    exact absurd ho h2
  · rw [List.getElem?_append_right (by omega), hlen]
    simp only [Nat.sub_self, List.getElem?_cons_zero, Option.getD_some]
    decide

theorem obliqueStepInv_done (s : List Nat) (n1 : Nat) (h : ObliqueStepInv n1 s)
    (hlen : s.length = n1 + 2) :
    ObliqueInv s := by
  obtain ⟨h1, h2, h3⟩ := h
  have hlast : s.getLast? = s[n1 + 1]? := by
    rw [List.getLast?_eq_getElem?, hlen]
    rfl
  refine ⟨?_, ?_⟩
  · intro j hc
    by_cases c1 : j + 1 < n1
    · exact h1 j c1 hc
    by_cases c2 : j + 1 = n1
    · have hj : j = n1 - 1 := by omega
      rw [c2] at hc
      rw [hj] at hc
      exact h2 (by omega) hc.2 hc.1
    by_cases c3 : j + 1 = n1 + 1
    · rw [c3] at hc
      exact h3 hc.2
    · have hout : s[j + 1]? = none := List.getElem?_eq_none (by omega)
      rw [hout] at hc
      exact absurd hc.2 (show ¬ hasFlag 0 LIGATURE_OBLIQUE by decide)
  · rw [hlast]
    exact h3

theorem shapeLoopBodyTotal_obliqueInv (isMensuralBlack isLastNote : Bool) (note : Note)
    (st : ShapeLoopState) (k : Nat) (hinv : ShapeLoopInv st k)
    (h : ObliqueInv st.m_drawingShapes) :
    ObliqueInv (shapeLoopBodyTotal isMensuralBlack isLastNote note st).m_drawingShapes := by
  obtain ⟨hlen, hcase⟩ := hinv
  unfold shapeLoopBodyTotal
  rcases hcase with ⟨hk, hprev, -, -⟩ | ⟨hk, hprev, hn1, hn2⟩
  · simp only [hprev]
    have hnil : st.m_drawingShapes = [] := List.length_eq_zero.1 (by omega)
    rw [hnil]
    refine ⟨?_, by decide⟩
    intro j hc
    have h1 := hc.2
    simp only [List.nil_append, List.getElem?_cons_succ, List.getElem?_nil,
      Option.getD_none] at h1
    exact absurd h1 (show ¬ hasFlag 0 LIGATURE_OBLIQUE by decide)
  · cases hp : st.previousNote with
    | none => exact absurd hp hprev
    | some previousNote =>
      simp only
      apply obliqueStepInv_done _ st.n1
      · exact pairShapes_obliqueStepInv _ _ _ _ _ _ _ _ _
          (obliqueInv_push _ _ h (by omega))
      · rw [length_pairShapes, List.length_append, List.length_singleton]
        omega

theorem shapeLoopTotal_obliqueInv (isMensuralBlack : Bool) (notes : List Note) :
    ∀ (st : ShapeLoopState) (k : Nat), ShapeLoopInv st k → ObliqueInv st.m_drawingShapes →
      ObliqueInv (shapeLoopTotal isMensuralBlack notes st).m_drawingShapes := by
  induction notes with
  | nil => intro st k _ h; exact h
  | cons note rest ih =>
    intro st k hinv h
    rw [shapeLoopTotal]
    exact ih _ (k + 1) (shapeLoopBody_eq isMensuralBlack rest.isEmpty note st k hinv).2
      (shapeLoopBodyTotal_obliqueInv isMensuralBlack rest.isEmpty note st k hinv h)

theorem foldl_obliqueInv (isMensuralBlack : Bool) (pre : List Note) :
    ∀ (st : ShapeLoopState) (k : Nat), ShapeLoopInv st k → ObliqueInv st.m_drawingShapes →
      ObliqueInv (pre.foldl
        (fun st note => shapeLoopBodyTotal isMensuralBlack false note st) st).m_drawingShapes := by
  induction pre with
  | nil => intro st k _ h; exact h
  | cons note rest ih =>
    intro st k hinv h
    rw [List.foldl_cons]
    exact ih _ (k + 1) (shapeLoopBody_eq isMensuralBlack false note st k hinv).2
      (shapeLoopBodyTotal_obliqueInv isMensuralBlack false note st k hinv h)

theorem obliqueInv_nil : ObliqueInv [] := by
  refine ⟨?_, by decide⟩
  intro j hc
  have h1 := hc.1
  simp only [List.getElem?_nil, Option.getD_none] at h1
  exact absurd h1 (show ¬ hasFlag 0 LIGATURE_OBLIQUE by decide)

theorem ligatureShapes_obliqueInv (staff : Staff) (form : data_LIGATUREFORM)
    (notes : List Note) :
    ObliqueInv (ligatureShapes staff form notes) := by
  unfold ligatureShapes
  exact shapeLoopTotal_obliqueInv _ notes _ 0 ⟨rfl, Or.inl ⟨rfl, rfl, rfl, rfl⟩⟩ obliqueInv_nil

/-- Without stacked shapes and without oblique shifts, a later note starts at the running
right edge: its x-offset is the edge plus the widths of the notes between. -/
theorem laterOffsets_plain (params : FunctorDocParams) (staff : Staff) (shapes : List Nat)
    (notes : List Note)
    (hst : ∀ x ∈ shapes, ¬ hasFlag x LIGATURE_STACKED)
    (hpair : ∀ pre a b post, notes = pre ++ a :: b :: post →
      ¬ (hasFlag (shapes[pre.length]?.getD 0) LIGATURE_OBLIQUE
        ∧ ((b.GetDiatonicPitch - a.GetDiatonicPitch).natAbs : Int) > 2))
    (rest : List Note) :
    ∀ (pre : List Note) (a : Note) (e : Int) (i : Nat), notes = pre ++ a :: rest →
      i < rest.length →
      (laterOffsets params staff shapes rest (pre.length + 1) a.GetDiatonicPitch e)[i]?
        = some (e + ((rest.take i).map (noteWidth params staff)).sum) := by
  induction rest with
  | nil => intro pre a e i _ hi; simp at hi
  | cons c rest ih =>
    intro pre a e i hnotes hi
    have hsb : stackBack (shapes[pre.length + 1]?.getD 0) (noteWidth params staff c) = 0 := by
      unfold stackBack
      rw [if_neg (getD_not_stacked hst _)]
    have hos : obliqueShift (shapes[pre.length + 1 - 1]?.getD 0)
        (c.GetDiatonicPitch - a.GetDiatonicPitch) (noteWidth params staff c) = 0 := by
      unfold obliqueShift
      rw [Nat.add_sub_cancel, if_neg (hpair pre a c rest hnotes)]
    rw [laterOffsets]
    simp only [hsb, hos, sub_zero, add_zero]
    cases i with
    | zero => simp
    | succ i =>
      have hnotes' : notes = (pre ++ [a]) ++ c :: rest := by rw [hnotes]; simp
      have h := ih (pre ++ [a]) c (e + noteWidth params staff c) i hnotes'
        (by simpa using hi)
      rw [List.length_append, List.length_singleton] at h
      rw [List.getElem?_cons_succ, h]
      simp only [List.take_succ_cons, List.map_cons, List.sum_cons, add_assoc]

theorem codeOffsets_plain (params : FunctorDocParams) (staff : Staff) (shapes : List Nat)
    (notes : List Note)
    (hst : ∀ x ∈ shapes, ¬ hasFlag x LIGATURE_STACKED)
    (hpair : ∀ pre a b post, notes = pre ++ a :: b :: post →
      ¬ (hasFlag (shapes[pre.length]?.getD 0) LIGATURE_OBLIQUE
        ∧ ((b.GetDiatonicPitch - a.GetDiatonicPitch).natAbs : Int) > 2))
    (k : Nat) (hk : k < notes.length) :
    (codeOffsets params staff shapes notes)[k]? = some (widthsBefore params staff notes k) := by
  rw [codeOffsets_eq_specOffsets params staff shapes notes (getD_not_stacked hst 1)]
  cases notes with
  | nil => simp at hk
  | cons a rest =>
    unfold specOffsets offsetsFrom widthsBefore
    cases k with
    | zero => simp
    | succ i =>
      have h := laterOffsets_plain params staff shapes (a :: rest) hst hpair rest [] a
        (0 + noteWidth params staff a) i rfl (by simpa using hk)
      rw [List.getElem?_cons_succ]
      simp only [List.length_nil, Nat.zero_add] at h
      rw [h]
      simp only [List.take_succ_cons, List.map_cons, List.sum_cons, zero_add]

theorem widthsBefore_mono (params : FunctorDocParams) (staff : Staff) (notes : List Note)
    (hw : ∀ note ∈ notes, 0 ≤ noteWidth params staff note) :
    ∀ i j, i ≤ j →
      widthsBefore params staff notes i ≤ widthsBefore params staff notes j := by
  induction notes with
  | nil => intro i j _; simp [widthsBefore]
  | cons a rest ih =>
    intro i j hij
    cases i with
    | zero =>
      unfold widthsBefore
      simp only [List.take_zero, List.map_nil, List.sum_nil]
      apply List.sum_nonneg
      intro x hx
      obtain ⟨n, hn, rfl⟩ := List.mem_map.1 hx
      exact hw n (List.mem_of_mem_take hn)
    | succ i =>
      cases j with
      | zero => omega
      | succ j =>
        have h := ih (fun n hn => hw n (List.mem_cons_of_mem _ hn)) i j (by omega)
        unfold widthsBefore at h ⊢
        simp only [List.take_succ_cons, List.map_cons, List.sum_cons]
        omega

/-- The variables of the first loop before and after the step for the pair of the notes `a`
and `b` of a run. -/
theorem shapeStateAfter_pair (staff : Staff) (this : Ligature) (pre : List Note) (a b : Note)
    (post : List Note) (hnotes : this.notes = pre ++ a :: b :: post) :
    ∃ st : ShapeLoopState,
      ShapeRunInv (decide (this.notes.length = 2
        ∧ this.form = data_LIGATUREFORM.LIGATUREFORM_obliqua)) st (pre ++ [a]) ∧
      ObliqueInv st.m_drawingShapes ∧
      this.shapeStateAfter staff (pre.length + 1) = some st ∧
      this.shapeStateAfter staff (pre.length + 2)
        = some (shapeLoopBodyTotal
            (decide (staff.m_drawingNotationType
              = data_NOTATIONTYPE.NOTATIONTYPE_mensural_black))
            post.isEmpty b st) := by
  have hsplit : this.notes = (pre ++ [a]) ++ b :: post := by rw [hnotes]; simp
  have hinit : ShapeLoopInv
      { m_drawingShapes := [], previousNote := none, previousUp := false, n1 := 0, n2 := 1,
        oblique := decide (this.notes.length = 2
          ∧ this.form = data_LIGATUREFORM.LIGATUREFORM_obliqua) } 0 :=
    ⟨rfl, Or.inl ⟨rfl, rfl, rfl, rfl⟩⟩
  unfold Ligature.shapeStateAfter Ligature.GetList Ligature.GetForm
  generalize decide (this.notes.length = 2
    ∧ this.form = data_LIGATUREFORM.LIGATUREFORM_obliqua) = ob0 at hinit ⊢
  generalize decide (staff.m_drawingNotationType
    = data_NOTATIONTYPE.NOTATIONTYPE_mensural_black) = black
  have hrun := shapeRunInv_foldl black ob0 (pre ++ [a]) _ [] (shapeRunInv_init ob0)
  have hobl := foldl_obliqueInv black (pre ++ [a]) _ 0 hinit obliqueInv_nil
  have h1 := shapeLoopFirst_append black (pre ++ [a]) (b :: post) 0 (by simp) _ 0 hinit
  have h2 := shapeLoopFirst_append black (pre ++ [a]) (b :: post) 1 (by simp) _ 0 hinit
  rw [hsplit]
  generalize List.foldl (fun st note => shapeLoopBodyTotal black false note st)
    { m_drawingShapes := [], previousNote := none, previousUp := false, n1 := 0, n2 := 1,
      oblique := ob0 } (pre ++ [a]) = st at hrun hobl h1 h2
  rw [List.nil_append] at hrun
  have hl1 : pre.length + 1 = (pre ++ [a]).length + 0 := by simp
  have hl2 : pre.length + 2 = (pre ++ [a]).length + 1 := by simp
  refine ⟨st, hrun, hobl, ?_, ?_⟩
  · rw [hl1, h1]; rfl
  · rw [hl2, h2, shapeLoopFirst,
      (shapeLoopBody_eq black post.isEmpty b st _ hrun.1).1]
    rfl

theorem shapeRunInv_facts (oblique0 : Bool) (st : ShapeLoopState) (pre : List Note) (a : Note)
    (h : ShapeRunInv oblique0 st (pre ++ [a])) :
    st.previousNote = some a ∧ st.n1 = pre.length ∧ st.n2 = pre.length + 1 ∧
    st.m_drawingShapes.length = pre.length + 1 ∧
    (pre ≠ [] → st.oblique = false) ∧ (pre = [] → st.oblique = oblique0) := by
  obtain ⟨⟨hlen, hcase⟩, hprev, -, -, hob1, hob2⟩ := h
  simp only [List.length_append, List.length_singleton] at hlen hcase hob1 hob2
  have hlast : (pre ++ [a]).getLast? = some a := by simp
  rw [hlast] at hprev
  refine ⟨hprev, ?_, ?_, hlen, ?_, ?_⟩
  · rcases hcase with ⟨h0, -⟩ | ⟨-, -, hn1, -⟩ <;> omega
  · rcases hcase with ⟨h0, -⟩ | ⟨-, -, -, hn2⟩
    · omega
    · exact hn2
  · intro hne
    apply hob2
    have : 0 < pre.length := List.length_pos.2 hne
    omega
  · intro he
    apply hob1
    rw [he]; simp

theorem ligatureStackTotal_noop (isLastNote isMensuralBlack : Bool) (dur2 diatonicStep : Int)
    (up previousUp : Bool) (n1 n2 : Nat) (shapes : List Nat)
    (h : dur2 ≠ DUR_LG ∨ up = false ∨ isLastNote = false) :
    ligatureStackTotal isLastNote isMensuralBlack dur2 diatonicStep up previousUp n1 n2 shapes
      = shapes := by
  unfold ligatureStackTotal
  rw [if_neg]
  rintro ⟨h1, -, h3, h4⟩
  rcases h with h | h | h
  · exact h h3
  · rw [h] at h4; exact absurd h4 (by simp)
  · rw [h] at h1; exact absurd h1 (by simp)

/-- The rule table on a pair that does not go up and ends on a brevis, when the first note
is a maxima, or the pair is neither at the beginning nor at the end of the run: nothing
changes. -/
theorem ligatureTableTotal_brevis_noop (dur1 : Int) (isLastNote : Bool)
    (noteLig : data_LIGATUREFORM) (n1 n2 : Nat) (shapes : List Nat)
    (hdur1 : isLongaOrMaxima dur1 ∨ dur1 = DUR_BR)
    (hmid : dur1 = DUR_MX ∨ (0 < n1 ∧ isLastNote = false)) :
    ligatureTableTotal (if dur1 = DUR_MX then DUR_LG else dur1) DUR_BR false
        (decide (dur1 = DUR_MX)) isLastNote noteLig n1 n2 shapes
      = shapes := by
  obtain ⟨d1, d2, d3, d4, d5, d6⟩ := dur_distinct
  unfold isLongaOrMaxima at hdur1
  rcases hdur1 with (h | h) | h
  · rcases hmid with hm | ⟨hn, hl⟩
    · exact absurd (h.symm.trans hm) d1.symm
    · have hn' : n1 ≠ 0 := by omega
      simp [ligatureTableTotal, h, hl, hn', d1, d2, d3, d4, d5, d6,
        d1.symm, d2.symm, d3.symm, d4.symm, d5.symm, d6.symm]
  · simp [ligatureTableTotal, h, d1, d2, d3, d4, d5, d6,
      d1.symm, d2.symm, d3.symm, d4.symm, d5.symm, d6.symm]
  · rcases hmid with hm | ⟨hn, hl⟩
    · exact absurd (h.symm.trans hm) d2.symm
    · have hn' : n1 ≠ 0 := by omega
      simp [ligatureTableTotal, h, hl, hn', d1, d2, d3, d4, d5, d6,
        d1.symm, d2.symm, d3.symm, d4.symm, d5.symm, d6.symm]

/-- The rule table on a pair that does not go up, from a longa or a brevis to a brevis, at
the beginning or at the end of the run: the oblique shape at `n1`. -/
theorem ligatureTableTotal_brevis_oblique (dur1 : Int) (isLastNote : Bool)
    (noteLig : data_LIGATUREFORM) (n1 n2 : Nat) (shapes : List Nat)
    (hdur1 : dur1 = DUR_LG ∨ dur1 = DUR_BR)
    (hend : n1 = 0 ∨ isLastNote = true) :
    ligatureTableTotal (if dur1 = DUR_MX then DUR_LG else dur1) DUR_BR false
        (decide (dur1 = DUR_MX)) isLastNote noteLig n1 n2 shapes
      = if n1 > 0 then
          setShape (setShape shapes n1 (fun _ => LIGATURE_OBLIQUE)) (n1 - 1)
            (fun s => andNot s LIGATURE_OBLIQUE)
        else if dur1 = DUR_BR then
          setShape (setShape shapes n1 (fun _ => LIGATURE_OBLIQUE)) n1
            (fun s => s ||| LIGATURE_STEM_LEFT_DOWN)
        else setShape shapes n1 (fun _ => LIGATURE_OBLIQUE) := by
  obtain ⟨d1, d2, d3, d4, d5, d6⟩ := dur_distinct
  rcases hdur1 with h | h
  · simp [ligatureTableTotal, h, hend, d1, d2, d3, d4, d5, d6,
      d1.symm, d2.symm, d3.symm, d4.symm, d5.symm, d6.symm]
  · simp [ligatureTableTotal, h, hend, d1, d2, d3, d4, d5, d6,
      d1.symm, d2.symm, d3.symm, d4.symm, d5.symm, d6.symm]

/-- The shapes of a pair that does not go up and ends on a brevis: the stacking statement
does nothing. -/
theorem pairShapes_brevis_down (isMensuralBlack isLastNote : Bool) (a b : Note)
    (oblique previousUp : Bool) (n1 n2 : Nat) (shapes : List Nat)
    (hdur2 : b.GetActualDur = DUR_BR)
    (hdown : b.GetDiatonicPitch ≤ a.GetDiatonicPitch) :
    pairShapes isMensuralBlack isLastNote a b oblique previousUp n1 n2 shapes
      = ligatureForceObliqueTotal
          (if a.GetLig = data_LIGATUREFORM.LIGATUREFORM_obliqua then true else oblique) n1
          (ligatureTableTotal (if a.GetActualDur = DUR_MX then DUR_LG else a.GetActualDur)
            DUR_BR false (decide (a.GetActualDur = DUR_MX)) isLastNote b.GetLig n1 n2
            shapes) := by
  have hup : decide (b.GetDiatonicPitch - a.GetDiatonicPitch > 0) = false :=
    decide_eq_false (by omega)
  have hd2 : (if b.GetActualDur = DUR_MX then DUR_LG else b.GetActualDur) = DUR_BR := by
    rw [hdur2, if_neg (by decide)]
  unfold pairShapes
  simp only [hup, hd2]
  exact ligatureStackTotal_noop _ _ _ _ _ _ _ _ _ (Or.inr (Or.inl rfl))

theorem shapeLoopBodyTotal_shapes (isMensuralBlack isLastNote : Bool) (a b : Note)
    (st : ShapeLoopState) (hprev : st.previousNote = some a) :
    (shapeLoopBodyTotal isMensuralBlack isLastNote b st).m_drawingShapes
      = pairShapes isMensuralBlack isLastNote a b st.oblique st.previousUp st.n1 st.n2
          (st.m_drawingShapes ++ [LIGATURE_DEFAULT]) := by
  unfold shapeLoopBodyTotal
  simp only [hprev]

theorem maximaAsLonga_pitch (n : Note) :
    (maximaAsLonga n).GetDiatonicPitch = n.GetDiatonicPitch := by
  unfold maximaAsLonga
  split_ifs <;> rfl

theorem maximaAsLonga_lig (n : Note) : (maximaAsLonga n).GetLig = n.GetLig := by
  unfold maximaAsLonga
  split_ifs <;> rfl

theorem maximaAsLonga_not_maxima (n : Note) : ¬ (maximaAsLonga n).GetActualDur = DUR_MX := by
  unfold maximaAsLonga
  split_ifs with h
  · exact (by decide : ¬ DUR_LG = DUR_MX)
  · exact h

theorem maximaAsLonga_dur (n : Note) :
    (if (maximaAsLonga n).GetActualDur = DUR_MX then DUR_LG
      else (maximaAsLonga n).GetActualDur)
      = (if n.GetActualDur = DUR_MX then DUR_LG else n.GetActualDur) := by
  rw [if_neg (maximaAsLonga_not_maxima n)]
  unfold maximaAsLonga
  split_ifs with h
  · rfl
  · rfl

/-- The flag `isMaxima` of the rule table matters only for a pair from a longa to a brevis
that does not go up. -/
theorem ligatureTableTotal_isMaxima (dur1 dur2 : Int) (up isMaxima isLastNote : Bool)
    (noteLig : data_LIGATUREFORM) (n1 n2 : Nat) (shapes : List Nat)
    (h : isMaxima = false ∨ dur2 ≠ DUR_BR ∨ up = true) :
    ligatureTableTotal dur1 dur2 up isMaxima isLastNote noteLig n1 n2 shapes
      = ligatureTableTotal dur1 dur2 up false isLastNote noteLig n1 n2 shapes := by
  rcases h with h | h | h
  · rw [h]
  · unfold ligatureTableTotal
    by_cases c1 : dur1 = DUR_LG ∧ dur2 = DUR_LG
    · rw [if_pos c1, if_pos c1]
    rw [if_neg c1, if_neg c1]
    have c2 : ¬ (dur1 = DUR_LG ∧ dur2 = DUR_BR) := fun c => h c.2
    rw [if_neg c2, if_neg c2]
  · unfold ligatureTableTotal
    by_cases c1 : dur1 = DUR_LG ∧ dur2 = DUR_LG
    · rw [if_pos c1, if_pos c1]
    rw [if_neg c1, if_neg c1]
    by_cases c2 : dur1 = DUR_LG ∧ dur2 = DUR_BR
    · rw [if_pos c2, if_pos c2, if_pos h, if_pos h]
    rw [if_neg c2, if_neg c2]

theorem pairShapes_maximaAsLonga (isMensuralBlack isLastNote : Bool) (p note : Note)
    (oblique previousUp : Bool) (n1 n2 : Nat) (shapes : List Nat)
    (h : noMaximaBrevisDown p note) :
    pairShapes isMensuralBlack isLastNote (maximaAsLonga p) (maximaAsLonga note) oblique
        previousUp n1 n2 shapes
      = pairShapes isMensuralBlack isLastNote p note oblique previousUp n1 n2 shapes := by
  have hcond : decide (p.GetActualDur = DUR_MX) = false
      ∨ (if note.GetActualDur = DUR_MX then DUR_LG else note.GetActualDur) ≠ DUR_BR
      ∨ decide (note.GetDiatonicPitch - p.GetDiatonicPitch > 0) = true := by
    by_cases h1 : p.GetActualDur = DUR_MX
    · by_cases h2 : note.GetActualDur = DUR_BR
      · right; right
        have : ¬ note.GetDiatonicPitch ≤ p.GetDiatonicPitch := fun h3 => h ⟨h1, h2, h3⟩
        exact decide_eq_true (by omega)
      · right; left
        split_ifs
        · decide
        · exact h2
    · left; exact decide_eq_false h1
  unfold pairShapes
  simp only [maximaAsLonga_pitch, maximaAsLonga_lig, maximaAsLonga_dur,
    decide_eq_false (maximaAsLonga_not_maxima p)]
  rw [ligatureTableTotal_isMaxima _ _ _ (decide (p.GetActualDur = DUR_MX)) _ _ _ _ _ hcond]

theorem shapeLoopBodyTotal_maximaAsLonga (isMensuralBlack isLastNote : Bool) (note : Note)
    (st : ShapeLoopState)
    (h : ∀ p, st.previousNote = some p → noMaximaBrevisDown p note) :
    shapeLoopBodyTotal isMensuralBlack isLastNote (maximaAsLonga note) st.maximaAsLonga
      = (shapeLoopBodyTotal isMensuralBlack isLastNote note st).maximaAsLonga := by
  unfold shapeLoopBodyTotal ShapeLoopState.maximaAsLonga
  cases hp : st.previousNote with
  | none => rfl
  | some p =>
    simp only [Option.map_some', pairShapes_maximaAsLonga _ _ _ _ _ _ _ _ _ (h p hp),
      maximaAsLonga_pitch]

theorem shapeLoopTotal_maximaAsLonga (isMensuralBlack : Bool) (notes : List Note) :
    ∀ st : ShapeLoopState,
      List.Chain' noMaximaBrevisDown (st.previousNote.toList ++ notes) →
      shapeLoopTotal isMensuralBlack (notes.map maximaAsLonga) st.maximaAsLonga
        = (shapeLoopTotal isMensuralBlack notes st).maximaAsLonga := by
  induction notes with
  | nil => intro st _; rfl
  | cons note rest ih =>
    intro st hch
    have he : (List.map maximaAsLonga rest).isEmpty = rest.isEmpty := by cases rest <;> rfl
    have hpair : ∀ p, st.previousNote = some p → noMaximaBrevisDown p note := by
      intro p hp
      rw [hp] at hch
      simp only [Option.toList_some, List.singleton_append, List.chain'_cons] at hch
      exact hch.1
    have hrest : List.Chain' noMaximaBrevisDown
        ((shapeLoopBodyTotal isMensuralBlack rest.isEmpty note st).previousNote.toList
          ++ rest) := by
      have hprev : (shapeLoopBodyTotal isMensuralBlack rest.isEmpty note st).previousNote
          = some note := by
        unfold shapeLoopBodyTotal
        cases st.previousNote <;> rfl
      rw [hprev]
      cases hp : st.previousNote with
      | none => rw [hp] at hch; simpa using hch
      | some p =>
        rw [hp] at hch
        simp only [Option.toList_some, List.singleton_append] at hch ⊢
        exact (List.chain'_cons.1 hch).2
    rw [List.map_cons, shapeLoopTotal, shapeLoopTotal, he,
      shapeLoopBodyTotal_maximaAsLonga _ _ _ _ hpair, ih _ hrest]

theorem ligatureShapes_maximaAsLonga (staff : Staff) (form : data_LIGATUREFORM)
    (notes : List Note) (h : List.Chain' noMaximaBrevisDown notes) :
    ligatureShapes staff form (notes.map maximaAsLonga) = ligatureShapes staff form notes := by
  unfold ligatureShapes
  have h2 := shapeLoopTotal_maximaAsLonga
    (decide (staff.m_drawingNotationType = data_NOTATIONTYPE.NOTATIONTYPE_mensural_black))
    notes
    { m_drawingShapes := [], previousNote := none, previousUp := false, n1 := 0, n2 := 1,
      oblique := decide (notes.length = 2
        ∧ form = data_LIGATUREFORM.LIGATUREFORM_obliqua) } (by simpa using h)
  rw [List.length_map]
  have h3 := congrArg ShapeLoopState.m_drawingShapes h2
  exact h3

/-! ## Ligatures: claims -/

/-- C11, as the claim states it, fails: on the run brevis at C4, brevis at E4 without any
oblique attribute `CalcLigatureNotePos` gives both notes the default shape, so the shapes
are not oblique and default. -/
theorem C11_brevis_brevis_up_counterexample :
    Ligature.CalcLigatureNotePos sampleLigatureParams sampleWhiteStaff
        (sampleLigature sampleBrevisUp)
      = some (FunctorCode.FUNCTOR_SIBLINGS,
          ⟨data_LIGATUREFORM.LIGATUREFORM_NONE,
           [sampleNote DUR_BR 28 0, sampleNote DUR_BR 30 18],
           [LIGATURE_DEFAULT, LIGATURE_DEFAULT]⟩) ∧
    ¬ ∃ r, Ligature.CalcLigatureNotePos sampleLigatureParams sampleWhiteStaff
          (sampleLigature sampleBrevisUp) = some r
        ∧ r.2.m_drawingShapes = [LIGATURE_OBLIQUE, LIGATURE_DEFAULT] := by
  have e : Ligature.CalcLigatureNotePos sampleLigatureParams sampleWhiteStaff
        (sampleLigature sampleBrevisUp)
      = some (FunctorCode.FUNCTOR_SIBLINGS,
          ⟨data_LIGATUREFORM.LIGATUREFORM_NONE,
           [sampleNote DUR_BR 28 0, sampleNote DUR_BR 30 18],
           [LIGATURE_DEFAULT, LIGATURE_DEFAULT]⟩) := by decide
  refine ⟨e, ?_⟩
  rintro ⟨r, h, hs⟩
  rw [e] at h
  cases h
  exact absurd hs (by decide)

/-- C11 (amended): with the ligature-as-bracket option off, on a run of two breves that goes
up, without `@lig="obliqua"` on a note and without `@form="obliqua"` on the ligature,
`CalcLigatureNotePos` gives both notes the default shape, the first note the x-offset 0 and
the second note the width of the first one, whatever the staff and the state before the
call. -/
theorem C11_brevis_brevis_up (params : FunctorDocParams) (staff : Staff)
    (form : data_LIGATUREFORM) (a b : Note) (shapes0 : List Nat)
    (hbracket : params.m_doc.m_ligatureAsBracket = false)
    (hform : form ≠ data_LIGATUREFORM.LIGATUREFORM_obliqua)
    (ha : a.GetLig ≠ data_LIGATUREFORM.LIGATUREFORM_obliqua)
    (hb : b.GetLig ≠ data_LIGATUREFORM.LIGATUREFORM_obliqua)
    (hdur1 : a.GetActualDur = DUR_BR) (hdur2 : b.GetActualDur = DUR_BR)
    (hup : a.GetDiatonicPitch < b.GetDiatonicPitch) :
    Ligature.CalcLigatureNotePos params staff ⟨form, [a, b], shapes0⟩
      = some (FunctorCode.FUNCTOR_SIBLINGS,
          ⟨form, [a.SetDrawingXRel 0, b.SetDrawingXRel (noteWidth params staff a)],
           [LIGATURE_DEFAULT, LIGATURE_DEFAULT]⟩) := by
  have hup' : b.GetDiatonicPitch - a.GetDiatonicPitch > 0 := by omega
  have hnl : ¬ isLongaOrMaxima DUR_BR := by decide
  rw [calcLigatureNotePos_two params staff form a b shapes0 hbracket hform ha hb
    LIGATURE_DEFAULT LIGATURE_DEFAULT
    (by rw [hdur1, hdur2, decide_eq_true hup']; decide)
    (by rw [hdur1, hdur2, decide_eq_true hup', if_neg (fun h => hnl h.2.1)]; decide)]
  have h0 : ∀ w : Int, stackBack LIGATURE_DEFAULT w = 0 := fun w => by
    unfold stackBack; rw [if_neg (by decide)]
  have h1 : ∀ d w : Int, obliqueShift LIGATURE_DEFAULT d w = 0 := fun d w => by
    unfold obliqueShift; rw [if_neg (fun h => absurd h.1 (by decide))]
  simp only [h0, h1, sub_zero, zero_add, add_zero]

theorem C11_brevis_brevis_up_witness :
    Ligature.CalcLigatureNotePos sampleLigatureParams sampleWhiteStaff
        (sampleLigature sampleBrevisUp)
      = some (FunctorCode.FUNCTOR_SIBLINGS,
          ⟨data_LIGATUREFORM.LIGATUREFORM_NONE,
           [sampleNote DUR_BR 28 0, sampleNote DUR_BR 30 18],
           [LIGATURE_DEFAULT, LIGATURE_DEFAULT]⟩) :=
  C11_brevis_brevis_up sampleLigatureParams sampleWhiteStaff
    data_LIGATUREFORM.LIGATUREFORM_NONE (sampleNote DUR_BR 28 5) (sampleNote DUR_BR 30 (-3))
    [LIGATURE_OBLIQUE, LIGATURE_STACKED, 7] rfl (by decide) (by decide) (by decide) rfl rfl
    (by decide)

/-- C12, as the claim states it, fails: on a staff in black mensural notation the run longa
at C4, longa at G4 gets the shapes stem-right-down and stacked, not stem-right-down
twice. -/
theorem C12_longa_longa_up_counterexample :
    Ligature.CalcLigatureNotePos sampleLigatureParams sampleBlackStaff
        (sampleLigature sampleLongaUp)
      = some (FunctorCode.FUNCTOR_SIBLINGS,
          ⟨data_LIGATUREFORM.LIGATUREFORM_NONE,
           [sampleNote DUR_LG 28 (-18), sampleNote DUR_LG 32 (-18)],
           [LIGATURE_STEM_RIGHT_DOWN, LIGATURE_STACKED]⟩) ∧
    ¬ ∃ r, Ligature.CalcLigatureNotePos sampleLigatureParams sampleBlackStaff
          (sampleLigature sampleLongaUp) = some r
        ∧ r.2.m_drawingShapes = [LIGATURE_STEM_RIGHT_DOWN, LIGATURE_STEM_RIGHT_DOWN] := by
  have e : Ligature.CalcLigatureNotePos sampleLigatureParams sampleBlackStaff
        (sampleLigature sampleLongaUp)
      = some (FunctorCode.FUNCTOR_SIBLINGS,
          ⟨data_LIGATUREFORM.LIGATUREFORM_NONE,
           [sampleNote DUR_LG 28 (-18), sampleNote DUR_LG 32 (-18)],
           [LIGATURE_STEM_RIGHT_DOWN, LIGATURE_STACKED]⟩) := by decide
  refine ⟨e, ?_⟩
  rintro ⟨r, h, hs⟩
  rw [e] at h
  cases h
  exact absurd hs (by decide)

/-- C12 (amended): with the ligature-as-bracket option off, on a run of two longas that
goes up by more than a step (as from C4 to G4), without `@lig="obliqua"` on a note and
without `@form="obliqua"` on the ligature, `CalcLigatureNotePos` gives the first note the
shape stem-right-down; the second note gets stem-right-down on a staff that is not in black
mensural notation and the shape stacked on a staff that is; no note carries the oblique
flag. -/
theorem C12_longa_longa_up (params : FunctorDocParams) (staff : Staff)
    (form : data_LIGATUREFORM) (a b : Note) (shapes0 : List Nat)
    (hbracket : params.m_doc.m_ligatureAsBracket = false)
    (hform : form ≠ data_LIGATUREFORM.LIGATUREFORM_obliqua)
    (ha : a.GetLig ≠ data_LIGATUREFORM.LIGATUREFORM_obliqua)
    (hb : b.GetLig ≠ data_LIGATUREFORM.LIGATUREFORM_obliqua)
    (hdur1 : a.GetActualDur = DUR_LG) (hdur2 : b.GetActualDur = DUR_LG)
    (hup : a.GetDiatonicPitch + 1 < b.GetDiatonicPitch) :
    ∃ r, Ligature.CalcLigatureNotePos params staff ⟨form, [a, b], shapes0⟩
        = some (FunctorCode.FUNCTOR_SIBLINGS, r) ∧
      r.m_drawingShapes
        = [LIGATURE_STEM_RIGHT_DOWN,
           if staff.m_drawingNotationType = data_NOTATIONTYPE.NOTATIONTYPE_mensural_black
           then LIGATURE_STACKED else LIGATURE_STEM_RIGHT_DOWN] ∧
      ∀ x ∈ r.m_drawingShapes, ¬ hasFlag x LIGATURE_OBLIQUE := by
  have hup' : b.GetDiatonicPitch - a.GetDiatonicPitch > 0 := by omega
  have hup2 : 1 < b.GetDiatonicPitch - a.GetDiatonicPitch := by omega
  have hl : isLongaOrMaxima DUR_LG := by decide
  refine ⟨_, calcLigatureNotePos_two params staff form a b shapes0 hbracket hform ha hb
    LIGATURE_STEM_RIGHT_DOWN
    (if staff.m_drawingNotationType = data_NOTATIONTYPE.NOTATIONTYPE_mensural_black
      then LIGATURE_STACKED else LIGATURE_STEM_RIGHT_DOWN)
    (by rw [hdur1, hdur2, decide_eq_true hup']; decide) ?_, rfl, ?_⟩
  · rw [hdur1, hdur2, decide_eq_true hup']
    by_cases hs : staff.m_drawingNotationType = data_NOTATIONTYPE.NOTATIONTYPE_mensural_black
    · rw [if_pos hs, if_pos ⟨hs, hl, hup2⟩]
    · rw [if_neg hs, if_neg (fun h => hs h.1)]; decide
  · intro x hx
    simp only [List.mem_cons, List.mem_singleton, List.not_mem_nil, or_false] at hx
    rcases hx with hx | hx
    · rw [hx]; decide
    · rw [hx]; split_ifs <;> decide

theorem C12_longa_longa_up_witness :
    ∃ r, Ligature.CalcLigatureNotePos sampleLigatureParams sampleWhiteStaff
          (sampleLigature sampleLongaUp) = some (FunctorCode.FUNCTOR_SIBLINGS, r) ∧
      r.m_drawingShapes = [LIGATURE_STEM_RIGHT_DOWN, LIGATURE_STEM_RIGHT_DOWN] ∧
      ∀ x ∈ r.m_drawingShapes, ¬ hasFlag x LIGATURE_OBLIQUE :=
  C12_longa_longa_up sampleLigatureParams sampleWhiteStaff
    data_LIGATUREFORM.LIGATUREFORM_NONE (sampleNote DUR_LG 28 0) (sampleNote DUR_LG 32 0)
    [LIGATURE_OBLIQUE, LIGATURE_STACKED, 7] rfl (by decide) (by decide) (by decide) rfl rfl
    (by decide)

/-- C13: with the ligature-as-bracket option off, `CalcLigatureNotePos` on a run of at least
two notes returns `FUNCTOR_SIBLINGS` with as many shapes as notes; on a run of one note it
returns `FUNCTOR_SIBLINGS` with no shape and the note untouched; on a run without a note the
call `notes.back()`, which comes before the test on the size, has no defined behaviour, so
that no result is returned. -/
theorem C13_shape_array_length (params : FunctorDocParams) (staff : Staff) (this : Ligature)
    (hbracket : params.m_doc.m_ligatureAsBracket = false) :
    (2 ≤ this.notes.length →
      ∃ r, Ligature.CalcLigatureNotePos params staff this
          = some (FunctorCode.FUNCTOR_SIBLINGS, r) ∧
        r.m_drawingShapes.length = this.notes.length ∧
        r.notes.length = this.notes.length) ∧
    (this.notes.length = 1 →
      Ligature.CalcLigatureNotePos params staff this
        = some (FunctorCode.FUNCTOR_SIBLINGS,
            ⟨this.form, this.notes, []⟩)) ∧
    (this.notes.length = 0 → Ligature.CalcLigatureNotePos params staff this = none) := by
  refine ⟨?_, ?_, ?_⟩
  · intro hn
    refine ⟨_, calcLigatureNotePos_eq params staff this hbracket hn, ?_, ?_⟩
    · exact length_ligatureShapes staff this.form this.notes
    · exact length_placeNotes _ _ (length_codeOffsets _ _ _ _)
  · intro hn
    obtain ⟨form, notes, shapes⟩ := this
    cases notes with
    | nil => simp at hn
    | cons a rest =>
      cases rest with
      | nil => simp [Ligature.CalcLigatureNotePos, hbracket, Ligature.GetList]
      | cons b rest => simp at hn
  · intro hn
    obtain ⟨form, notes, shapes⟩ := this
    cases notes with
    | nil => simp [Ligature.CalcLigatureNotePos, hbracket, Ligature.GetList]
    | cons a rest => simp at hn

theorem C13_shape_array_length_witness :
    Ligature.CalcLigatureNotePos sampleLigatureParams sampleWhiteStaff (sampleLigature [])
      = none :=
  (C13_shape_array_length sampleLigatureParams sampleWhiteStaff (sampleLigature []) rfl).2.2
    rfl

/-- C14: with the ligature-as-bracket option off, on a staff that is not in black mensural
notation, for every run of two notes without `@lig="obliqua"` on a note and without
`@form="obliqua"` on the ligature, the shapes that `CalcLigatureNotePos` leaves are those of
the rule table `twoNoteRule` for the two durations and `up`, which tells whether the second
pitch is above the first one. -/
theorem C14_two_note_rule_table (params : FunctorDocParams) (staff : Staff)
    (form : data_LIGATUREFORM) (a b : Note) (shapes0 : List Nat)
    (hbracket : params.m_doc.m_ligatureAsBracket = false)
    (hstaff : staff.m_drawingNotationType ≠ data_NOTATIONTYPE.NOTATIONTYPE_mensural_black)
    (hform : form ≠ data_LIGATUREFORM.LIGATUREFORM_obliqua)
    (ha : a.GetLig ≠ data_LIGATUREFORM.LIGATUREFORM_obliqua)
    (hb : b.GetLig ≠ data_LIGATUREFORM.LIGATUREFORM_obliqua) :
    ∃ r, Ligature.CalcLigatureNotePos params staff ⟨form, [a, b], shapes0⟩
        = some (FunctorCode.FUNCTOR_SIBLINGS, r) ∧
      r.m_drawingShapes
        = [(twoNoteRule a.GetActualDur b.GetActualDur
              (decide (b.GetDiatonicPitch - a.GetDiatonicPitch > 0))).1,
           (twoNoteRule a.GetActualDur b.GetActualDur
              (decide (b.GetDiatonicPitch - a.GetDiatonicPitch > 0))).2] :=
  ⟨_, calcLigatureNotePos_two params staff form a b shapes0 hbracket hform ha hb _ _ rfl
    (by rw [if_neg (fun h => hstaff h.1)]), rfl⟩

theorem C14_two_note_rule_table_witness :
    ∃ r, Ligature.CalcLigatureNotePos sampleLigatureParams sampleWhiteStaff
          (sampleLigature [sampleNote DUR_BR 30 0, sampleNote DUR_BR 28 0])
        = some (FunctorCode.FUNCTOR_SIBLINGS, r) ∧
      r.m_drawingShapes = [LIGATURE_OBLIQUE ||| LIGATURE_STEM_LEFT_DOWN, LIGATURE_DEFAULT] :=
  C14_two_note_rule_table sampleLigatureParams sampleWhiteStaff
    data_LIGATUREFORM.LIGATUREFORM_NONE (sampleNote DUR_BR 30 0) (sampleNote DUR_BR 28 0)
    [LIGATURE_OBLIQUE, LIGATURE_STACKED, 7] rfl (by decide) (by decide) (by decide) (by decide)

/-- C15, as the claim states it, fails: in the run semibrevis at E4, brevis at C4 the second
note carries `@lig="obliqua"`, and after the step for the pair the first note does not
carry the oblique flag. -/
theorem C15_explicit_oblique_counterexample :
    sampleSecondObliqua.map Note.GetLig
      = [data_LIGATUREFORM.LIGATUREFORM_NONE, data_LIGATUREFORM.LIGATUREFORM_obliqua] ∧
    ∃ r, Ligature.CalcLigatureNotePos sampleLigatureParams sampleWhiteStaff
          (sampleLigature sampleSecondObliqua) = some (FunctorCode.FUNCTOR_SIBLINGS, r) ∧
      r.m_drawingShapes = [LIGATURE_DEFAULT, LIGATURE_DEFAULT] ∧
      ¬ hasFlag (r.m_drawingShapes[0]?.getD 0) LIGATURE_OBLIQUE := by
  refine ⟨by decide, ⟨data_LIGATUREFORM.LIGATUREFORM_NONE,
    placeNotes sampleSecondObliqua [0, 18], [LIGATURE_DEFAULT, LIGATURE_DEFAULT]⟩,
    by decide, rfl, by decide⟩

/-- C15 (amended): in the step of the first loop of `CalcLigatureNotePos` for a pair of
notes, with `n1` the index of the first note of the pair, if the first note of the pair
carries `@lig="obliqua"`, or the variable `oblique` is set (the run has two notes and the
ligature carries `@form="obliqua"`), then after the step the shape at `n1` carries the
oblique flag, whatever the durations, and when `n1 > 0` the shape at `n1 - 1` does not
carry it. -/
theorem C15_explicit_oblique (isMensuralBlack isLastNote : Bool) (previousNote note : Note)
    (st : ShapeLoopState) (k : Nat) (hinv : ShapeLoopInv st k)
    (hprev : st.previousNote = some previousNote)
    (hob : previousNote.GetLig = data_LIGATUREFORM.LIGATUREFORM_obliqua ∨ st.oblique = true) :
    ∃ st', shapeLoopBody isMensuralBlack isLastNote note st = some st' ∧
      hasFlag (st'.m_drawingShapes[st.n1]?.getD 0) LIGATURE_OBLIQUE ∧
      (0 < st.n1 →
        ¬ hasFlag (st'.m_drawingShapes[st.n1 - 1]?.getD 0) LIGATURE_OBLIQUE) := by
  refine ⟨_, (shapeLoopBody_eq isMensuralBlack isLastNote note st k hinv).1, ?_⟩
  obtain ⟨hlen, hcase⟩ := hinv
  have hk : st.n1 + 1 = k ∧ st.n2 = k := by
    rcases hcase with ⟨_, hnone, _, _⟩ | ⟨_, _, h1, h2⟩
    · rw [hprev] at hnone; exact absurd hnone (by simp)
    · exact ⟨h1, h2⟩
  have hforce : (if previousNote.GetLig = data_LIGATUREFORM.LIGATUREFORM_obliqua then true
      else st.oblique) = true := by
    rcases hob with h | h
    · rw [if_pos h]
    · rw [h]; split_ifs <;> rfl
  unfold shapeLoopBodyTotal pairShapes
  simp only [hprev, hforce]
  rw [getElem?_ligatureStackTotal _ _ _ _ _ _ _ _ _ _ (by omega),
    getElem?_ligatureStackTotal _ _ _ _ _ _ _ _ _ _ (by omega)]
  exact ligatureForceObliqueTotal_true _ _
    (by rw [length_ligatureTableTotal, List.length_append, List.length_singleton]; omega)

theorem C15_explicit_oblique_witness :
    ∃ st', shapeLoopBody false true (sampleNote DUR_BR 26 0)
          { m_drawingShapes := [LIGATURE_OBLIQUE ||| LIGATURE_STEM_LEFT_DOWN, LIGATURE_DEFAULT]
            previousNote := some { sampleNote DUR_BR 28 0 with
              lig := data_LIGATUREFORM.LIGATUREFORM_obliqua }
            previousUp := false, n1 := 1, n2 := 2, oblique := false } = some st' ∧
      hasFlag (st'.m_drawingShapes[1]?.getD 0) LIGATURE_OBLIQUE ∧
      (0 < 1 → ¬ hasFlag (st'.m_drawingShapes[1 - 1]?.getD 0) LIGATURE_OBLIQUE) :=
  C15_explicit_oblique false true
    { sampleNote DUR_BR 28 0 with lig := data_LIGATUREFORM.LIGATUREFORM_obliqua }
    (sampleNote DUR_BR 26 0)
    { m_drawingShapes := [LIGATURE_OBLIQUE ||| LIGATURE_STEM_LEFT_DOWN, LIGATURE_DEFAULT]
      previousNote := some { sampleNote DUR_BR 28 0 with
        lig := data_LIGATUREFORM.LIGATUREFORM_obliqua }
      previousUp := false, n1 := 1, n2 := 2, oblique := false }
    2 ⟨rfl, Or.inr ⟨by decide, by simp, rfl, rfl⟩⟩ rfl (Or.inl rfl)

/-- C16: with the ligature-as-bracket option off, for a run that ends with the notes `p` and
`l` after the notes `pre`, the interval `d` from `p` to `l` being an `int`:
`CalcLigatureNotePos` leaves no stacked flag on a note before the last one; the shape of
the last note is exactly stacked if and only if the staff is in black mensural notation,
`l` is a longa or a maxima, `d > 0` and `d` exceeds the threshold `specStackThreshold`
(1 for the first pair or after a step up, 2 after a step that does not go up when the note
two positions before the last one is oblique, none otherwise); on a staff that is not in
black mensural notation no shape carries the stacked flag. -/
theorem C16_stacking_rule (params : FunctorDocParams) (staff : Staff) (this : Ligature)
    (pre : List Note) (p l : Note)
    (hbracket : params.m_doc.m_ligatureAsBracket = false)
    (hnotes : this.notes = pre ++ [p, l])
    (hint : l.GetDiatonicPitch - p.GetDiatonicPitch ≤ 2147483647) :
    ∃ r, Ligature.CalcLigatureNotePos params staff this
        = some (FunctorCode.FUNCTOR_SIBLINGS, r) ∧
      (∀ i, i ≤ pre.length → ¬ hasFlag (r.m_drawingShapes[i]?.getD 0) LIGATURE_STACKED) ∧
      (r.m_drawingShapes[pre.length + 1]? = some LIGATURE_STACKED ↔
        staff.m_drawingNotationType = data_NOTATIONTYPE.NOTATIONTYPE_mensural_black ∧
        isLongaOrMaxima l.GetActualDur ∧
        0 < l.GetDiatonicPitch - p.GetDiatonicPitch ∧
        ∃ t, specStackThreshold pre p r.m_drawingShapes = some t ∧
          t < l.GetDiatonicPitch - p.GetDiatonicPitch) ∧
      (staff.m_drawingNotationType ≠ data_NOTATIONTYPE.NOTATIONTYPE_mensural_black →
        ∀ x ∈ r.m_drawingShapes, ¬ hasFlag x LIGATURE_STACKED) := by
  have hn : 2 ≤ this.notes.length := by rw [hnotes]; simp
  refine ⟨_, calcLigatureNotePos_eq params staff this hbracket hn, ?_⟩
  simp only
  rw [hnotes]
  obtain ⟨st, hinv, hshapes⟩ := ligatureShapes_last staff this.form pre p l
  rw [hshapes]
  obtain ⟨⟨hlen, -⟩, -, hstk, hup, -, -⟩ := hinv
  have hlen' : (st.m_drawingShapes ++ [LIGATURE_DEFAULT]).length = pre.length + 2 := by
    rw [List.length_append, hlen]; simp
  have hno : ∀ x ∈ st.m_drawingShapes ++ [LIGATURE_DEFAULT], ¬ hasFlag x LIGATURE_STACKED := by
    intro x hx
    simp only [List.mem_append, List.mem_singleton] at hx
    rcases hx with hx | hx
    · exact hstk x hx
    · rw [hx]; decide
  have hup' : ∀ ys q, pre = ys ++ [q] →
      st.previousUp = decide (p.GetDiatonicPitch - q.GetDiatonicPitch > 0) := by
    intro ys q hys
    exact hup ys q p (by rw [hys]; simp)
  obtain ⟨-, hbefore, hlast⟩ := pairShapes_last
    (decide (staff.m_drawingNotationType = data_NOTATIONTYPE.NOTATIONTYPE_mensural_black))
    p l st.oblique st.previousUp pre.length (st.m_drawingShapes ++ [LIGATURE_DEFAULT])
    hlen' hno
  refine ⟨hbefore, ?_, ?_⟩
  · rw [hlast, stackThresholdOf_lt_iff pre p st.previousUp _ _ hint hup', decide_eq_true_eq]
  · intro hstaff
    have hb : decide (staff.m_drawingNotationType
        = data_NOTATIONTYPE.NOTATIONTYPE_mensural_black) = false := decide_eq_false hstaff
    rw [hb]
    exact pairShapes_not_stacked false true p l st.oblique st.previousUp pre.length
      (pre.length + 1) _ (Or.inr rfl) hno

theorem C16_stacking_rule_witness :
    ∃ r, Ligature.CalcLigatureNotePos sampleLigatureParams sampleBlackStaff
          (sampleLigature [sampleNote DUR_BR 30 0, sampleNote DUR_BR 28 0,
            sampleNote DUR_LG 32 0])
        = some (FunctorCode.FUNCTOR_SIBLINGS, r) ∧
      (∀ i, i ≤ 1 → ¬ hasFlag (r.m_drawingShapes[i]?.getD 0) LIGATURE_STACKED) ∧
      (r.m_drawingShapes[1 + 1]? = some LIGATURE_STACKED ↔
        sampleBlackStaff.m_drawingNotationType
          = data_NOTATIONTYPE.NOTATIONTYPE_mensural_black ∧
        isLongaOrMaxima DUR_LG ∧
        (0 : Int) < 32 - 28 ∧
        ∃ t, specStackThreshold [sampleNote DUR_BR 30 0] (sampleNote DUR_BR 28 0)
            r.m_drawingShapes = some t ∧ t < 32 - 28) ∧
      (sampleBlackStaff.m_drawingNotationType
          ≠ data_NOTATIONTYPE.NOTATIONTYPE_mensural_black →
        ∀ x ∈ r.m_drawingShapes, ¬ hasFlag x LIGATURE_STACKED) :=
  C16_stacking_rule sampleLigatureParams sampleBlackStaff
    (sampleLigature [sampleNote DUR_BR 30 0, sampleNote DUR_BR 28 0, sampleNote DUR_LG 32 0])
    [sampleNote DUR_BR 30 0] (sampleNote DUR_BR 28 0) (sampleNote DUR_LG 32 0) rfl rfl
    (by decide)

/-- C17: with the ligature-as-bracket option off, on a run of at least two notes
`CalcLigatureNotePos` returns `FUNCTOR_SIBLINGS`; when the shape of the second note does not
include the stacked flag the x-offsets are those of `specOffsets`: 0 for the first note, and
for a later note the running right edge of the previous one, less the own width
(`2 * radius - stem width`) when the own shape is stacked; when the shape of the second note
includes the stacked flag the first note is not at 0, it is moved back by its own width, and
the later notes follow from there. -/
theorem C17_stage2_placement (params : FunctorDocParams) (staff : Staff) (this : Ligature)
    (hbracket : params.m_doc.m_ligatureAsBracket = false) (hn : 2 ≤ this.notes.length) :
    ∃ r, Ligature.CalcLigatureNotePos params staff this
        = some (FunctorCode.FUNCTOR_SIBLINGS, r) ∧
      (¬ hasFlag (r.m_drawingShapes[1]?.getD 0) LIGATURE_STACKED →
        r.notes
          = placeNotes this.notes (specOffsets params staff r.m_drawingShapes this.notes)) ∧
      (hasFlag (r.m_drawingShapes[1]?.getD 0) LIGATURE_STACKED →
        ∀ a rest, this.notes = a :: rest →
          r.notes.head? = some (a.SetDrawingXRel (- noteWidth params staff a)) ∧
          r.notes = placeNotes this.notes
            (offsetsFrom params staff r.m_drawingShapes (- noteWidth params staff a)
              this.notes)) := by
  refine ⟨_, calcLigatureNotePos_eq params staff this hbracket hn, ?_, ?_⟩
  · intro h
    simp only at h ⊢
    rw [codeOffsets_eq_specOffsets params staff _ _ h]
  · intro h a rest hnotes
    simp only at h ⊢
    rw [hnotes] at h ⊢
    have hw : (0 : Int) - stackBack
        ((ligatureShapes staff this.form (a :: rest))[1]?.getD 0) (noteWidth params staff a)
        = - noteWidth params staff a := by
      unfold stackBack
      rw [if_pos h, zero_sub]
    constructor
    · rw [head?_placeNotes_codeOffsets, hw]
    · unfold codeOffsets
      simp only [hw]

theorem C17_stage2_placement_witness :
    ∃ r, Ligature.CalcLigatureNotePos sampleLigatureParams sampleBlackStaff
          (sampleLigature sampleBrevisLongaUp) = some (FunctorCode.FUNCTOR_SIBLINGS, r) ∧
      (¬ hasFlag (r.m_drawingShapes[1]?.getD 0) LIGATURE_STACKED →
        r.notes = placeNotes sampleBrevisLongaUp
          (specOffsets sampleLigatureParams sampleBlackStaff r.m_drawingShapes
            sampleBrevisLongaUp)) ∧
      (hasFlag (r.m_drawingShapes[1]?.getD 0) LIGATURE_STACKED →
        ∀ a rest, sampleBrevisLongaUp = a :: rest →
          r.notes.head? = some (a.SetDrawingXRel
            (- noteWidth sampleLigatureParams sampleBlackStaff a)) ∧
          r.notes = placeNotes sampleBrevisLongaUp
            (offsetsFrom sampleLigatureParams sampleBlackStaff r.m_drawingShapes
              (- noteWidth sampleLigatureParams sampleBlackStaff a) sampleBrevisLongaUp)) :=
  C17_stage2_placement sampleLigatureParams sampleBlackStaff
    (sampleLigature sampleBrevisLongaUp) rfl (by decide)

/-- C18: with the ligature-as-bracket option off, for every pair of consecutive notes `a`,
`b` of a run, after `CalcLigatureNotePos` the x-offset of `b` is the running right edge
after `a`, which is the x-offset of `a` plus the width of `a` (less the width of `b` when
`b` is stacked), plus the shift `obliqueShift`: `((|d| - 2) * width(b) * 2) / 3` with the
truncating division when the shape of `a` includes the oblique flag and the interval `d`
has `|d| > 2`, and 0 otherwise. The x-offset of `b` carries the shift into the running
right edge of the pairs that follow. -/
theorem C18_oblique_shift (params : FunctorDocParams) (staff : Staff) (this : Ligature)
    (pre : List Note) (a b : Note) (post : List Note)
    (hbracket : params.m_doc.m_ligatureAsBracket = false)
    (hnotes : this.notes = pre ++ a :: b :: post) :
    ∃ r xa xb, Ligature.CalcLigatureNotePos params staff this
        = some (FunctorCode.FUNCTOR_SIBLINGS, r) ∧
      r.notes[pre.length]? = some (a.SetDrawingXRel xa) ∧
      r.notes[pre.length + 1]? = some (b.SetDrawingXRel xb) ∧
      xb = xa + noteWidth params staff a
        - stackBack (r.m_drawingShapes[pre.length + 1]?.getD 0) (noteWidth params staff b)
        + obliqueShift (r.m_drawingShapes[pre.length]?.getD 0)
            (b.GetDiatonicPitch - a.GetDiatonicPitch) (noteWidth params staff b) := by
  have hn : 2 ≤ this.notes.length := by
    rw [hnotes]; simp only [List.length_append, List.length_cons]; omega
  have ha : (pre ++ a :: b :: post)[pre.length]? = some a := by
    rw [List.getElem?_append_right (le_refl _)]; simp
  have hb : (pre ++ a :: b :: post)[pre.length + 1]? = some b := by
    rw [List.getElem?_append_right (by omega)]; simp
  obtain ⟨xa, xb, h1, h2, h3⟩ := codeOffsets_pair params staff
    (ligatureShapes staff this.form this.notes) pre a b post
  refine ⟨_, xa, xb, calcLigatureNotePos_eq params staff this hbracket hn, ?_, ?_, ?_⟩
  · simp only
    rw [hnotes] at h1 ⊢
    exact getElem?_placeNotes _ _ _ _ _ ha h1
  · simp only
    rw [hnotes] at h2 ⊢
    exact getElem?_placeNotes _ _ _ _ _ hb h2
  · exact h3

theorem C18_oblique_shift_witness :
    ∃ r xa xb, Ligature.CalcLigatureNotePos sampleLigatureParams sampleBlackStaff
          (sampleLigature sampleFourNotes) = some (FunctorCode.FUNCTOR_SIBLINGS, r) ∧
      r.notes[0]? = some ((sampleNote DUR_LG 32 0).SetDrawingXRel xa) ∧
      r.notes[0 + 1]? = some ((sampleNote DUR_BR 28 0).SetDrawingXRel xb) ∧
      xb = xa + noteWidth sampleLigatureParams sampleBlackStaff (sampleNote DUR_LG 32 0)
        - stackBack (r.m_drawingShapes[0 + 1]?.getD 0)
            (noteWidth sampleLigatureParams sampleBlackStaff (sampleNote DUR_BR 28 0))
        + obliqueShift (r.m_drawingShapes[0]?.getD 0) (28 - 32)
            (noteWidth sampleLigatureParams sampleBlackStaff (sampleNote DUR_BR 28 0)) :=
  C18_oblique_shift sampleLigatureParams sampleBlackStaff (sampleLigature sampleFourNotes)
    [] (sampleNote DUR_LG 32 0) (sampleNote DUR_BR 28 0)
    [sampleNote DUR_BR 29 0, sampleNote DUR_LG 33 0] rfl rfl

/-- C19: when the ligature-as-bracket option is set, `CalcLigatureNotePos` returns
`FUNCTOR_CONTINUE` and leaves the ligature as it was, its shapes and the x-offsets of its
notes included, whatever the run and the state before the call. -/
theorem C19_bracket_bypass (params : FunctorDocParams) (staff : Staff) (this : Ligature)
    (hbracket : params.m_doc.m_ligatureAsBracket = true) :
    Ligature.CalcLigatureNotePos params staff this
      = some (FunctorCode.FUNCTOR_CONTINUE, this) := by
  unfold Ligature.CalcLigatureNotePos
  rw [if_pos hbracket]

theorem C19_bracket_bypass_witness :
    Ligature.CalcLigatureNotePos sampleBracketParams sampleBlackStaff
        (sampleLigature sampleLongaUp)
      = some (FunctorCode.FUNCTOR_CONTINUE, sampleLigature sampleLongaUp) :=
  C19_bracket_bypass sampleBracketParams sampleBlackStaff (sampleLigature sampleLongaUp) rfl

/-- C20: with the ligature-as-bracket option off and a run of at least two notes,
`CalcLigatureNotePos` returns a result; a ligature `other` that differs from `this` only by
the shapes and the x-offsets present before the call gets the same result; a second call
on the result of the first one returns the same result; and a call after `ResetData`
returns what a call on the ligature without layout state, as it is when it has just been
constructed, returns. -/
theorem C20_recomputation (params : FunctorDocParams) (staff : Staff) (this other : Ligature)
    (hbracket : params.m_doc.m_ligatureAsBracket = false) (hn : 2 ≤ this.notes.length) :
    (∃ r, Ligature.CalcLigatureNotePos params staff this
        = some (FunctorCode.FUNCTOR_SIBLINGS, r)) ∧
    (other.fresh = this.fresh →
      Ligature.CalcLigatureNotePos params staff other
        = Ligature.CalcLigatureNotePos params staff this) ∧
    (∀ c r, Ligature.CalcLigatureNotePos params staff this = some (c, r) →
      Ligature.CalcLigatureNotePos params staff r = some (c, r)) ∧
    Ligature.CalcLigatureNotePos params staff (Ligature.ResetData this).2
      = Ligature.CalcLigatureNotePos params staff this.fresh := by
  have hsame : ∀ l : Ligature, l.fresh = this.fresh →
      Ligature.CalcLigatureNotePos params staff l
        = Ligature.CalcLigatureNotePos params staff this := by
    intro l hl
    have hlen : l.notes.length = this.notes.length := by
      have h := congrArg (fun x : Ligature => x.notes.length) hl
      simpa [Ligature.fresh] using h
    rw [calcLigatureNotePos_fresh params staff l hbracket (by omega),
      calcLigatureNotePos_fresh params staff this hbracket hn, hl]
  refine ⟨⟨_, calcLigatureNotePos_eq params staff this hbracket hn⟩, hsame other, ?_, ?_⟩
  · intro c r hr
    have hr' := hr
    rw [calcLigatureNotePos_eq params staff this hbracket hn] at hr'
    simp only [Option.some.injEq, Prod.mk.injEq] at hr'
    obtain ⟨-, hr'⟩ := hr'
    have hfresh : r.fresh = this.fresh := by
      rw [← hr']
      simp only [Ligature.fresh]
      rw [fresh_placeNotes _ _ (length_codeOffsets _ _ _ _)]
    rw [hsame r hfresh, hr]
  · have hreset : (Ligature.ResetData this).2.fresh = this.fresh := rfl
    rw [hsame _ hreset, calcLigatureNotePos_fresh params staff this hbracket hn]

theorem C20_recomputation_witness :
    (∃ r, Ligature.CalcLigatureNotePos sampleLigatureParams sampleBlackStaff
        (sampleLigature sampleFourNotes) = some (FunctorCode.FUNCTOR_SIBLINGS, r)) ∧
    ((Ligature.mk data_LIGATUREFORM.LIGATUREFORM_NONE
          (sampleFourNotes.map (fun n => n.SetDrawingXRel 77)) [LIGATURE_STACKED]).fresh
        = (sampleLigature sampleFourNotes).fresh →
      Ligature.CalcLigatureNotePos sampleLigatureParams sampleBlackStaff
          (Ligature.mk data_LIGATUREFORM.LIGATUREFORM_NONE
            (sampleFourNotes.map (fun n => n.SetDrawingXRel 77)) [LIGATURE_STACKED])
        = Ligature.CalcLigatureNotePos sampleLigatureParams sampleBlackStaff
            (sampleLigature sampleFourNotes)) ∧
    (∀ c r, Ligature.CalcLigatureNotePos sampleLigatureParams sampleBlackStaff
          (sampleLigature sampleFourNotes) = some (c, r) →
      Ligature.CalcLigatureNotePos sampleLigatureParams sampleBlackStaff r = some (c, r)) ∧
    Ligature.CalcLigatureNotePos sampleLigatureParams sampleBlackStaff
        (Ligature.ResetData (sampleLigature sampleFourNotes)).2
      = Ligature.CalcLigatureNotePos sampleLigatureParams sampleBlackStaff
          (sampleLigature sampleFourNotes).fresh :=
  C20_recomputation sampleLigatureParams sampleBlackStaff (sampleLigature sampleFourNotes)
    (Ligature.mk data_LIGATUREFORM.LIGATUREFORM_NONE
      (sampleFourNotes.map (fun n => n.SetDrawingXRel 77)) [LIGATURE_STACKED])
    rfl (by decide)

/-! ## Measure repeats: lemmas and claims -/

/-- With the toggle true, the last visited `MRpt` of a pass gets the count from which the
pass goes on (the one of the current `MRpt`, or 1 when there is none) plus the number of
visits, and is the current one afterwards. -/
theorem runPrepareRpt_true (visits : List Nat) :
    ∀ (doc : MRptStore) (params : PrepareRptParams),
      params.m_multiNumber = data_BOOLEAN.BOOLEAN_true →
      ∀ (pre : List Nat) (x : Nat), visits = pre ++ [x] →
        (runPrepareRpt visits doc params).2.1 x
          = (match params.m_currentMRpt with
              | none => 1
              | some c => doc c) + ((pre.length : Int) + 1) ∧
        (runPrepareRpt visits doc params).2.2.m_currentMRpt = some x ∧
        (runPrepareRpt visits doc params).2.2.m_multiNumber = data_BOOLEAN.BOOLEAN_true := by
  induction visits with
  | nil => intro doc params _ pre x h; simp at h
  | cons t rest ih =>
    intro doc params hm pre x h
    have hstep : MRpt.PrepareRpt t doc params
        = (FunctorCode.FUNCTOR_CONTINUE,
            Function.update doc t ((match params.m_currentMRpt with
              | none => 1
              | some c => doc c) + 1),
            { params with m_currentMRpt := some t }) := by
      unfold MRpt.PrepareRpt
      rw [if_neg (by rw [hm]; simp)]
      cases params.m_currentMRpt <;> rfl
    rw [runPrepareRpt, hstep]
    cases pre with
    | nil =>
      simp only [List.nil_append, List.cons.injEq] at h
      obtain ⟨ht, hr⟩ := h
      subst ht hr
      simp [runPrepareRpt, hm]
    | cons p pre' =>
      simp only [List.cons_append, List.cons.injEq] at h
      obtain ⟨ht, hr⟩ := h
      subst ht
      obtain ⟨h1, h2, h3⟩ := ih (Function.update doc t ((match params.m_currentMRpt with
              | none => 1
              | some c => doc c) + 1)) { params with m_currentMRpt := some t } hm pre' x hr
      refine ⟨?_, h2, h3⟩
      rw [h1]
      simp only [Function.update_same, List.length_cons, Nat.cast_add, Nat.cast_one]
      ring

theorem runPrepareRpt_not_true (visits : List Nat) (doc : MRptStore)
    (params : PrepareRptParams)
    (hm : params.m_multiNumber ≠ data_BOOLEAN.BOOLEAN_true) :
    runPrepareRpt visits doc params
      = (List.replicate visits.length FunctorCode.FUNCTOR_CONTINUE, doc, params) := by
  induction visits with
  | nil => rfl
  | cons t rest ih =>
    have hstep : MRpt.PrepareRpt t doc params = (FunctorCode.FUNCTOR_CONTINUE, doc, params) := by
      unfold MRpt.PrepareRpt
      rw [if_pos hm]
    rw [runPrepareRpt, hstep]
    simp only [ih, List.length_cons, List.replicate_succ]

theorem runPrepareRpt_codes (visits : List Nat) :
    ∀ (doc : MRptStore) (params : PrepareRptParams),
      (runPrepareRpt visits doc params).1
        = List.replicate visits.length FunctorCode.FUNCTOR_CONTINUE := by
  induction visits with
  | nil => intro doc params; rfl
  | cons t rest ih =>
    intro doc params
    have hcode : (MRpt.PrepareRpt t doc params).1 = FunctorCode.FUNCTOR_CONTINUE := by
      unfold MRpt.PrepareRpt
      split_ifs <;> rfl
    rw [runPrepareRpt]
    simp only [ih, hcode, List.length_cons, List.replicate_succ]

theorem runPrepareRpt_append (xs ys : List Nat) :
    ∀ (doc : MRptStore) (params : PrepareRptParams),
      (runPrepareRpt (xs ++ ys) doc params).2
        = (runPrepareRpt ys (runPrepareRpt xs doc params).2.1
            (runPrepareRpt xs doc params).2.2).2 := by
  induction xs with
  | nil => intro doc params; rfl
  | cons t rest ih =>
    intro doc params
    have h := ih (MRpt.PrepareRpt t doc params).2.1 (MRpt.PrepareRpt t doc params).2.2
    rw [List.cons_append, runPrepareRpt, runPrepareRpt]
    exact h

/-- C27: in a pass of `MRpt::PrepareRpt` with one bundle that starts with no current `MRpt`,
every visit returns `FUNCTOR_CONTINUE`; when the multi-number toggle is true, after the
visits `pre` and then `x`, which is the visit number `k = |pre| + 1`, the drawing measure
count of `x` is `k + 1` and `x` is the current `MRpt` of the bundle, the state after these
visits being the one from which the later visits `post` go on; when the toggle is not true
the pass changes no drawing measure count and leaves the bundle as it was. -/
theorem C27_measure_repeat_counting (doc : MRptStore) (multiNumber : data_BOOLEAN)
    (pre : List Nat) (x : Nat) (post visits : List Nat) :
    (multiNumber = data_BOOLEAN.BOOLEAN_true →
      (runPrepareRpt (pre ++ [x]) doc ⟨none, multiNumber⟩).2.1 x = (pre.length : Int) + 1 + 1 ∧
      (runPrepareRpt (pre ++ [x]) doc ⟨none, multiNumber⟩).2.2.m_currentMRpt = some x ∧
      (runPrepareRpt (pre ++ x :: post) doc ⟨none, multiNumber⟩).2
        = (runPrepareRpt post (runPrepareRpt (pre ++ [x]) doc ⟨none, multiNumber⟩).2.1
            (runPrepareRpt (pre ++ [x]) doc ⟨none, multiNumber⟩).2.2).2) ∧
    (multiNumber ≠ data_BOOLEAN.BOOLEAN_true →
      (runPrepareRpt visits doc ⟨none, multiNumber⟩).2 = (doc, ⟨none, multiNumber⟩)) ∧
    (runPrepareRpt visits doc ⟨none, multiNumber⟩).1
      = List.replicate visits.length FunctorCode.FUNCTOR_CONTINUE := by
  refine ⟨?_, ?_, runPrepareRpt_codes visits doc _⟩
  · intro hm
    obtain ⟨h1, h2, -⟩ := runPrepareRpt_true (pre ++ [x]) doc ⟨none, multiNumber⟩ hm pre x rfl
    refine ⟨?_, h2, ?_⟩
    · rw [h1]; ring
    · have hsplit : pre ++ x :: post = (pre ++ [x]) ++ post := by simp
      rw [hsplit, runPrepareRpt_append]
  · intro hm
    rw [runPrepareRpt_not_true visits doc ⟨none, multiNumber⟩ hm]

/-! ## Child acceptance: claims -/

/-- C21: for `Ligature`, `Harm`, `LabelAbbr` and `Facsimile`, `IsSupportedChild` returns
false exactly for a child whose class is outside the supported set, and `AddChild` then
leaves the element as it was and reports the rejection. `Rend::AddChild` does not: for a
child that is not a line break, a rend, a text or an editorial element it logs the error
and then either aborts on `assert(false)` or, in a build without assertions, appends the
child all the same. -/
theorem C21_structural_rejection (this child : Object) (ndebug : Bool) :
    ((Ligature.IsSupportedChild child = false ↔
        child.classId ∉ [ClassId.DOT, ClassId.NOTE, ClassId.EDITORIAL_ELEMENT]) ∧
      (Ligature.IsSupportedChild child = false →
        Object.AddChild Ligature.IsSupportedChild this child = ⟨this, true⟩)) ∧
    ((Harm.IsSupportedChild child = false ↔
        child.classId ∉ [ClassId.LB, ClassId.REND, ClassId.TEXT, ClassId.FB,
          ClassId.EDITORIAL_ELEMENT]) ∧
      (Harm.IsSupportedChild child = false →
        Object.AddChild Harm.IsSupportedChild this child = ⟨this, true⟩)) ∧
    ((LabelAbbr.IsSupportedChild child = false ↔
        child.classId ∉ [ClassId.LB, ClassId.REND, ClassId.TEXT, ClassId.EDITORIAL_ELEMENT]) ∧
      (LabelAbbr.IsSupportedChild child = false →
        Object.AddChild LabelAbbr.IsSupportedChild this child = ⟨this, true⟩)) ∧
    ((Facsimile.IsSupportedChild child = false ↔ child.classId ∉ [ClassId.SURFACE]) ∧
      (Facsimile.IsSupportedChild child = false →
        Object.AddChild Facsimile.IsSupportedChild this child = ⟨this, true⟩)) ∧
    (child.classId ∉ [ClassId.LB, ClassId.REND, ClassId.TEXT, ClassId.EDITORIAL_ELEMENT] →
      Rend.AddChild ndebug this child
        = if ndebug then some ⟨this.pushChild child, true⟩ else none) ∧
    (child.classId ∈ [ClassId.LB, ClassId.REND, ClassId.TEXT, ClassId.EDITORIAL_ELEMENT] →
      Rend.AddChild ndebug this child = some ⟨this.pushChild child, false⟩) := by
  have hadd : ∀ f : Object → Bool, f child = false →
      Object.AddChild f this child = ⟨this, true⟩ := by
    intro f hf
    unfold Object.AddChild
    rw [hf]
    rfl
  refine ⟨⟨?_, hadd _⟩, ⟨?_, hadd _⟩, ⟨?_, hadd _⟩, ⟨?_, hadd _⟩, ?_, ?_⟩
  · unfold Ligature.IsSupportedChild Object.IsEditorialElement Object.Is
    cases child.classId <;> decide
  · unfold Harm.IsSupportedChild Object.IsEditorialElement Object.Is
    cases child.classId <;> decide
  · unfold LabelAbbr.IsSupportedChild Object.IsEditorialElement Object.Is
    cases child.classId <;> decide
  · unfold Facsimile.IsSupportedChild Object.Is
    cases child.classId <;> decide
  · unfold Rend.AddChild Object.IsEditorialElement Object.Is
    cases child.classId <;> simp
  · unfold Rend.AddChild Object.IsEditorialElement Object.Is
    cases child.classId <;> simp

/-! ## Chord-symbol pitches: lemmas -/

theorem accidOf_eq (c : Char) :
    accidOf c = if isAccidChar c = true then some (accidValue c) else none := by
  unfold accidOf accidValue isAccidChar
  simp only [List.mem_cons, List.mem_singleton, List.not_mem_nil, or_false,
    decide_eq_true_eq]
  by_cases h1 : c = '𝄫'
  · simp [h1]
  by_cases h2 : c = 'b'
  · simp [h2]
  by_cases h3 : c = '♭'
  · simp [h3]
  by_cases h4 : c = '#'
  · simp [h4]
  by_cases h5 : c = '♯'
  · simp [h5]
  by_cases h6 : c = '𝄪'
  · simp [h6]
  simp [h1, h2, h3, h4, h5, h6]

theorem accidLoop_eq (rest : List Char) :
    ∀ (pos : Nat) (accid : Int),
      accidLoop rest pos accid
        = (pos + (rest.takeWhile isAccidChar).length,
           accid + ((rest.takeWhile isAccidChar).map accidValue).sum) := by
  induction rest with
  | nil => intro pos accid; simp [accidLoop]
  | cons c rest ih =>
    intro pos accid
    rw [accidLoop, accidOf_eq]
    by_cases h : isAccidChar c = true
    · simp only [h, if_true, ih, List.takeWhile_cons_of_pos, List.length_cons, List.map_cons,
        List.sum_cons]
      refine Prod.ext ?_ ?_
      · simp only; omega
      · simp only; ring
    · have hf : isAccidChar c = false := by simpa using h
      simp [hf, List.takeWhile_cons]

theorem getRootPitch_some (t : Text) (pitch : TransPitch) (pos : Nat) :
    Harm.GetRootPitch (some t) pitch pos
      = match t.GetText[pos]? with
        | some c =>
          if 'A' ≤ c ∧ c ≤ 'G' then
            (true,
              ⟨Int.tmod ((c.toNat : Int) - ('C'.toNat : Int) + 7) 7,
                (accidLoop (t.GetText.drop (pos + 1)) (pos + 1) 0).2, 4⟩,
              (accidLoop (t.GetText.drop (pos + 1)) (pos + 1) 0).1)
          else (false, pitch, pos)
        | none => (false, pitch, pos) := by
  unfold Harm.GetRootPitch
  by_cases h : t.GetText.length > pos
  · simp only [h, dite_true, List.getElem?_eq_getElem h, ge_iff_le]
  · simp only [h, dite_false, List.getElem?_eq_none (not_lt.1 h)]

theorem letter_cases (c : Char) (hA : 'A' ≤ c) (hG : c ≤ 'G') :
    c = 'A' ∨ c = 'B' ∨ c = 'C' ∨ c = 'D' ∨ c = 'E' ∨ c = 'F' ∨ c = 'G' := by
  have h1 : 65 ≤ c.toNat := hA
  have h2 : c.toNat ≤ 71 := hG
  have hc : Char.ofNat c.toNat = c := Char.ofNat_toNat c
  generalize c.toNat = n at h1 h2 hc
  interval_cases n <;> subst hc <;> decide

theorem take_length_takeWhile (p : Char → Bool) (l : List Char) :
    l.take (l.takeWhile p).length = l.takeWhile p := by
  induction l with
  | nil => rfl
  | cons a l ih =>
    by_cases h : p a = true
    · simp [List.takeWhile_cons, h, ih]
    · simp [List.takeWhile_cons, h]

theorem takeWhile_append_stop (p : Char → Bool) (l : List Char) (x : Char) (ys : List Char)
    (hx : p x = false) :
    (l.takeWhile p ++ x :: ys).takeWhile p = l.takeWhile p := by
  induction l with
  | nil => simp [List.takeWhile_cons, hx]
  | cons a l ih =>
    by_cases h : p a = true
    · simp [List.takeWhile_cons, h, ih]
    · simp [List.takeWhile_cons, h, hx]

theorem getElem?_length_takeWhile (p : Char → Bool) (l : List Char) (d : Char)
    (h : l[(l.takeWhile p).length]? = some d) : p d = false := by
  induction l with
  | nil => simp at h
  | cons a l ih =>
    by_cases ha : p a = true
    · simp only [List.takeWhile_cons, ha, if_true, List.length_cons,
        List.getElem?_cons_succ] at h
      exact ih h
    · simp only [List.takeWhile_cons, ha, Bool.false_eq_true, if_false, List.length_nil,
        List.getElem?_cons_zero, Option.some.injEq] at h
      rw [← h]
      simpa using ha

/-- The statement of `Harm::Transpose` on the bass note leaves the root part of the text as
it was. -/
theorem rootPart_transposeBass (params : TransposeParams) (textObject : Option Text)
    (pitch : TransPitch) :
    rootPart (Harm.transposeBass params textObject pitch) = rootPart textObject := by
  unfold Harm.transposeBass
  simp only
  split_ifs with h
  · cases textObject with
    | none => rfl
    | some t =>
      simp only [Harm.SetBassPitch, rootPart, Option.map_some', Text.SetText, Text.GetText,
        slashPos, Option.some.injEq]
      rw [take_length_takeWhile, List.append_assoc, List.singleton_append,
        takeWhile_append_stop _ _ _ _ (by simp)]
  · rfl

theorem getRootPitch_failure (textObject : Option Text) (pitch : TransPitch) (pos : Nat)
    (h : (Harm.GetRootPitch textObject pitch pos).1 = false) :
    Harm.GetRootPitch textObject pitch pos = (false, pitch, pos) := by
  cases textObject with
  | none => rfl
  | some t =>
    rw [getRootPitch_some] at h ⊢
    cases hc : t.GetText[pos]? with
    | none => rfl
    | some c =>
      rw [hc] at h
      simp only at h ⊢
      split_ifs at h ⊢ with hr
      rfl

/-! ## Chord-symbol pitches: claims -/

/-- C22: `Harm::GetRootPitch(pitch, pos)` returns false exactly when the lookup of the text
object of the label gives null, or `pos` is not an index of the text, or the character at
`pos` is not one of `A` to `G`; on failure `pitch` and `pos` are left as they were; and when
it fails at position 0 `Harm::Transpose` returns `FUNCTOR_SIBLINGS` with the text that the
statement on the bass note alone gives, on the unchanged text and pitch, so that the root
part of the text, the characters before the first `/`, is not rewritten. -/
theorem C22_root_pitch_failure (params : TransposeParams) (textObject : Option Text)
    (pitch : TransPitch) (pos : Nat) :
    ((Harm.GetRootPitch textObject pitch pos).1 = false ↔
      textObject = none ∨
      ∃ t, textObject = some t ∧
        (t.GetText.length ≤ pos ∨
          ∃ c, t.GetText[pos]? = some c ∧ ¬ ('A' ≤ c ∧ c ≤ 'G'))) ∧
    ((Harm.GetRootPitch textObject pitch pos).1 = false →
      (Harm.GetRootPitch textObject pitch pos).2 = (pitch, pos)) ∧
    ((Harm.GetRootPitch textObject pitch 0).1 = false →
      Harm.Transpose params textObject pitch
        = (FunctorCode.FUNCTOR_SIBLINGS, Harm.transposeBass params textObject pitch) ∧
      rootPart (Harm.Transpose params textObject pitch).2 = rootPart textObject) := by
  refine ⟨?_, ?_, ?_⟩
  · cases textObject with
    | none => simp [Harm.GetRootPitch]
    | some t =>
      rw [getRootPitch_some]
      cases hc : t.GetText[pos]? with
      | none =>
        have hlen : t.GetText.length ≤ pos := List.getElem?_eq_none_iff.1 hc
        simp [hlen]
      | some c =>
        have hlen : pos < t.GetText.length := by
          by_contra hcon
          rw [List.getElem?_eq_none (not_lt.1 hcon)] at hc
          simp at hc
        by_cases hr : 'A' ≤ c ∧ c ≤ 'G'
        · simp [hr, not_le.2 hlen, hc]
        · simp only [hr, if_false, true_iff]
          exact Or.inr ⟨t, rfl, Or.inr ⟨c, hc, hr⟩⟩
  · intro h
    rw [getRootPitch_failure textObject pitch pos h]
  · intro h
    have hT : Harm.Transpose params textObject pitch
        = (FunctorCode.FUNCTOR_SIBLINGS, Harm.transposeBass params textObject pitch) := by
      unfold Harm.Transpose
      simp only [getRootPitch_failure textObject pitch 0 h, Bool.false_eq_true, if_false]
    refine ⟨hT, ?_⟩
    rw [hT]
    exact rootPart_transposeBass params textObject pitch

/-- C30: when the character `c` at index `p` of the text `t` is one of `A` to `G`,
`Harm::GetRootPitch(pitch, pos)` with `pos = p` returns true; the pitch has the pitch-name
index of `c` (C = 0, D = 1, E = 2, F = 3, G = 4, A = 5, B = 6), which is
`(c - 'C' + 7) mod 7`, the octave 4 and as accidental the sum of the amounts of the maximal
run of accidental characters that directly follows; `pos` is the index just past that run,
with `p < pos ≤ |t|`, and `pos` is the length of the text or the index of a character
that is not an accidental. -/
theorem C30_root_parsing (t : Text) (pitch : TransPitch) (p : Nat) (c : Char)
    (hc : t.GetText[p]? = some c) (hA : 'A' ≤ c) (hG : c ≤ 'G') :
    Harm.GetRootPitch (some t) pitch p
      = (true,
          ⟨pitchNameIndex c, ((accidRun t.GetText p).map accidValue).sum, 4⟩,
          p + 1 + (accidRun t.GetText p).length) ∧
    pitchNameIndex c = ((c.toNat : Int) - ('C'.toNat : Int) + 7) % 7 ∧
    p < p + 1 + (accidRun t.GetText p).length ∧
    p + 1 + (accidRun t.GetText p).length ≤ t.GetText.length ∧
    (p + 1 + (accidRun t.GetText p).length = t.GetText.length ∨
      ∃ d, t.GetText[p + 1 + (accidRun t.GetText p).length]? = some d ∧
        isAccidChar d = false) := by
  have hname : Int.tmod ((c.toNat : Int) - ('C'.toNat : Int) + 7) 7 = pitchNameIndex c ∧
      pitchNameIndex c = ((c.toNat : Int) - ('C'.toNat : Int) + 7) % 7 := by
    rcases letter_cases c hA hG with h | h | h | h | h | h | h <;> subst h <;> decide
  have hlen : p < t.GetText.length := by
    by_contra hcon
    rw [List.getElem?_eq_none (not_lt.1 hcon)] at hc
    simp at hc
  have hrun : (accidRun t.GetText p).length ≤ (t.GetText.drop (p + 1)).length :=
    List.Sublist.length_le (List.takeWhile_sublist _)
  rw [List.length_drop] at hrun
  refine ⟨?_, hname.2, by omega, by omega, ?_⟩
  · rw [getRootPitch_some, hc]
    simp only [hA, hG, and_self, if_true, accidLoop_eq, hname.1, zero_add]
    rfl
  · by_cases hend : p + 1 + (accidRun t.GetText p).length = t.GetText.length
    · exact Or.inl hend
    · right
      have hlt : p + 1 + (accidRun t.GetText p).length < t.GetText.length := by omega
      refine ⟨_, List.getElem?_eq_getElem hlt, ?_⟩
      apply getElem?_length_takeWhile isAccidChar (t.GetText.drop (p + 1))
      rw [List.getElem?_drop]
      exact List.getElem?_eq_getElem hlt

/-- C30 on the chord symbol B, `b`, flat sign, 7, slash, F, `#` from index 0: the pitch
name is B (6), the accidental is -2 and `pos` is 3, the index of the 7. -/
theorem C30_root_parsing_witness :
    Harm.GetRootPitch (some sampleChord) ⟨0, 0, 0⟩ 0 = (true, ⟨6, -2, 4⟩, 3) :=
  (C30_root_parsing sampleChord ⟨0, 0, 0⟩ 0 'B' rfl (by decide) (by decide)).1

/-! ## Harmony spacing: the previous label -/

/-- C23: on a label of the current group whose positioner with the smallest content left
edge (the first one on ties) is `cur`: when `cur` has content, the label has a start and a
recorded previous positioner comes with a recorded previous start, the visit returns
`FUNCTOR_SIBLINGS`, the recorded previous positioner is `cur`, the recorded previous start
is the start of the label and the previous measure is null, whether a tuple is issued or
not; when no previous positioner was recorded before the visit no tuple is issued and no
redistribution is called; when `cur` has no content the bundle is left as it was and no
redistribution is called. -/
theorem C23_previous_bookkeeping (harms : Nat → Harm) (this : Nat)
    (params : AdjustHarmGrpsSpacingParams) (sys : System) (pre post : List FloatingPositioner)
    (cur : FloatingPositioner)
    (hsys : params.m_currentSystem = some sys)
    (hgrp : (harms this).GetDrawingGrpId ≠ 0)
    (hcur : (harms this).GetDrawingGrpId = params.m_currentGrp)
    (hpos : sys.m_systemAligner.FindAllPositionerPointingTo this = pre ++ cur :: post)
    (hpre : ∀ q ∈ pre, cur.GetContentLeft < q.GetContentLeft)
    (hpost : ∀ q ∈ post, cur.GetContentLeft ≤ q.GetContentLeft) :
    (∀ start, cur.HasContentBB = true → (harms this).GetStart = some start →
      (params.m_previousHarmPositioner ≠ none → params.m_previousHarmStart ≠ none) →
      ∃ r, Harm.AdjustHarmGrpsSpacing harms this params = some r ∧
        r.code = FunctorCode.FUNCTOR_SIBLINGS ∧
        r.params.m_previousHarmPositioner = some cur ∧
        r.params.m_previousHarmStart = some start ∧
        r.params.m_previousMeasure = none ∧
        (params.m_previousHarmPositioner = none →
          r.params.m_overlapingHarm = params.m_overlapingHarm ∧ r.adjusted = [])) ∧
    (cur.HasContentBB = false →
      Harm.AdjustHarmGrpsSpacing harms this params
        = some ⟨FunctorCode.FUNCTOR_SIBLINGS, params, []⟩) := by
  have hcur0 : params.m_currentGrp ≠ 0 := by rw [← hcur]; exact hgrp
  have hfold := foldl_keepLeftmostStep_none pre post cur hpre hpost
  have hne : (pre ++ cur :: post).isEmpty = false := by
    cases pre <;> rfl
  constructor
  · intro start hbb hstart hwf
    cases hprev : params.m_previousHarmPositioner with
    | none =>
      refine ⟨⟨FunctorCode.FUNCTOR_SIBLINGS,
        { params with
          m_previousHarmStart := some start
          m_previousHarmPositioner := some cur
          m_previousMeasure := none }, []⟩, ?_, rfl, rfl, rfl, rfl, fun _ => ⟨rfl, rfl⟩⟩
      unfold Harm.AdjustHarmGrpsSpacing
      simp only [hgrp, hcur0, hcur, hsys, hpos, hfold, hbb, hstart, hprev, hne, if_false,
        ne_eq, not_true_eq_false, Bool.not_true, Bool.false_eq_true]
    | some previous =>
      have hps : ∃ previousStart, params.m_previousHarmStart = some previousStart := by
        cases h : params.m_previousHarmStart with
        | none => exact absurd h (hwf (by rw [hprev]; simp))
        | some s => exact ⟨s, rfl⟩
      obtain ⟨previousStart, hps⟩ := hps
      have h := adjustHarmGrpsSpacing_compare harms this params sys pre post cur previous start
        hsys hgrp hcur hpos hpre hpost hbb hstart hprev
      rw [hps] at h
      by_cases hover : 0 < overlapOf params previous cur
      · rw [if_pos hover] at h
        cases hm : params.m_previousMeasure with
        | none =>
          rw [hm] at h
          exact ⟨_, h, rfl, rfl, rfl, rfl, fun hn => by simp at hn⟩
        | some m =>
          rw [hm] at h
          exact ⟨_, h, rfl, rfl, rfl, rfl, fun hn => by simp at hn⟩
      · rw [if_neg hover] at h
        exact ⟨_, h, rfl, rfl, rfl, rfl, fun hn => by simp at hn⟩
  · intro hbb
    unfold Harm.AdjustHarmGrpsSpacing
    simp only [hgrp, hcur0, hcur, hsys, hpos, hfold, hbb, hne, if_false, if_true,
      ne_eq, not_true_eq_false, Bool.not_false, Bool.false_eq_true]

/-- C23 at concrete visits of the label 21, whose leftmost positioner (left edge 80, the
first of two) has content: with the label 20 recorded as the previous one, and with no
previous label recorded, in which case no tuple is issued. -/
theorem C23_previous_bookkeeping_witness :
    (∃ r, Harm.AdjustHarmGrpsSpacing sampleSpacingHarms 21 sampleSpacingParams = some r ∧
      r.code = FunctorCode.FUNCTOR_SIBLINGS ∧
      r.params.m_previousHarmPositioner = some ⟨202, 21, 80, 150, true⟩ ∧
      r.params.m_previousHarmStart = some ⟨2001, 601⟩ ∧
      r.params.m_previousMeasure = none ∧
      (sampleSpacingParams.m_previousHarmPositioner = none →
        r.params.m_overlapingHarm = sampleSpacingParams.m_overlapingHarm ∧
        r.adjusted = [])) :=
  (C23_previous_bookkeeping sampleSpacingHarms 21 sampleSpacingParams sampleHarmSystem
    [⟨201, 21, 90, 150, true⟩] [⟨203, 21, 80, 140, true⟩] ⟨202, 21, 80, 150, true⟩
    rfl (by decide) (by decide) (by decide) (by decide) (by decide)).1 ⟨2001, 601⟩ rfl rfl
    (by decide)

/-! ## Ligatures: further claims -/

/-- C24: in a run, for the pair of the consecutive notes `a` and `b` after the notes `pre`
and before the notes `post`, `b` being a brevis not above `a`, `a` a longa, a maxima or a
brevis without `@lig="obliqua"`: when the pair is neither the first nor the last one, the
step of the first loop for the pair changes no shape, it only adds the default shape of
`b`; when the pair is the first or the last one and `a` is not a maxima, the step sets the
shape of `a` to oblique (with stem-left-down for a brevis in the first pair), removes the
oblique flag from the shape before it when there is one, and changes no other shape. -/
theorem C24_automatic_oblique (staff : Staff) (this : Ligature) (pre : List Note)
    (a b : Note) (post : List Note)
    (hnotes : this.notes = pre ++ a :: b :: post)
    (hdur1 : isLongaOrMaxima a.GetActualDur ∨ a.GetActualDur = DUR_BR)
    (hdur2 : b.GetActualDur = DUR_BR)
    (hdown : b.GetDiatonicPitch ≤ a.GetDiatonicPitch)
    (hlig : a.GetLig ≠ data_LIGATUREFORM.LIGATUREFORM_obliqua) :
    ∃ st st', this.shapeStateAfter staff (pre.length + 1) = some st ∧
      this.shapeStateAfter staff (pre.length + 2) = some st' ∧
      st.m_drawingShapes.length = pre.length + 1 ∧
      (pre ≠ [] → post ≠ [] →
        st'.m_drawingShapes = st.m_drawingShapes ++ [LIGATURE_DEFAULT]) ∧
      ((pre = [] ∨ post = []) → a.GetActualDur ≠ DUR_MX →
        st'.m_drawingShapes[pre.length]?
          = some (if a.GetActualDur = DUR_BR ∧ pre = []
              then LIGATURE_OBLIQUE ||| LIGATURE_STEM_LEFT_DOWN else LIGATURE_OBLIQUE) ∧
        st'.m_drawingShapes[pre.length + 1]? = some LIGATURE_DEFAULT ∧
        (pre ≠ [] →
          st'.m_drawingShapes[pre.length - 1]?
            = (st.m_drawingShapes[pre.length - 1]?).map (fun s => andNot s LIGATURE_OBLIQUE) ∧
          ¬ hasFlag (st'.m_drawingShapes[pre.length - 1]?.getD 0) LIGATURE_OBLIQUE) ∧
        (∀ j, j + 1 < pre.length → st'.m_drawingShapes[j]? = st.m_drawingShapes[j]?)) := by
  obtain ⟨st, hrun, -, h1, h2⟩ := shapeStateAfter_pair staff this pre a b post hnotes
  obtain ⟨hprev, hn1, hn2, hlen, hob1, hob2⟩ := shapeRunInv_facts _ st pre a hrun
  refine ⟨st, _, h1, h2, hlen, ?_, ?_⟩
  · intro hpre hpost
    have hlast : post.isEmpty = false := by cases post with
      | nil => exact absurd rfl hpost
      | cons _ _ => rfl
    have hpos : 0 < st.n1 := by rw [hn1]; exact List.length_pos.2 hpre
    rw [shapeLoopBodyTotal_shapes _ _ a b st hprev,
      pairShapes_brevis_down _ _ a b _ _ _ _ _ hdur2 hdown, if_neg hlig, hob1 hpre,
      ligatureForceObliqueTotal_false,
      ligatureTableTotal_brevis_noop _ _ _ _ _ _ hdur1 (Or.inr ⟨hpos, hlast⟩)]
  · intro hend hmx
    have hdur1' : a.GetActualDur = DUR_LG ∨ a.GetActualDur = DUR_BR := by
      rcases hdur1 with (h | h) | h
      · exact Or.inl h
      · exact absurd h hmx
      · exact Or.inr h
    have hend' : st.n1 = 0 ∨ post.isEmpty = true := by
      rcases hend with h | h
      · left; rw [hn1, h]; rfl
      · right; rw [h]; rfl
    have hslen : (st.m_drawingShapes ++ [LIGATURE_DEFAULT]).length = pre.length + 2 := by
      rw [List.length_append, hlen]; rfl
    have hsget : ∀ j, j ≤ pre.length →
        (st.m_drawingShapes ++ [LIGATURE_DEFAULT])[j]? = st.m_drawingShapes[j]? := by
      intro j hj
      rw [List.getElem?_append_left (by omega)]
    have hsnew : (st.m_drawingShapes ++ [LIGATURE_DEFAULT])[pre.length + 1]?
        = some LIGATURE_DEFAULT := by
      rw [List.getElem?_append_right (by omega), hlen]
      simp
    rw [shapeLoopBodyTotal_shapes _ _ a b st hprev,
      pairShapes_brevis_down _ _ a b _ _ _ _ _ hdur2 hdown, if_neg hlig,
      ligatureTableTotal_brevis_oblique _ _ _ _ _ _ hdur1' hend', hn1]
    generalize hs : st.m_drawingShapes ++ [LIGATURE_DEFAULT] = s at hslen hsget hsnew
    by_cases hpre : pre = []
    · subst hpre
      simp only [List.length_nil, Nat.lt_irrefl, if_false, and_true, Nat.zero_add,
        ne_eq, not_true_eq_false, false_implies, Nat.not_lt_zero, implies_true, true_and,
        gt_iff_lt] at hslen hsget hsnew ⊢
      have h0 : 0 < s.length := by omega
      unfold ligatureForceObliqueTotal
      simp only [Nat.lt_irrefl, if_false, gt_iff_lt]
      constructor
      · split_ifs <;>
          simp only [getElem?_setShape, if_true, List.getElem?_eq_getElem h0,
            Option.map_some', Option.some.injEq] <;> decide
      · split_ifs <;>
          simp only [getElem?_setShape, Nat.zero_ne_one, if_false, hsnew]
    · have hpos : 0 < pre.length := List.length_pos.2 hpre
      have hne1 : ¬ pre.length - 1 = pre.length := by omega
      rw [hob1 hpre, ligatureForceObliqueTotal_false, if_pos hpos]
      refine ⟨?_, ?_, fun _ => ⟨?_, ?_⟩, ?_⟩
      · rw [getElem?_setShape, if_neg hne1, getElem?_setShape, if_pos rfl,
          List.getElem?_eq_getElem (by omega), if_neg (fun h => hpre h.2)]
        rfl
      · rw [getElem?_setShape, if_neg (by omega : ¬ pre.length - 1 = pre.length + 1),
          getElem?_setShape, if_neg (by omega : ¬ pre.length = pre.length + 1), hsnew]
      · rw [getElem?_setShape, if_pos rfl, getElem?_setShape, if_neg (Ne.symm hne1),
          hsget _ (by omega)]
      · rw [getElem?_setShape, if_pos rfl, getElem?_setShape, if_neg (Ne.symm hne1)]
        cases hx : s[pre.length - 1]? with
        | none => exact (show ¬ hasFlag 0 LIGATURE_OBLIQUE by decide)
        | some x => exact not_hasFlag_andNot_oblique x
      · intro j hj
        rw [getElem?_setShape, if_neg (by omega : ¬ pre.length - 1 = j),
          getElem?_setShape, if_neg (by omega : ¬ pre.length = j), hsget _ (by omega)]

/-- C24 on the run longa at G4, brevis at E4, brevis at C4, brevis at A3, for the pair of
the two breves in the middle. -/
theorem C24_automatic_oblique_witness :
    ∃ st st',
      (sampleLigature sampleDescending).shapeStateAfter sampleWhiteStaff
          ([sampleNote DUR_LG 32 0].length + 1) = some st ∧
      (sampleLigature sampleDescending).shapeStateAfter sampleWhiteStaff
          ([sampleNote DUR_LG 32 0].length + 2) = some st' ∧
      st.m_drawingShapes.length = [sampleNote DUR_LG 32 0].length + 1 ∧
      ([sampleNote DUR_LG 32 0] ≠ [] → [sampleNote DUR_BR 26 0] ≠ [] →
        st'.m_drawingShapes = st.m_drawingShapes ++ [LIGATURE_DEFAULT]) ∧
      (([sampleNote DUR_LG 32 0] = [] ∨ [sampleNote DUR_BR 26 0] = []) →
        (sampleNote DUR_BR 30 0).GetActualDur ≠ DUR_MX →
        st'.m_drawingShapes[[sampleNote DUR_LG 32 0].length]?
          = some (if (sampleNote DUR_BR 30 0).GetActualDur = DUR_BR
                ∧ [sampleNote DUR_LG 32 0] = []
              then LIGATURE_OBLIQUE ||| LIGATURE_STEM_LEFT_DOWN else LIGATURE_OBLIQUE) ∧
        st'.m_drawingShapes[[sampleNote DUR_LG 32 0].length + 1]? = some LIGATURE_DEFAULT ∧
        ([sampleNote DUR_LG 32 0] ≠ [] →
          st'.m_drawingShapes[[sampleNote DUR_LG 32 0].length - 1]?
            = (st.m_drawingShapes[[sampleNote DUR_LG 32 0].length - 1]?).map
                (fun s => andNot s LIGATURE_OBLIQUE) ∧
          ¬ hasFlag (st'.m_drawingShapes[[sampleNote DUR_LG 32 0].length - 1]?.getD 0)
            LIGATURE_OBLIQUE) ∧
        (∀ j, j + 1 < [sampleNote DUR_LG 32 0].length →
          st'.m_drawingShapes[j]? = st.m_drawingShapes[j]?)) :=
  C24_automatic_oblique sampleWhiteStaff (sampleLigature sampleDescending)
    [sampleNote DUR_LG 32 0] (sampleNote DUR_BR 30 0) (sampleNote DUR_BR 28 0)
    [sampleNote DUR_BR 26 0] rfl (Or.inr rfl) rfl (by decide) (by decide)

/-- C25: for every run in which no maxima is immediately followed by a brevis at the same or
a lower pitch, the shapes that `CalcLigatureNotePos` leaves are those that it leaves on the
run with every maxima replaced by a longa; and for a maxima `a` without `@lig="obliqua"`
immediately followed by a brevis `b` at the same or a lower pitch, in a ligature that is not
a run of two notes with `@form="obliqua"`, the step of the first loop for the pair changes
no shape, it only adds the default shape of `b`, and the shape of the maxima does not carry
the oblique flag after it. -/
theorem C25_maxima_as_longa (params : FunctorDocParams) (staff : Staff) (this : Ligature) :
    (List.Chain' noMaximaBrevisDown this.notes →
      (Ligature.CalcLigatureNotePos params staff
          { this with notes := this.notes.map maximaAsLonga }).map
          (fun r => r.2.m_drawingShapes)
        = (Ligature.CalcLigatureNotePos params staff this).map
            (fun r => r.2.m_drawingShapes)) ∧
    (∀ (pre : List Note) (a b : Note) (post : List Note),
      this.notes = pre ++ a :: b :: post →
      a.GetActualDur = DUR_MX → b.GetActualDur = DUR_BR →
      b.GetDiatonicPitch ≤ a.GetDiatonicPitch →
      a.GetLig ≠ data_LIGATUREFORM.LIGATUREFORM_obliqua →
      ¬ (this.notes.length = 2 ∧ this.form = data_LIGATUREFORM.LIGATUREFORM_obliqua) →
      ∃ st st', this.shapeStateAfter staff (pre.length + 1) = some st ∧
        this.shapeStateAfter staff (pre.length + 2) = some st' ∧
        st.m_drawingShapes.length = pre.length + 1 ∧
        st'.m_drawingShapes = st.m_drawingShapes ++ [LIGATURE_DEFAULT] ∧
        ¬ hasFlag (st'.m_drawingShapes[pre.length]?.getD 0) LIGATURE_OBLIQUE) := by
  constructor
  · intro hch
    by_cases hbracket : params.m_doc.m_ligatureAsBracket = true
    · simp only [Ligature.CalcLigatureNotePos, hbracket, if_true, Option.map_some']
    · have hb : params.m_doc.m_ligatureAsBracket = false := by simpa using hbracket
      by_cases hn : 2 ≤ this.notes.length
      · rw [calcLigatureNotePos_eq params staff this hb hn,
          calcLigatureNotePos_eq params staff _ hb (by simpa using hn)]
        simp only [Option.map_some', ligatureShapes_maximaAsLonga staff this.form this.notes hch]
      · obtain ⟨form, notes, shapes⟩ := this
        cases notes with
        | nil => simp [Ligature.CalcLigatureNotePos, hb, Ligature.GetList]
        | cons a rest =>
          cases rest with
          | nil => simp [Ligature.CalcLigatureNotePos, hb, Ligature.GetList]
          | cons b rest => simp at hn
  · intro pre a b post hnotes hdur1 hdur2 hdown hlig hform
    obtain ⟨st, hrun, hobl, h1, h2⟩ := shapeStateAfter_pair staff this pre a b post hnotes
    obtain ⟨hprev, hn1, hn2, hlen, hob1, hob2⟩ := shapeRunInv_facts _ st pre a hrun
    have hob : st.oblique = false := by
      by_cases hpre : pre = []
      · rw [hob2 hpre]; exact decide_eq_false hform
      · exact hob1 hpre
    have hshapes : (shapeLoopBodyTotal
        (decide (staff.m_drawingNotationType
          = data_NOTATIONTYPE.NOTATIONTYPE_mensural_black))
        post.isEmpty b st).m_drawingShapes = st.m_drawingShapes ++ [LIGATURE_DEFAULT] := by
      rw [shapeLoopBodyTotal_shapes _ _ a b st hprev,
        pairShapes_brevis_down _ _ a b _ _ _ _ _ hdur2 hdown, if_neg hlig, hob,
        ligatureForceObliqueTotal_false,
        ligatureTableTotal_brevis_noop _ _ _ _ _ _ (Or.inl (Or.inr hdur1)) (Or.inl hdur1)]
    refine ⟨st, _, h1, h2, hlen, hshapes, ?_⟩
    rw [hshapes, List.getElem?_append_left (by omega)]
    have hlast : st.m_drawingShapes.getLast? = st.m_drawingShapes[pre.length]? := by
      rw [List.getLast?_eq_getElem?, hlen, Nat.add_sub_cancel]
    rw [← hlast]
    exact hobl.2

/-- C25 on the run maxima at E4, brevis at C4, longa at E4, for the pair of the maxima and
the brevis. -/
theorem C25_maxima_as_longa_witness :
    ∃ st st', (sampleLigature sampleMaximaRun).shapeStateAfter sampleWhiteStaff 1 = some st ∧
      (sampleLigature sampleMaximaRun).shapeStateAfter sampleWhiteStaff 2 = some st' ∧
      st.m_drawingShapes.length = 1 ∧
      st'.m_drawingShapes = st.m_drawingShapes ++ [LIGATURE_DEFAULT] ∧
      ¬ hasFlag (st'.m_drawingShapes[0]?.getD 0) LIGATURE_OBLIQUE :=
  (C25_maxima_as_longa sampleLigatureParams sampleWhiteStaff
    (sampleLigature sampleMaximaRun)).2 [] (sampleNote DUR_MX 30 0) (sampleNote DUR_BR 28 0)
    [sampleNote DUR_LG 30 0] rfl rfl rfl (by decide) (by decide) (by decide)

/-- C26: with the ligature-as-bracket option off, on a run of at least two notes for which
the shapes that `CalcLigatureNotePos` leaves hold no stacked flag and no pair has an oblique
first note with an interval of absolute value above 2, the x-offset of the note at index `k`
is the sum of the widths of the notes before it (0 for the first note); and when no width is
negative the x-offsets do not decrease along the run. -/
theorem C26_cumulative_widths (params : FunctorDocParams) (staff : Staff) (this : Ligature)
    (hbracket : params.m_doc.m_ligatureAsBracket = false) (hn : 2 ≤ this.notes.length) :
    ∃ r, Ligature.CalcLigatureNotePos params staff this
        = some (FunctorCode.FUNCTOR_SIBLINGS, r) ∧
      ((∀ x ∈ r.m_drawingShapes, ¬ hasFlag x LIGATURE_STACKED) →
        (∀ pre a b post, this.notes = pre ++ a :: b :: post →
          ¬ (hasFlag (r.m_drawingShapes[pre.length]?.getD 0) LIGATURE_OBLIQUE
            ∧ ((b.GetDiatonicPitch - a.GetDiatonicPitch).natAbs : Int) > 2)) →
        (∀ (k : Nat) (note : Note), this.notes[k]? = some note →
          r.notes[k]?
            = some (note.SetDrawingXRel (widthsBefore params staff this.notes k))) ∧
        ((∀ note ∈ this.notes, 0 ≤ noteWidth params staff note) →
          ∀ (i j : Nat) (a b : Note), i ≤ j → r.notes[i]? = some a →
            r.notes[j]? = some b →
            a.GetDrawingXRel ≤ b.GetDrawingXRel)) := by
  refine ⟨_, calcLigatureNotePos_eq params staff this hbracket hn, ?_⟩
  intro hst hpair
  simp only at hst hpair ⊢
  have hget : ∀ (k : Nat) (note : Note), this.notes[k]? = some note →
      (placeNotes this.notes (codeOffsets params staff
        (ligatureShapes staff this.form this.notes) this.notes))[k]?
        = some (note.SetDrawingXRel (widthsBefore params staff this.notes k)) := by
    intro k note hk
    have hlt : k < this.notes.length := by
      by_contra hcon
      rw [List.getElem?_eq_none (not_lt.1 hcon)] at hk
      simp at hk
    exact getElem?_placeNotes _ _ _ _ _ hk
      (codeOffsets_plain params staff _ this.notes hst hpair k hlt)
  refine ⟨hget, ?_⟩
  intro hw i j a b hij ha hb
  have hlen : (placeNotes this.notes (codeOffsets params staff
      (ligatureShapes staff this.form this.notes) this.notes)).length = this.notes.length :=
    length_placeNotes _ _ (length_codeOffsets _ _ _ _)
  have hi : i < this.notes.length := by
    by_contra hcon
    rw [List.getElem?_eq_none (by omega)] at ha
    simp at ha
  have hj : j < this.notes.length := by
    by_contra hcon
    rw [List.getElem?_eq_none (by omega)] at hb
    simp at hb
  rw [hget i _ (List.getElem?_eq_getElem hi), Option.some.injEq] at ha
  rw [hget j _ (List.getElem?_eq_getElem hj), Option.some.injEq] at hb
  rw [← ha, ← hb]
  exact widthsBefore_mono params staff this.notes hw i j hij

/-- C26 on the run brevis at C4, brevis at E4 on a staff in white mensural notation: the
widths are 18. -/
theorem C26_cumulative_widths_witness :
    ∃ r, Ligature.CalcLigatureNotePos sampleLigatureParams sampleWhiteStaff
          (sampleLigature sampleBrevisUp) = some (FunctorCode.FUNCTOR_SIBLINGS, r) ∧
      ((∀ x ∈ r.m_drawingShapes, ¬ hasFlag x LIGATURE_STACKED) →
        (∀ pre a b post, sampleBrevisUp = pre ++ a :: b :: post →
          ¬ (hasFlag (r.m_drawingShapes[pre.length]?.getD 0) LIGATURE_OBLIQUE
            ∧ ((b.GetDiatonicPitch - a.GetDiatonicPitch).natAbs : Int) > 2)) →
        (∀ (k : Nat) (note : Note), sampleBrevisUp[k]? = some note →
          r.notes[k]? = some (note.SetDrawingXRel
            (widthsBefore sampleLigatureParams sampleWhiteStaff sampleBrevisUp k))) ∧
        ((∀ note ∈ sampleBrevisUp,
            0 ≤ noteWidth sampleLigatureParams sampleWhiteStaff note) →
          ∀ (i j : Nat) (a b : Note), i ≤ j → r.notes[i]? = some a →
            r.notes[j]? = some b →
            a.GetDrawingXRel ≤ b.GetDrawingXRel)) :=
  C26_cumulative_widths sampleLigatureParams sampleWhiteStaff (sampleLigature sampleBrevisUp)
    rfl (by decide)

/-- C28: with the ligature-as-bracket option off, on every run of at least two notes
`CalcLigatureNotePos` returns shapes, one per note, among which no two adjacent ones both
carry the oblique flag, and the one of the last note does not carry it. -/
theorem C28_oblique_never_collide (params : FunctorDocParams) (staff : Staff)
    (this : Ligature)
    (hbracket : params.m_doc.m_ligatureAsBracket = false) (hn : 2 ≤ this.notes.length) :
    ∃ r, Ligature.CalcLigatureNotePos params staff this
        = some (FunctorCode.FUNCTOR_SIBLINGS, r) ∧
      r.m_drawingShapes.length = this.notes.length ∧
      (∀ j, ¬ (hasFlag (r.m_drawingShapes[j]?.getD 0) LIGATURE_OBLIQUE
        ∧ hasFlag (r.m_drawingShapes[j + 1]?.getD 0) LIGATURE_OBLIQUE)) ∧
      ¬ hasFlag (r.m_drawingShapes[this.notes.length - 1]?.getD 0) LIGATURE_OBLIQUE := by
  have hlen := length_ligatureShapes staff this.form this.notes
  obtain ⟨h1, h2⟩ := ligatureShapes_obliqueInv staff this.form this.notes
  refine ⟨_, calcLigatureNotePos_eq params staff this hbracket hn, hlen, h1, ?_⟩
  simp only
  rw [List.getLast?_eq_getElem?, hlen] at h2
  exact h2

/-- C28 on the run longa at G4, brevis at C4, brevis at D4, longa at A4 in black mensural
notation, whose first shape is oblique. -/
theorem C28_oblique_never_collide_witness :
    ∃ r, Ligature.CalcLigatureNotePos sampleLigatureParams sampleBlackStaff
          (sampleLigature sampleFourNotes) = some (FunctorCode.FUNCTOR_SIBLINGS, r) ∧
      r.m_drawingShapes.length = 4 ∧
      (∀ j, ¬ (hasFlag (r.m_drawingShapes[j]?.getD 0) LIGATURE_OBLIQUE
        ∧ hasFlag (r.m_drawingShapes[j + 1]?.getD 0) LIGATURE_OBLIQUE)) ∧
      ¬ hasFlag (r.m_drawingShapes[4 - 1]?.getD 0) LIGATURE_OBLIQUE :=
  C28_oblique_never_collide sampleLigatureParams sampleBlackStaff
    (sampleLigature sampleFourNotes) rfl (by decide)

/-- C29: with the ligature-as-bracket option off, on every run of at least two notes no
access to the shapes is out of range: the first loop runs to its end and leaves one shape
per note, the second loop runs to its end on these shapes, and `CalcLigatureNotePos`
returns `FUNCTOR_SIBLINGS` with the shapes and the notes that the two loops give. -/
theorem C29_index_safety (params : FunctorDocParams) (staff : Staff) (this : Ligature)
    (hbracket : params.m_doc.m_ligatureAsBracket = false) (hn : 2 ≤ this.notes.length) :
    ∃ st placed,
      shapeLoop
          (decide (staff.m_drawingNotationType
            = data_NOTATIONTYPE.NOTATIONTYPE_mensural_black))
          this.notes
          { m_drawingShapes := [], previousNote := none, previousUp := false, n1 := 0,
            n2 := 1,
            oblique := decide (this.notes.length = 2
              ∧ this.form = data_LIGATUREFORM.LIGATUREFORM_obliqua) } = some st ∧
      st.m_drawingShapes.length = this.notes.length ∧
      posLoop params staff st.m_drawingShapes this.notes
        { previousRight := 0, previousNote := none, n1 := 0 } = some placed ∧
      Ligature.CalcLigatureNotePos params staff this
        = some (FunctorCode.FUNCTOR_SIBLINGS,
            { form := this.form, notes := placed, m_drawingShapes := st.m_drawingShapes }) := by
  obtain ⟨hloop, hinv⟩ := shapeLoop_eq
    (decide (staff.m_drawingNotationType = data_NOTATIONTYPE.NOTATIONTYPE_mensural_black))
    this.notes
    { m_drawingShapes := [], previousNote := none, previousUp := false, n1 := 0, n2 := 1,
      oblique := decide (this.notes.length = 2
        ∧ this.form = data_LIGATUREFORM.LIGATUREFORM_obliqua) } 0
    ⟨rfl, Or.inl ⟨rfl, rfl, rfl, rfl⟩⟩
  have hlen := hinv.1
  rw [Nat.zero_add] at hlen
  refine ⟨_, _, hloop, hlen, posLoop_first params staff _ this.notes (by omega) (by omega), ?_⟩
  exact calcLigatureNotePos_eq params staff this hbracket hn

/-- C29 on the run longa at G4, brevis at C4, brevis at D4, longa at A4. -/
theorem C29_index_safety_witness :
    ∃ st placed,
      shapeLoop true sampleFourNotes
          { m_drawingShapes := [], previousNote := none, previousUp := false, n1 := 0,
            n2 := 1, oblique := false } = some st ∧
      st.m_drawingShapes.length = 4 ∧
      posLoop sampleLigatureParams sampleBlackStaff st.m_drawingShapes sampleFourNotes
        { previousRight := 0, previousNote := none, n1 := 0 } = some placed ∧
      Ligature.CalcLigatureNotePos sampleLigatureParams sampleBlackStaff
          (sampleLigature sampleFourNotes)
        = some (FunctorCode.FUNCTOR_SIBLINGS,
            { form := data_LIGATUREFORM.LIGATUREFORM_NONE, notes := placed,
              m_drawingShapes := st.m_drawingShapes }) :=
  C29_index_safety sampleLigatureParams sampleBlackStaff (sampleLigature sampleFourNotes)
    rfl (by decide)

/-! ## Reference lists: claims -/

/-- C31: `PlistInterface::AddRef(ref)` leaves the interface as it was when `ref` is an entry
of the plist, and otherwise sets the plist to the old entries followed by `ref`; a second
`AddRef(ref)` changes nothing, and a plist without duplicates stays without duplicates.
`AddRefAllowDuplicate(ref)` always sets the plist to the old entries followed by `ref`, one
entry more with `ref` as the last one. `SetRef(ref)` leaves the interface as it was when the
reference is not valid or is already resolved, and otherwise appends it to the resolved
references, so that resolved references without duplicates stay without duplicates; it
never touches the plist. -/
theorem C31_reference_list (IsValidRef : Nat → Bool) (this : PlistInterface) (ref : String)
    (object : Nat) :
    (ref ∈ this.GetPlist → this.AddRef ref = this) ∧
    (ref ∉ this.GetPlist → this.AddRef ref = this.SetPlist (this.GetPlist ++ [ref])) ∧
    (this.AddRef ref).AddRef ref = this.AddRef ref ∧
    (this.GetPlist.Nodup → (this.AddRef ref).GetPlist.Nodup) ∧
    (this.AddRefAllowDuplicate ref = this.SetPlist (this.GetPlist ++ [ref]) ∧
      (this.AddRefAllowDuplicate ref).GetPlist.length = this.GetPlist.length + 1 ∧
      (this.AddRefAllowDuplicate ref).GetPlist.getLast? = some ref) ∧
    (IsValidRef object = false → this.SetRef IsValidRef object = this) ∧
    (object ∈ this.m_references → this.SetRef IsValidRef object = this) ∧
    (IsValidRef object = true → object ∉ this.m_references →
      this.SetRef IsValidRef object
        = { this with m_references := this.m_references ++ [object] }) ∧
    (this.m_references.Nodup → (this.SetRef IsValidRef object).m_references.Nodup) ∧
    (this.SetRef IsValidRef object).GetPlist = this.GetPlist := by
  have hkeep : ∀ x : PlistInterface, ref ∈ x.GetPlist → x.AddRef ref = x := by
    intro x h
    unfold PlistInterface.AddRef
    simp only [h, not_true_eq_false, if_false]
  have hadd1 : ref ∈ this.GetPlist → this.AddRef ref = this := hkeep this
  have hadd2 : ref ∉ this.GetPlist →
      this.AddRef ref = this.SetPlist (this.GetPlist ++ [ref]) := by
    intro h
    unfold PlistInterface.AddRef
    simp only [h, not_false_eq_true, if_true]
  have hmem : ref ∈ (this.AddRef ref).GetPlist := by
    by_cases h : ref ∈ this.GetPlist
    · rw [hadd1 h]; exact h
    · rw [hadd2 h]
      simp [PlistInterface.SetPlist, PlistInterface.GetPlist]
  refine ⟨hadd1, hadd2, ?_, ?_, ⟨rfl, ?_, ?_⟩, ?_, ?_, ?_, ?_, ?_⟩
  · exact hkeep _ hmem
  · intro hnd
    by_cases h : ref ∈ this.GetPlist
    · rw [hadd1 h]; exact hnd
    · rw [hadd2 h]
      simp only [PlistInterface.SetPlist, PlistInterface.GetPlist] at h hnd ⊢
      exact List.Nodup.append hnd (List.nodup_singleton ref)
        (fun a ha hb => h ((List.mem_singleton.1 hb) ▸ ha))
  · simp [PlistInterface.AddRefAllowDuplicate, PlistInterface.SetPlist,
      PlistInterface.GetPlist]
  · simp [PlistInterface.AddRefAllowDuplicate, PlistInterface.SetPlist,
      PlistInterface.GetPlist]
  · intro h
    unfold PlistInterface.SetRef
    simp [h]
  · intro h
    unfold PlistInterface.SetRef
    split_ifs
    · rfl
    · rfl
  · intro hv h
    unfold PlistInterface.SetRef
    simp [hv, h]
  · intro hnd
    unfold PlistInterface.SetRef
    split_ifs with hv h
    · exact hnd
    · exact hnd
    · exact List.Nodup.append hnd (List.nodup_singleton object)
        (fun a ha hb => h ((List.mem_singleton.1 hb) ▸ ha))
  · unfold PlistInterface.SetRef
    split_ifs <;> rfl

/-- C31 on an interface with the plist `#a`, `#b` and the references 7 and 9: `#c` is
appended once, `#a` is not appended by `AddRef` and is by `AddRefAllowDuplicate`; the
reference 8 is appended when it is valid, ignored when it is not, and 7 is not appended
again. -/
theorem C31_reference_list_witness :
    samplePlist.AddRef "#c" = ⟨["#a", "#b", "#c"], ["a", "b"], [7, 9]⟩ ∧
    (samplePlist.AddRef "#c").AddRef "#c" = samplePlist.AddRef "#c" ∧
    samplePlist.AddRef "#a" = samplePlist ∧
    (samplePlist.AddRefAllowDuplicate "#a").GetPlist = ["#a", "#b", "#a"] ∧
    samplePlist.SetRef (fun _ => true) 8 = ⟨["#a", "#b"], ["a", "b"], [7, 9, 8]⟩ ∧
    samplePlist.SetRef (fun _ => false) 8 = samplePlist ∧
    samplePlist.SetRef (fun _ => true) 7 = samplePlist :=
  ⟨(C31_reference_list (fun _ => true) samplePlist "#c" 8).2.1 (by decide),
    (C31_reference_list (fun _ => true) samplePlist "#c" 8).2.2.1,
    (C31_reference_list (fun _ => true) samplePlist "#a" 8).1 (by decide),
    congrArg PlistInterface.GetPlist
      (C31_reference_list (fun _ => true) samplePlist "#a" 8).2.2.2.2.1.1,
    (C31_reference_list (fun _ => true) samplePlist "#c" 8).2.2.2.2.2.2.2.1 rfl (by decide),
    (C31_reference_list (fun _ => false) samplePlist "#c" 8).2.2.2.2.2.1 rfl,
    (C31_reference_list (fun _ => true) samplePlist "#c" 7).2.2.2.2.2.2.1 (by decide)⟩

end vrv
